import Mathlib

set_option maxHeartbeats 1000000
set_option linter.unusedSectionVars false

/-!
Verification of a single-instrument limit order book (Python source
`main.py`).  The development shallowly embeds the source: the `Order`
record, the CPython `heapq` routines (`heappush`, `heappop`, `_siftdown`,
`_siftup`) specialised to lists, the matching loop `_process_order`, and
the two public operations `place_order` and `cancel_order`.  Python
mutates a shared `Order` object referenced both from the registry maps
and from a heap; the embedding keeps the two copies explicitly in sync,
which is observably equivalent because every order has at most one live
heap entry.  Prices and quantities are modelled as integers: the source
only compares prices, tests them for truthiness and formats them, and on
integer inputs (the only ones the spec exercises) these operations agree
exactly with Python floats.  The source builds match descriptor strings
inside the loop with an f-string; the embedding records the same data as
a `MatchItem` and renders it with `MatchItem.render`, so the returned
strings are identical.  Iteration is expressed with an explicit fuel
argument that every caller instantiates with a proven-sufficient bound,
keeping all definitions kernel-computable.
-/

namespace LimitOrderBook

/-- The `Order` record from `main.py`: immutable identity (`order_id`,
`side`, `price`, `order_number`) plus the mutable remaining `quantity`.
`side` stores the lowercased string, as assigned in `Order.__init__`. -/
structure Order where
  order_id : String
  side : String
  price : ℤ
  quantity : ℤ
  order_number : ℕ
deriving DecidableEq, Inhabited

/-- `Order.__lt__`: buy orders compare by `(price, -order_number)`
descending, sell orders by `(price, order_number)` ascending, with
Python's lexicographic tuple comparison spelled out. -/
def Order.lt (a b : Order) : Bool :=
  if a.side = "buy" then
    decide (a.price > b.price ∨ (a.price = b.price ∧
      -(a.order_number : ℤ) > -(b.order_number : ℤ)))
  else
    decide (a.price < b.price ∨ (a.price = b.price ∧
      (a.order_number : ℤ) < (b.order_number : ℤ)))

section Heapq

variable {α : Type} [Inhabited α]

/-- The loop of CPython `heapq._siftdown`, walking `pos` up toward
`startpos` and shifting larger parents down.  The fuel argument is
always called with `pos`, which bounds the number of iterations since
`pos` strictly decreases. -/
def siftdownAux (lt : α → α → Bool) (newitem : α) (startpos : ℕ) :
    ℕ → List α → ℕ → List α × ℕ
  | 0, heap, pos => (heap, pos)
  | fuel+1, heap, pos =>
    if startpos < pos then
      let parentpos := (pos - 1) / 2
      let parent := heap.getD parentpos default
      if lt newitem parent then
        siftdownAux lt newitem startpos fuel (heap.set pos parent) parentpos
      else (heap, pos)
    else (heap, pos)

/-- CPython `heapq._siftdown heap startpos pos`: the item at `pos`
bubbles up until its parent is not larger. -/
def siftdown (lt : α → α → Bool) (heap : List α) (startpos pos : ℕ) : List α :=
  let newitem := heap.getD pos default
  let hp := siftdownAux lt newitem startpos pos heap pos
  hp.1.set hp.2 newitem

/-- CPython `heapq.heappush`: append, then sift the new leaf up. -/
def heappush (lt : α → α → Bool) (heap : List α) (item : α) : List α :=
  siftdown lt (heap ++ [item]) 0 heap.length

/-- The loop of CPython `heapq._siftup`: the hole at `pos` sinks to a
leaf, each step promoting the smaller child.  The fuel argument is
always called with `heap.length`, which bounds the iterations since
`pos` strictly increases below the length. -/
def siftupAux (lt : α → α → Bool) : ℕ → List α → ℕ → List α × ℕ
  | 0, heap, pos => (heap, pos)
  | fuel+1, heap, pos =>
    let childpos := 2*pos+1
    if childpos < heap.length then
      let childpos := if childpos + 1 < heap.length
          && !(lt (heap.getD childpos default) (heap.getD (childpos+1) default))
        then childpos + 1 else childpos
      siftupAux lt fuel (heap.set pos (heap.getD childpos default)) childpos
    else (heap, pos)

/-- CPython `heapq._siftup heap pos`: sink the hole to a leaf, place the
item there, then sift it back up toward `pos`. -/
def siftup (lt : α → α → Bool) (heap : List α) (pos : ℕ) : List α :=
  let newitem := heap.getD pos default
  let hp := siftupAux lt heap.length heap pos
  siftdown lt (hp.1.set hp.2 newitem) pos hp.2

/-- CPython `heapq.heappop`: pop the last element; if the heap is still
non-empty, return the root, move the last element to the root and sift
it up.  Returns `none` on an empty heap (Python raises `IndexError`). -/
def heappop (lt : α → α → Bool) (heap : List α) : Option (α × List α) :=
  match heap with
  | [] => none
  | [x] => some (x, [])
  | x :: y :: ys =>
    let l := x :: y :: ys
    let lastelt := l.getD (l.length - 1) default
    some (x, siftup lt ((l.take (l.length - 1)).set 0 lastelt) 0)

end Heapq

/-- The data of one match descriptor
`f'{opposite_id} ({matched_quantity} @ {opposite_price})'`. -/
structure MatchItem where
  oid : String
  qty : ℤ
  price : ℤ
deriving DecidableEq, Inhabited

/-- The descriptor string the source appends to `matched_orders`. -/
def MatchItem.render (m : MatchItem) : String :=
  m.oid ++ " (" ++ toString m.qty ++ " @ " ++ toString m.price ++ ")"

/-- Python dict assignment `m[k] = v` (only membership, lookup,
assignment and deletion are used by the source, so the dicts are
modelled as lookup functions). -/
def mapSet (m : String → Option Order) (k : String) (v : Order) :
    String → Option Order :=
  fun q => if q = k then some v else m q

/-- Python dict deletion `del m[k]`. -/
def mapDel (m : String → Option Order) (k : String) :
    String → Option Order :=
  fun q => if q = k then none else m q

/-- The mutable state of the `while` loop inside
`OrderBook._process_order`: the two registry maps it touches, the
incoming order, the opposite-side heap and the accumulated matches. -/
structure LoopSt where
  active : String → Option Order
  filled : String → Option Order
  order : Order
  opp : List Order
  matched : List MatchItem

/-- `heapq.heappop` under the loop's guarantee that the heap is
non-empty (returns `[]` on the unreachable empty case). -/
def popHeap (l : List Order) : List Order :=
  match heappop Order.lt l with
  | none => []
  | some p => p.2

/-- Each loop iteration either pops an entry (length decreases) or
pushes back a partially filled order, which forces the incoming
quantity to zero; this measure therefore strictly decreases. -/
def loopMeasure (s : LoopSt) : ℕ :=
  2 * s.opp.length + (if s.order.quantity = 0 then 0 else 1)

/-- The matching loop of `OrderBook._process_order`, with explicit fuel.
Python mutates `opposite_order.quantity` through an alias shared with
`active_orders`; the embedding writes the updated record to both the
heap and the map. -/
def processLoopF (cond : ℤ → ℤ → Bool) : ℕ → LoopSt → LoopSt
  | 0, s => s
  | fuel+1, s =>
    match s.opp with
    | [] => s
    | top :: _ =>
      if s.order.quantity = 0 then s
      else if (s.active top.order_id).isNone then
        processLoopF cond fuel { s with opp := popHeap s.opp }
      else if cond s.order.price top.price = false then s
      else
        let matched := min s.order.quantity top.quantity
        let order' := { s.order with quantity := s.order.quantity - matched }
        let top' := { top with quantity := top.quantity - matched }
        let desc : MatchItem := ⟨top.order_id, matched, top.price⟩
        if top'.quantity ≠ 0 then
          processLoopF cond fuel
            { active := mapSet s.active top.order_id top'
              filled := s.filled
              order := order'
              opp := heappush Order.lt (popHeap s.opp) top'
              matched := s.matched ++ [desc] }
        else
          processLoopF cond fuel
            { active := mapDel s.active top.order_id
              filled := mapSet s.filled top.order_id top'
              order := order'
              opp := popHeap s.opp
              matched := s.matched ++ [desc] }

/-- The matching loop run to completion (`loopMeasure` fuel suffices). -/
def processLoop (cond : ℤ → ℤ → Bool) (s : LoopSt) : LoopSt :=
  processLoopF cond (loopMeasure s) s

/-- `lambda buy_price, sell_price: buy_price >= sell_price`. -/
def buyCondition (buy_price sell_price : ℤ) : Bool :=
  decide (buy_price ≥ sell_price)

/-- `lambda sell_price, buy_price: sell_price <= buy_price`. -/
def sellCondition (sell_price buy_price : ℤ) : Bool :=
  decide (sell_price ≤ buy_price)

/-- The `OrderBook` state: the three lifecycle dicts, the two heaps, and
the order-number counter (the source's global `count(start=1)`
generator, modelled per book as §9 of the spec directs; the next value
to be handed out). -/
structure OrderBook where
  active_orders : String → Option Order
  filled_orders : String → Option Order
  canceled_orders : String → Option Order
  heap_buy_orders : List Order
  heap_sell_orders : List Order
  order_counter : ℕ

/-- Python `str.lower()` (they agree on ASCII; `String.toLower` itself
is avoided only because its core definition does not reduce in the
kernel). -/
def strLower (s : String) : String :=
  ⟨s.data.map Char.toLower⟩

/-- `Order.__init__`: validate the side, validate positivity, then
construct with the next order number. -/
def Order.init (order_id side : String) (price quantity : ℤ) (number : ℕ) :
    Except String Order :=
  if ¬(strLower side = "buy" ∨ strLower side = "sell") then
    .error ("Invalid side: " ++ side ++ ". Must be \"buy\" or \"sell\"")
  else if price ≤ 0 ∨ quantity ≤ 0 then
    .error "Price and quantity must be positive values"
  else
    .ok ⟨order_id, strLower side, price, quantity, number⟩

/-- The result of `OrderBook._process_order`: the match list plus the
state it mutated (registry maps, both heaps, the incoming order). -/
structure ProcResult where
  matched : List MatchItem
  active : String → Option Order
  filled : String → Option Order
  current : List Order
  opp : List Order
  order : Order

/-- `OrderBook._process_order`: run the matching loop, then register the
incoming order as active (and indexed) if quantity remains, else as
filled. -/
def processOrder (active filled : String → Option Order) (order : Order)
    (current opp : List Order) (cond : ℤ → ℤ → Bool) : ProcResult :=
  let s := processLoop cond ⟨active, filled, order, opp, []⟩
  if s.order.quantity ≠ 0 then
    ⟨s.matched, mapSet s.active order.order_id s.order, s.filled,
      heappush Order.lt current s.order, s.opp, s.order⟩
  else
    ⟨s.matched, s.active, mapSet s.filled order.order_id s.order, current,
      s.opp, s.order⟩

/-- The return-string construction at the end of `place_order`. -/
def renderResult (matched : List MatchItem) (finalQty : ℤ) : String :=
  if matched = [] then "OK"
  else (if finalQty ≠ 0 then "Partially" else "Fully") ++ " matched with " ++
    String.intercalate " and " (matched.map MatchItem.render)

/-- `OrderBook.place_order`, additionally returning the match events the
source renders into the result string (`place_order` below projects them
away).  Errors model `raise ValueError`; the book component of the
result is the state at the moment of the raise, which is always the
unmodified input because validation precedes all mutation. -/
def OrderBook.place_order_ev (b : OrderBook) (order_id side : String)
    (price quantity : ℤ) : Except String String × OrderBook × List MatchItem :=
  if order_id = "" ∨ side = "" ∨ price = 0 ∨ quantity = 0 then
    (.error "Invalid parameters: order_id, side, price and quantity are required",
      b, [])
  else if (b.active_orders order_id).isSome ∨ (b.filled_orders order_id).isSome ∨
      (b.canceled_orders order_id).isSome then
    (.error "Order with this ID has already been placed", b, [])
  else
    match Order.init order_id side price quantity b.order_counter with
    | .error e => (.error e, b, [])
    | .ok order =>
      if order.side = "buy" then
        let r := processOrder b.active_orders b.filled_orders order
          b.heap_buy_orders b.heap_sell_orders buyCondition
        (.ok (renderResult r.matched r.order.quantity),
          { active_orders := r.active, filled_orders := r.filled,
            canceled_orders := b.canceled_orders,
            heap_buy_orders := r.current, heap_sell_orders := r.opp,
            order_counter := b.order_counter + 1 }, r.matched)
      else
        let r := processOrder b.active_orders b.filled_orders order
          b.heap_sell_orders b.heap_buy_orders sellCondition
        (.ok (renderResult r.matched r.order.quantity),
          { active_orders := r.active, filled_orders := r.filled,
            canceled_orders := b.canceled_orders,
            heap_buy_orders := r.opp, heap_sell_orders := r.current,
            order_counter := b.order_counter + 1 }, r.matched)

/-- `OrderBook.place_order(order_id, side, price, quantity)`. -/
def OrderBook.place_order (b : OrderBook) (order_id side : String)
    (price quantity : ℤ) : Except String String × OrderBook :=
  let r := b.place_order_ev order_id side price quantity
  (r.1, r.2.1)

/-- `OrderBook.cancel_order(order_id)`.  The "no such active order"
string carries the source's literal bytes U+00E2 U+20AC U+201C (a
mojibake rendering of an en dash). -/
def OrderBook.cancel_order (b : OrderBook) (order_id : String) :
    String × OrderBook :=
  if (b.filled_orders order_id).isSome then
    ("Failed - already fully filled", b)
  else
    match b.active_orders order_id with
    | none => ("Failed â€“ no such active order", b)
    | some order =>
      ("OK", { b with
        canceled_orders := mapSet b.canceled_orders order_id order,
        active_orders := mapDel b.active_orders order_id })

/-- `OrderBook.__init__`: empty maps, empty heaps, counter at 1. -/
def OrderBook.init : OrderBook :=
  ⟨fun _ => none, fun _ => none, fun _ => none, [], [], 1⟩

/-- One request to the book. -/
inductive Cmd where
  | place (order_id side : String) (price quantity : ℤ)
  | cancel (order_id : String)
deriving DecidableEq

/-- Apply one request, keeping only the state. -/
def OrderBook.step (b : OrderBook) : Cmd → OrderBook
  | .place i s p q => (b.place_order i s p q).2
  | .cancel i => (b.cancel_order i).2

/-- The book state reached by a request sequence from a fresh book. -/
def runBook (cs : List Cmd) : OrderBook :=
  cs.foldl OrderBook.step OrderBook.init

/-- The observable record of one request: the request, whether a
placement succeeded, and the matches it produced. -/
structure LogEntry where
  cmd : Cmd
  ok : Bool
  ms : List MatchItem
deriving DecidableEq

/-- Apply one request, also producing its log entry. -/
def OrderBook.stepLog (b : OrderBook) : Cmd → OrderBook × LogEntry
  | .place i s p q =>
    let r := b.place_order_ev i s p q
    (r.2.1, ⟨.place i s p q, match r.1 with | .ok _ => true | .error _ => false,
      r.2.2⟩)
  | .cancel i => ((b.cancel_order i).2, ⟨.cancel i, false, []⟩)

/-- Run a request sequence from `b`, collecting the log. -/
def runLogAux : OrderBook → List Cmd → List LogEntry
  | _, [] => []
  | b, c :: cs =>
    let r := b.stepLog c
    r.2 :: runLogAux r.1 cs

/-- The log of a request sequence run from a fresh book. -/
def runLog (cs : List Cmd) : List LogEntry :=
  runLogAux OrderBook.init cs

/-- The quantity one log entry records as matched for order `x`: the
descriptors naming `x` as the resting side, plus, when `x` is the
incoming order of the entry, all quantities matched during its call. -/
def entryMatched (x : String) (e : LogEntry) : ℤ :=
  ((e.ms.filter (fun m => m.oid = x)).map MatchItem.qty).sum +
  (match e.cmd with
   | .place i _ _ _ => if i = x then (e.ms.map MatchItem.qty).sum else 0
   | .cancel _ => 0)

/-- Total quantity a log records as matched for order `x`. -/
def totalMatched (log : List LogEntry) (x : String) : ℤ :=
  (log.map (entryMatched x)).sum

/-- The original quantity of order `x`: the quantity argument of its
successful placement, if any. -/
def placedQty : List LogEntry → String → Option ℤ
  | [], _ => none
  | e :: es, x =>
    match e.cmd with
    | .place i _ _ q => if i = x ∧ e.ok = true then some q else placedQty es x
    | .cancel _ => placedQty es x

/-- Look an order id up across all three lifecycle maps. -/
def OrderBook.lookupAny (b : OrderBook) (x : String) : Option Order :=
  match b.active_orders x with
  | some o => some o
  | none =>
    match b.filled_orders x with
    | some o => some o
    | none => b.canceled_orders x

/-! ### List access helpers -/

section ListHelpers

variable {α : Type} [Inhabited α]

/-- Abbreviation for default-valued list indexing, the counterpart of
Python's (always in-range) `heap[i]`. -/
def nthD (l : List α) (j : ℕ) : α := l.getD j default

theorem nthD_set_self {l : List α} {j : ℕ} (h : j < l.length) (a : α) :
    nthD (l.set j a) j = a := by
  simp [nthD, List.getD_eq_getElem?_getD, List.getElem?_set_self h]

theorem nthD_set_ne {l : List α} {i j : ℕ} (h : i ≠ j) (a : α) :
    nthD (l.set i a) j = nthD l j := by
  simp [nthD, List.getD_eq_getElem?_getD, List.getElem?_set_ne h]

theorem nthD_mem {l : List α} {j : ℕ} (h : j < l.length) : nthD l j ∈ l := by
  simp only [nthD, List.getD_eq_getElem?_getD, List.getElem?_eq_getElem h,
    Option.getD_some]
  exact List.getElem_mem h

theorem nthD_append_left {l l' : List α} {j : ℕ} (h : j < l.length) :
    nthD (l ++ l') j = nthD l j := by
  simp [nthD, List.getD_eq_getElem?_getD, List.getElem?_append_left h]

theorem nthD_cons_zero {x : α} {xs : List α} : nthD (x :: xs) 0 = x := rfl

theorem set_nthD_self {l : List α} {j : ℕ} (h : j < l.length) :
    l.set j (nthD l j) = l := by
  apply List.ext_getElem?
  intro n
  rcases eq_or_ne j n with rfl | hne
  · simp [List.getElem?_set_self h, nthD, List.getD_eq_getElem?_getD,
      List.getElem?_eq_getElem h]
  · simp [List.getElem?_set_ne hne]

theorem multiset_set {l : List α} {j : ℕ} (h : j < l.length) (a : α) :
    (↑(l.set j a) : Multiset α) + {nthD l j} = (↑l : Multiset α) + {a} := by
  induction l generalizing j with
  | nil => simp at h
  | cons x xs ih =>
    cases j with
    | zero =>
      simp only [List.set_cons_zero, nthD_cons_zero]
      change (a ::ₘ ↑xs) + {x} = (x ::ₘ ↑xs) + {a}
      rw [add_comm, Multiset.singleton_add, add_comm (x ::ₘ (↑xs : Multiset α)),
        Multiset.singleton_add, Multiset.cons_swap]
    | succ n =>
      have hn : n < xs.length := by simpa using h
      simp only [List.set_cons_succ]
      have : nthD ((x :: xs).set (n+1) a) (n+1) = nthD (xs.set n a) n := rfl
      change (x ::ₘ ↑(xs.set n a)) + {nthD (x :: xs) (n+1)} = (x ::ₘ ↑xs) + {a}
      have hrw : nthD (x :: xs) (n+1) = nthD xs n := rfl
      rw [hrw]
      have := ih hn
      rw [Multiset.cons_add, Multiset.cons_add, this]

theorem mem_of_multiset_eq {l l' : List α} (h : (↑l : Multiset α) = ↑l')
    {y : α} (hy : y ∈ l) : y ∈ l' := by
  rw [← Multiset.mem_coe, ← h, Multiset.mem_coe]
  exact hy

end ListHelpers

/-! ### Heap-shape predicates and comparator hypotheses -/

section HeapPredicates

variable {α : Type} [Inhabited α]

/-- The `heapq` invariant: every non-root entry does not compare below
its parent (`heap[j] < heap[(j-1)/2]` is false). -/
def heapProp (lt : α → α → Bool) (l : List α) : Prop :=
  ∀ j, 0 < j → j < l.length → lt (nthD l j) (nthD l ((j-1)/2)) = false

/-- The heap invariant at every parent edge except the one out of
`pos` (precondition of `_siftdown`). -/
def heapExcept (lt : α → α → Bool) (l : List α) (pos : ℕ) : Prop :=
  ∀ j, 0 < j → j < l.length → j ≠ pos →
    lt (nthD l j) (nthD l ((j-1)/2)) = false

/-- The heap invariant at every parent edge except the ones into `pos`
(precondition of the sink loop of `_siftup`). -/
def heapExceptRoot (lt : α → α → Bool) (l : List α) (pos : ℕ) : Prop :=
  ∀ j, 0 < j → j < l.length → (j-1)/2 ≠ pos →
    lt (nthD l j) (nthD l ((j-1)/2)) = false

/-- Both children of `pos` dominate the value at the parent of `pos`
(the strengthening carried through both sift loops). -/
def childDom (lt : α → α → Bool) (l : List α) (pos : ℕ) : Prop :=
  ∀ j, j < l.length → (j = 2*pos+1 ∨ j = 2*pos+2) →
    lt (nthD l j) (nthD l ((pos-1)/2)) = false

theorem heapProp_nil (lt : α → α → Bool) : heapProp lt ([] : List α) := by
  intro j _ hj
  simp at hj

theorem heapProp_of_heapExcept_zero {lt : α → α → Bool} {l : List α}
    (h : heapExcept lt l 0) : heapProp lt l := by
  intro j hj hlen
  exact h j hj hlen (Nat.pos_iff_ne_zero.mp hj)

theorem parent_lt_self {j : ℕ} (h : 0 < j) : (j-1)/2 < j := by omega

theorem parent_of_child {i j : ℕ} (h : j = 2*i+1 ∨ j = 2*i+2) :
    (j-1)/2 = i := by omega

theorem child_of_parent {j : ℕ} (h : 0 < j) :
    j = 2*((j-1)/2)+1 ∨ j = 2*((j-1)/2)+2 := by omega

end HeapPredicates

section HeapRelation

variable {α : Type} [Inhabited α]
variable {lt : α → α → Bool} {P : α → Prop}

/-- Strict-weak-order package for a Boolean comparator, relative to the
set of values satisfying `P` (the `Order.__lt__` comparator is only
well behaved among orders of one side). -/
structure SwoOn (lt : α → α → Bool) (P : α → Prop) : Prop where
  asymm : ∀ a b, P a → P b → lt a b = true → lt b a = false
  trans : ∀ a b c, P a → P b → P c → lt a b = true → lt b c = true →
    lt a c = true
  negTrans : ∀ a b c, P a → P b → P c → lt a b = false → lt b c = false →
    lt a c = false

theorem SwoOn.irrefl (h : SwoOn lt P) (a : α) (ha : P a) : lt a a = false := by
  cases haa : lt a a with
  | false => rfl
  | true => exact absurd (h.asymm a a ha ha haa) (by simp [haa])

/-- From `¬(a < b)` and `c < b` conclude `¬(a < c)`. -/
theorem SwoOn.notLt_of_notLt_of_lt (h : SwoOn lt P) {a b c : α}
    (ha : P a) (hb : P b) (hc : P c)
    (hab : lt a b = false) (hcb : lt c b = true) : lt a c = false := by
  cases hac : lt a c with
  | false => rfl
  | true => exact absurd (h.trans a c b ha hc hb hac hcb) (by simp [hab])

end HeapRelation

/-! ### Correctness of the `heapq` routines -/

section HeapCorrectness

variable {α : Type} [Inhabited α]
variable {lt : α → α → Bool} {P : α → Prop}

/-- After one hole move: with `v = heap.set pos x` and
`v2 = (heap.set pos (nthD heap p)).set p x`, `v2` is `v` with the values
at positions `pos` and `p` exchanged; in particular they carry the same
multiset. -/
theorem swap_virtual (heap : List α) {pos p : ℕ} (x : α)
    (hne : p ≠ pos) (hpos : pos < heap.length) (hp : p < heap.length) :
    (∀ j, j ≠ pos → j ≠ p →
      nthD ((heap.set pos (nthD heap p)).set p x) j = nthD (heap.set pos x) j) ∧
    nthD ((heap.set pos (nthD heap p)).set p x) p = x ∧
    nthD ((heap.set pos (nthD heap p)).set p x) pos = nthD heap p ∧
    (↑((heap.set pos (nthD heap p)).set p x) : Multiset α) = ↑(heap.set pos x) := by
  refine ⟨?_, ?_, ?_, ?_⟩
  · intro j hjpos hjp
    rw [nthD_set_ne (fun h => hjp h.symm), nthD_set_ne (fun h => hjpos h.symm),
      nthD_set_ne (fun h => hjpos h.symm)]
  · exact nthD_set_self (by rw [List.length_set]; exact hp) x
  · rw [nthD_set_ne hne, nthD_set_self hpos]
  · have hplen : p < (heap.set pos (nthD heap p)).length := by
      rw [List.length_set]; exact hp
    have h1 : (↑((heap.set pos (nthD heap p)).set p x) : Multiset α) +
        {nthD (heap.set pos (nthD heap p)) p} =
        ↑(heap.set pos (nthD heap p)) + {x} := multiset_set hplen x
    rw [nthD_set_ne (Ne.symm hne)] at h1
    have h2 : (↑(heap.set pos (nthD heap p)) : Multiset α) + {nthD heap pos} =
        ↑heap + {nthD heap p} := multiset_set hpos _
    have h3 : (↑(heap.set pos x) : Multiset α) + {nthD heap pos} =
        ↑heap + {x} := multiset_set hpos x
    have key : (↑((heap.set pos (nthD heap p)).set p x) : Multiset α) +
        ({nthD heap p} + {nthD heap pos}) =
        ↑(heap.set pos x) + ({nthD heap p} + {nthD heap pos}) := by
      calc (↑((heap.set pos (nthD heap p)).set p x) : Multiset α) +
            ({nthD heap p} + {nthD heap pos})
          = ((↑((heap.set pos (nthD heap p)).set p x) : Multiset α) +
            {nthD heap p}) + {nthD heap pos} := by rw [add_assoc]
        _ = (↑(heap.set pos (nthD heap p)) + {x}) + {nthD heap pos} := by rw [h1]
        _ = (↑(heap.set pos (nthD heap p)) + {nthD heap pos}) + {x} := by
            rw [add_assoc, add_comm ({x} : Multiset α), ← add_assoc]
        _ = (↑heap + {nthD heap p}) + {x} := by rw [h2]
        _ = (↑heap + {x}) + {nthD heap p} := by
            rw [add_assoc, add_comm ({nthD heap p} : Multiset α), ← add_assoc]
        _ = (↑(heap.set pos x) + {nthD heap pos}) + {nthD heap p} := by rw [h3]
        _ = ↑(heap.set pos x) + ({nthD heap p} + {nthD heap pos}) := by
            rw [add_assoc, add_comm ({nthD heap pos} : Multiset α)]
    exact add_right_cancel key

/-- One upward hole move preserves "heap everywhere except the edge out
of the hole". -/
theorem step_up_heapExcept (hswo : SwoOn lt P) {heap : List α} {pos : ℕ} {x : α}
    (hpos0 : 0 < pos) (hlen : pos < heap.length)
    (hP : ∀ y ∈ heap.set pos x, P y)
    (hexc : heapExcept lt (heap.set pos x) pos)
    (hdom : childDom lt (heap.set pos x) pos)
    (hlt : lt x (nthD heap ((pos-1)/2)) = true) :
    heapExcept lt ((heap.set pos (nthD heap ((pos-1)/2))).set ((pos-1)/2) x)
      ((pos-1)/2) := by
  set p := (pos-1)/2 with hpdef
  have hplt : p < pos := parent_lt_self hpos0
  have hplen : p < heap.length := lt_trans hplt hlen
  obtain ⟨hother, hatp, hatpos, hmul⟩ :=
    swap_virtual heap x (Nat.ne_of_lt hplt) hlen hplen
  have hvlen : (heap.set pos x).length = heap.length := List.length_set ..
  have hPj : ∀ j, j < heap.length → P (nthD (heap.set pos x) j) := by
    intro j hj
    exact hP _ (nthD_mem (by rw [hvlen]; exact hj))
  have hvpos : nthD (heap.set pos x) pos = x := nthD_set_self hlen x
  have hvp : nthD (heap.set pos x) p = nthD heap p :=
    nthD_set_ne (Nat.ne_of_lt' hplt) x
  have Px : P x := by rw [← hvpos]; exact hPj pos hlen
  have Py : P (nthD heap p) := by rw [← hvp]; exact hPj p hplen
  intro j hj0 hjlen hjp
  rw [List.length_set, List.length_set] at hjlen
  rcases eq_or_ne j pos with rfl | hjpos
  · -- the moved edge (pos → p): parent value is now x, child is the old parent
    have hq : (j-1)/2 = p := hpdef.symm
    rw [hq, hatpos, hatp]
    exact hswo.asymm x (nthD heap p) Px Py hlt
  · have hvj : nthD ((heap.set pos (nthD heap p)).set p x) j =
        nthD (heap.set pos x) j := hother j hjpos hjp
    rcases eq_or_ne ((j-1)/2) pos with hq | hq
    · -- j is a child of the old hole: use the grandparent strengthening
      rw [hvj, hq, hatpos, ← hvp]
      have hchild : j = 2*pos+1 ∨ j = 2*pos+2 := by
        have := child_of_parent hj0
        rw [hq] at this
        exact this
      exact hdom j (by rw [hvlen]; exact hjlen) hchild
    · rcases eq_or_ne ((j-1)/2) p with hq2 | hq2
      · -- j is the sibling: its new parent is x, and x beats the old parent
        rw [hvj, hq2, hatp]
        have hedge : lt (nthD (heap.set pos x) j) (nthD (heap.set pos x) p) =
            false := by
          have := hexc j hj0 (by rw [hvlen]; exact hjlen) hjpos
          rw [hq2] at this
          exact this
        rw [hvp] at hedge
        exact hswo.notLt_of_notLt_of_lt (hPj j hjlen) Py Px hedge hlt
      · -- an untouched edge
        have hqlt : (j-1)/2 < j := parent_lt_self hj0
        rw [hvj, hother _ hq hq2]
        exact hexc j hj0 (by rw [hvlen]; exact hjlen) hjpos

/-- One upward hole move preserves the grandparent strengthening. -/
theorem step_up_childDom (hswo : SwoOn lt P) {heap : List α} {pos : ℕ} {x : α}
    (hpos0 : 0 < pos) (hlen : pos < heap.length)
    (hP : ∀ y ∈ heap.set pos x, P y)
    (hexc : heapExcept lt (heap.set pos x) pos)
    (hlt : lt x (nthD heap ((pos-1)/2)) = true) :
    childDom lt ((heap.set pos (nthD heap ((pos-1)/2))).set ((pos-1)/2) x)
      ((pos-1)/2) := by
  set p := (pos-1)/2 with hpdef
  have hplt : p < pos := parent_lt_self hpos0
  have hplen : p < heap.length := lt_trans hplt hlen
  obtain ⟨hother, hatp, hatpos, hmul⟩ :=
    swap_virtual heap x (Nat.ne_of_lt hplt) hlen hplen
  have hvlen : (heap.set pos x).length = heap.length := List.length_set ..
  have hPj : ∀ j, j < heap.length → P (nthD (heap.set pos x) j) := by
    intro j hj
    exact hP _ (nthD_mem (by rw [hvlen]; exact hj))
  have hvpos : nthD (heap.set pos x) pos = x := nthD_set_self hlen x
  have hvp : nthD (heap.set pos x) p = nthD heap p :=
    nthD_set_ne (Nat.ne_of_lt' hplt) x
  have Px : P x := by rw [← hvpos]; exact hPj pos hlen
  have Py : P (nthD heap p) := by rw [← hvp]; exact hPj p hplen
  intro c hclen hc
  rw [List.length_set, List.length_set] at hclen
  have hcpar : (c-1)/2 = p := parent_of_child hc
  have hcp : c ≠ p := by omega
  have hc0 : 0 < c := by omega
  set g := (p-1)/2 with hgdef
  have hgpos : g ≠ pos := by
    have : g ≤ p := by omega
    omega
  rcases eq_or_ne c pos with rfl | hcpos
  · -- the child that is the old hole position, now holding the old parent
    rw [hatpos]
    rcases Nat.eq_zero_or_pos p with hp0 | hp0
    · -- parent of the hole is the root: its value in v2 is x
      have : g = p := by omega
      rw [this, hatp]
      exact hswo.asymm x (nthD heap p) Px Py hlt
    · have hgp : g ≠ p := by omega
      rw [hother g hgpos hgp]
      have hedge := hexc p hp0 (by rw [hvlen]; exact hplen)
        (Nat.ne_of_lt hplt)
      rw [hvp] at hedge
      rw [← hgdef] at hedge
      rw [hgdef]
      exact hedge
  · -- the sibling child keeps its value
    rw [hother c hcpos hcp]
    have hedge : lt (nthD (heap.set pos x) c) (nthD heap p) = false := by
      have := hexc c hc0 (by rw [hvlen]; exact hclen) hcpos
      rw [hcpar, hvp] at this
      exact this
    rcases Nat.eq_zero_or_pos p with hp0 | hp0
    · have : g = p := by omega
      rw [this, hatp]
      exact hswo.notLt_of_notLt_of_lt (hPj c hclen) Py Px hedge hlt
    · have hgp : g ≠ p := by omega
      rw [hother g hgpos hgp]
      have hedge2 := hexc p hp0 (by rw [hvlen]; exact hplen)
        (Nat.ne_of_lt hplt)
      rw [hvp, ← hgdef] at hedge2
      exact hswo.negTrans _ _ _ (hPj c hclen) Py
        (hPj g (by omega)) hedge hedge2

/-- Full correctness of the `_siftdown` loop (with `startpos = 0`, the
only value the source uses): started at `pos` with virtual content `x`
there, it ends at a position `r.2 ≤ pos`, permutes nothing, and placing
`x` at the final hole yields a heap. -/
theorem siftdownAux_spec (hswo : SwoOn lt P) (x : α) :
    ∀ (fuel : ℕ) (heap : List α) (pos : ℕ),
    pos ≤ fuel → pos < heap.length →
    (∀ y ∈ heap.set pos x, P y) →
    heapExcept lt (heap.set pos x) pos →
    childDom lt (heap.set pos x) pos →
    (siftdownAux lt x 0 fuel heap pos).2 ≤ pos ∧
    (siftdownAux lt x 0 fuel heap pos).1.length = heap.length ∧
    (↑((siftdownAux lt x 0 fuel heap pos).1.set
        (siftdownAux lt x 0 fuel heap pos).2 x) : Multiset α) =
      ↑(heap.set pos x) ∧
    heapProp lt ((siftdownAux lt x 0 fuel heap pos).1.set
      (siftdownAux lt x 0 fuel heap pos).2 x) := by
  intro fuel
  induction fuel with
  | zero =>
    intro heap pos hfuel hlen hP hexc hdom
    have hpos0 : pos = 0 := Nat.le_zero.mp hfuel
    subst hpos0
    have hstep : siftdownAux lt x 0 0 heap 0 = (heap, 0) := rfl
    rw [hstep]
    exact ⟨le_rfl, rfl, rfl, heapProp_of_heapExcept_zero hexc⟩
  | succ f ih =>
    intro heap pos hfuel hlen hP hexc hdom
    rcases Nat.eq_zero_or_pos pos with hpos0 | hpos0
    · subst hpos0
      have hstep : siftdownAux lt x 0 (f+1) heap 0 = (heap, 0) := by
        simp [siftdownAux]
      rw [hstep]
      exact ⟨le_rfl, rfl, rfl, heapProp_of_heapExcept_zero hexc⟩
    · have hstep : siftdownAux lt x 0 (f+1) heap pos =
          if lt x (heap.getD ((pos-1)/2) default)
          then siftdownAux lt x 0 f (heap.set pos (heap.getD ((pos-1)/2) default))
            ((pos-1)/2)
          else (heap, pos) := by
        simp only [siftdownAux, hpos0, if_true]
      cases hlt : lt x (heap.getD ((pos-1)/2) default) with
      | false =>
        rw [hstep, hlt, if_neg (by simp)]
        refine ⟨le_rfl, rfl, rfl, ?_⟩
        intro j hj0 hjlen
        rcases eq_or_ne j pos with rfl | hjpos
        · have hvj : nthD (heap.set j x) j = x :=
            nthD_set_self hlen x
          have hvp : nthD (heap.set j x) ((j-1)/2) = nthD heap ((j-1)/2) :=
            nthD_set_ne (Nat.ne_of_lt' (parent_lt_self hj0)) x
          rw [hvj, hvp]
          exact hlt
        · exact hexc j hj0 hjlen hjpos
      | true =>
        rw [hstep, hlt, if_pos rfl]
        have hplt : (pos-1)/2 < pos := parent_lt_self hpos0
        have hplen : (pos-1)/2 < heap.length := lt_trans hplt hlen
        have hgetd : heap.getD ((pos-1)/2) default = nthD heap ((pos-1)/2) := rfl
        rw [hgetd]
        obtain ⟨hother, hatp, hatpos, hmul⟩ :=
          swap_virtual heap x (Nat.ne_of_lt hplt) hlen hplen
        have hP2 : ∀ y ∈ (heap.set pos (nthD heap ((pos-1)/2))).set ((pos-1)/2) x,
            P y := by
          intro y hy
          exact hP y (mem_of_multiset_eq hmul hy)
        have hexc2 := step_up_heapExcept hswo hpos0 hlen hP hexc hdom hlt
        have hdom2 := step_up_childDom hswo hpos0 hlen hP hexc hlt
        have hlen2 : (pos-1)/2 < (heap.set pos (nthD heap ((pos-1)/2))).length := by
          rw [List.length_set]; exact hplen
        have hfuel2 : (pos-1)/2 ≤ f := by omega
        obtain ⟨c1, c2, c3, c4⟩ := ih (heap.set pos (nthD heap ((pos-1)/2)))
          ((pos-1)/2) hfuel2 hlen2 hP2 hexc2 hdom2
        refine ⟨le_trans c1 (le_of_lt hplt), ?_, ?_, c4⟩
        · rw [c2, List.length_set]
        · rw [c3, hmul]

/-- Correctness of `_siftdown` called on a leaf hole, the only two call
sites in `heapq` (push at the appended last slot, and the tail call of
`_siftup` at the sunken hole). -/
theorem siftdown_spec (hswo : SwoOn lt P) {heap : List α} {pos : ℕ}
    (hlen : pos < heap.length) (hleaf : heap.length ≤ 2*pos+1)
    (hP : ∀ y ∈ heap, P y)
    (hexc : heapExcept lt heap pos) :
    (siftdown lt heap 0 pos).length = heap.length ∧
    (↑(siftdown lt heap 0 pos) : Multiset α) = ↑heap ∧
    heapProp lt (siftdown lt heap 0 pos) := by
  have hid : heap.set pos (nthD heap pos) = heap := set_nthD_self hlen
  have hdom : childDom lt (heap.set pos (nthD heap pos)) pos := by
    intro j hjlen hj
    rw [hid] at hjlen
    omega
  obtain ⟨c1, c2, c3, c4⟩ := siftdownAux_spec hswo (nthD heap pos) pos heap pos
    le_rfl hlen (by rw [hid]; exact hP) (by rw [hid]; exact hexc) hdom
  rw [hid] at c3
  have hres : siftdown lt heap 0 pos =
      (siftdownAux lt (nthD heap pos) 0 pos heap pos).1.set
        (siftdownAux lt (nthD heap pos) 0 pos heap pos).2 (nthD heap pos) := rfl
  rw [hres]
  refine ⟨?_, c3, c4⟩
  rw [List.length_set, c2]

/-- `heappush` preserves the heap property and adds exactly the pushed
item. -/
theorem heappush_spec (hswo : SwoOn lt P) {heap : List α} {x : α}
    (hP : ∀ y ∈ heap, P y) (hPx : P x) (hheap : heapProp lt heap) :
    (heappush lt heap x).length = heap.length + 1 ∧
    (↑(heappush lt heap x) : Multiset α) = x ::ₘ ↑heap ∧
    heapProp lt (heappush lt heap x) := by
  have hlen : heap.length < (heap ++ [x]).length := by
    simp
  have hleaf : (heap ++ [x]).length ≤ 2*heap.length+1 := by
    simp; omega
  have hP2 : ∀ y ∈ heap ++ [x], P y := by
    intro y hy
    rcases List.mem_append.mp hy with h | h
    · exact hP y h
    · rw [List.mem_singleton.mp h]; exact hPx
  have hexc : heapExcept lt (heap ++ [x]) heap.length := by
    intro j hj0 hjlen hjpos
    have hjlt : j < heap.length := by
      simp at hjlen
      omega
    have hplt : (j-1)/2 < heap.length := lt_trans (parent_lt_self hj0) hjlt
    rw [nthD_append_left hjlt, nthD_append_left hplt]
    exact hheap j hj0 hjlt
  obtain ⟨c1, c2, c3⟩ := siftdown_spec hswo hlen hleaf hP2 hexc
  refine ⟨?_, ?_, c3⟩
  · rw [heappush, c1]; simp
  · rw [heappush, c2, ← Multiset.coe_add]
    have : (↑([x] : List α) : Multiset α) = {x} := rfl
    rw [this, add_comm, Multiset.singleton_add]

theorem nthD_eq_getElem {l : List α} {j : ℕ} (h : j < l.length) :
    nthD l j = l[j] := by
  simp [nthD, List.getD_eq_getElem?_getD, List.getElem?_eq_getElem h]

theorem nthD_take {l : List α} {j m : ℕ} (h : j < m) :
    nthD (l.take m) j = nthD l j := by
  simp [nthD, List.getD_eq_getElem?_getD, List.getElem?_take, h]

/-- Full correctness of the sink loop of `_siftup`: the hole at `pos`
sinks to a leaf, preserving all parent edges except the ones into the
hole, the grandparent strengthening, and the virtual multiset. -/
theorem siftupAux_spec (hswo : SwoOn lt P) :
    ∀ (fuel : ℕ) (w : List α) (pos : ℕ),
    w.length - pos ≤ fuel → pos < w.length →
    (∀ y ∈ w, P y) →
    heapExceptRoot lt w pos →
    (0 < pos → childDom lt w pos) →
    (siftupAux lt fuel w pos).1.length = w.length ∧
    pos ≤ (siftupAux lt fuel w pos).2 ∧
    (siftupAux lt fuel w pos).2 < w.length ∧
    w.length ≤ 2*(siftupAux lt fuel w pos).2+1 ∧
    (∀ x, (↑((siftupAux lt fuel w pos).1.set (siftupAux lt fuel w pos).2 x) :
      Multiset α) = ↑(w.set pos x)) ∧
    (∀ y ∈ (siftupAux lt fuel w pos).1, y ∈ w) ∧
    heapExceptRoot lt (siftupAux lt fuel w pos).1 (siftupAux lt fuel w pos).2 ∧
    (0 < (siftupAux lt fuel w pos).2 →
      childDom lt (siftupAux lt fuel w pos).1 (siftupAux lt fuel w pos).2) := by
  intro fuel
  induction fuel with
  | zero =>
    intro w pos hfuel hlen _ _ _
    omega
  | succ f ih =>
    intro w pos hfuel hlen hP hexcR hdom
    by_cases hcl : 2*pos+1 < w.length
    · have hstep : siftupAux lt (f+1) w pos =
          siftupAux lt f
            (w.set pos (w.getD (if 2*pos+1 + 1 < w.length
              && !(lt (w.getD (2*pos+1) default) (w.getD (2*pos+1+1) default))
              then 2*pos+1 + 1 else 2*pos+1) default))
            (if 2*pos+1 + 1 < w.length
              && !(lt (w.getD (2*pos+1) default) (w.getD (2*pos+1+1) default))
              then 2*pos+1 + 1 else 2*pos+1) := by
        simp only [siftupAux, hcl, if_true]
      set cstar := (if 2*pos+1 + 1 < w.length
        && !(lt (w.getD (2*pos+1) default) (w.getD (2*pos+1+1) default))
        then 2*pos+1 + 1 else 2*pos+1) with hcstar_def
      have hcases : cstar = 2*pos+1 ∨ (cstar = 2*pos+2 ∧ 2*pos+2 < w.length ∧
          lt (nthD w (2*pos+1)) (nthD w (2*pos+2)) = false) := by
        rw [hcstar_def]
        by_cases hb : (2*pos+1 + 1 < w.length
            && !(lt (w.getD (2*pos+1) default) (w.getD (2*pos+1+1) default))) = true
        · rw [if_pos hb]
          rw [Bool.and_eq_true, Bool.not_eq_true', decide_eq_true_iff] at hb
          exact Or.inr ⟨rfl, hb.1, hb.2⟩
        · rw [if_neg hb]
          exact Or.inl rfl
      have hchild : cstar = 2*pos+1 ∨ cstar = 2*pos+2 := by
        rcases hcases with h | h
        · exact Or.inl h
        · exact Or.inr h.1
      have hcstar_lt : cstar < w.length := by
        rcases hcases with h | h
        · omega
        · omega
      have hcstar_pos : pos < cstar := by omega
      -- the chosen child is not above its sibling
      have hchoice : ∀ s, (s = 2*pos+1 ∨ s = 2*pos+2) → s < w.length →
          s ≠ cstar → lt (nthD w s) (nthD w cstar) = false := by
        intro s hs hslen hsne
        rcases hcases with h | h
        · -- left chosen: sibling is the right child, and left < right held
          have hs2 : s = 2*pos+2 := by omega
          have hnotb : ¬(2*pos+1 + 1 < w.length
              && !(lt (w.getD (2*pos+1) default) (w.getD (2*pos+1+1) default))) = true := by
            intro hb
            rw [hcstar_def, if_pos hb] at h
            omega
          rw [Bool.and_eq_true, Bool.not_eq_true', decide_eq_true_iff,
            not_and_or] at hnotb
          rcases hnotb with hlen2 | hltlr
          · omega
          · have : lt (nthD w (2*pos+1)) (nthD w (2*pos+1+1)) = true := by
              cases hx : lt (nthD w (2*pos+1)) (nthD w (2*pos+1+1)) with
              | true => rfl
              | false => exact absurd hx hltlr
            rw [hs2, h]
            have h12 : (2*pos+1+1) = 2*pos+2 := by omega
            rw [h12] at this
            exact hswo.asymm _ _ (hP _ (nthD_mem hcl))
              (hP _ (nthD_mem (by omega))) this
        · -- right chosen because left < right failed
          have hs1 : s = 2*pos+1 := by omega
          rw [hs1, h.1]
          exact h.2.2
      have hwlen : (w.set pos (nthD w cstar)).length = w.length :=
        List.length_set ..
      have hgetd : w.getD cstar default = nthD w cstar := rfl
      rw [hstep, hgetd]
      have hP2 : ∀ y ∈ w.set pos (nthD w cstar), P y := by
        intro y hy
        rcases List.mem_or_eq_of_mem_set hy with h | h
        · exact hP y h
        · rw [h]; exact hP _ (nthD_mem hcstar_lt)
      have hvpos : nthD (w.set pos (nthD w cstar)) pos = nthD w cstar :=
        nthD_set_self hlen _
      have hvother : ∀ j, j ≠ pos →
          nthD (w.set pos (nthD w cstar)) j = nthD w j := by
        intro j hj
        exact nthD_set_ne (fun h => hj h.symm) _
      have hexcR2 : heapExceptRoot lt (w.set pos (nthD w cstar)) cstar := by
        intro j hj0 hjlen hjpar
        rw [hwlen] at hjlen
        rcases eq_or_ne j pos with rfl | hjpos
        · -- the hole's own parent edge: grandparent strengthening
          have hq : (j-1)/2 ≠ j := by omega
          rw [hvpos, hvother _ (by omega)]
          exact hdom hj0 cstar hcstar_lt hchild
        · rw [hvother j hjpos]
          rcases eq_or_ne ((j-1)/2) pos with hq | hq
          · -- children of the old hole
            rcases eq_or_ne j cstar with rfl | hjc
            · -- the promoted child: compares against itself
              rw [hq, hvpos]
              exact hswo.irrefl _ (hP _ (nthD_mem hjlen))
            · -- the sibling: the promoted child was chosen not above it
              rw [hq, hvpos]
              have hjchild : j = 2*pos+1 ∨ j = 2*pos+2 := by
                have := child_of_parent hj0
                rw [hq] at this
                exact this
              exact hchoice j hjchild hjlen hjc
          · rw [hvother _ hq]
            exact hexcR j hj0 hjlen hq
      have hdom2 : 0 < cstar → childDom lt (w.set pos (nthD w cstar)) cstar := by
        intro _ d hdlen hd
        rw [hwlen] at hdlen
        have hdpar : (d-1)/2 = cstar := parent_of_child hd
        have hcpar : (cstar-1)/2 = pos := parent_of_child hchild
        rw [hcpar, hvpos, hvother d (by omega)]
        have := hexcR d (by omega) hdlen (by omega)
        rw [hdpar] at this
        exact this
      have hfuel2 : (w.set pos (nthD w cstar)).length - cstar ≤ f := by
        rw [hwlen]; omega
      obtain ⟨c1, c2, c3, c4, c5, c6, c7, c8⟩ := ih (w.set pos (nthD w cstar))
        cstar hfuel2 (by rw [hwlen]; exact hcstar_lt) hP2 hexcR2 hdom2
      rw [hwlen] at c1 c3 c4
      refine ⟨c1, by omega, c3, c4, ?_, ?_, c7, c8⟩
      · intro x
        rw [c5 x]
        obtain ⟨_, _, _, hmul⟩ :=
          swap_virtual w x (Nat.ne_of_gt hcstar_pos) hlen hcstar_lt
        exact hmul
      · intro y hy
        rcases List.mem_or_eq_of_mem_set (c6 y hy) with h | h
        · exact h
        · rw [h]; exact nthD_mem hcstar_lt
    · have hstep : siftupAux lt (f+1) w pos = (w, pos) := by
        simp only [siftupAux, hcl, if_false]
      rw [hstep]
      exact ⟨rfl, le_rfl, hlen, by omega, fun x => rfl, fun y hy => hy,
        hexcR, hdom⟩

/-- Correctness of `_siftup heap 0` (the only call site, from
`heappop`): given the heap property everywhere except possibly at the
root's children edges, it restores a full heap with the same
multiset. -/
theorem siftup_spec (hswo : SwoOn lt P) {w : List α}
    (h0 : 0 < w.length) (hP : ∀ y ∈ w, P y)
    (hexcR : heapExceptRoot lt w 0) :
    (siftup lt w 0).length = w.length ∧
    (↑(siftup lt w 0) : Multiset α) = ↑w ∧
    heapProp lt (siftup lt w 0) := by
  obtain ⟨c1, c2, c3, c4, c5, c6, c7, c8⟩ := siftupAux_spec hswo w.length w 0
    (by omega) h0 hP hexcR (by omega)
  have hgetd : w.getD 0 default = nthD w 0 := rfl
  have hres : siftup lt w 0 =
      siftdown lt ((siftupAux lt w.length w 0).1.set
        (siftupAux lt w.length w 0).2 (nthD w 0)) 0
        (siftupAux lt w.length w 0).2 := rfl
  set hp1 := (siftupAux lt w.length w 0).1
  set hp2 := (siftupAux lt w.length w 0).2
  have harr_mul : (↑(hp1.set hp2 (nthD w 0)) : Multiset α) = ↑w := by
    rw [c5 (nthD w 0), set_nthD_self h0]
  have harr_len : (hp1.set hp2 (nthD w 0)).length = w.length := by
    rw [List.length_set, c1]
  have harr_P : ∀ y ∈ hp1.set hp2 (nthD w 0), P y := by
    intro y hy
    exact hP y (mem_of_multiset_eq harr_mul hy)
  have harr_exc : heapExcept lt (hp1.set hp2 (nthD w 0)) hp2 := by
    intro j hj0 hjlen hjne
    rw [harr_len] at hjlen
    have hjpar : (j-1)/2 ≠ hp2 := by omega
    have hv1 : nthD (hp1.set hp2 (nthD w 0)) j = nthD hp1 j :=
      nthD_set_ne (fun h => hjne h.symm) _
    have hv2 : nthD (hp1.set hp2 (nthD w 0)) ((j-1)/2) = nthD hp1 ((j-1)/2) :=
      nthD_set_ne (fun h => hjpar h.symm) _
    rw [hv1, hv2]
    exact c7 j hj0 (by rw [c1]; exact hjlen) hjpar
  obtain ⟨d1, d2, d3⟩ := siftdown_spec hswo
    (by rw [harr_len]; exact c3) (by rw [harr_len]; exact c4) harr_P harr_exc
  rw [hres]
  exact ⟨by rw [d1, harr_len], by rw [d2, harr_mul], d3⟩

/-- `heappop` on a non-empty heap returns the root and a heap holding
exactly the remaining elements. -/
theorem heappop_spec (hswo : SwoOn lt P) {l : List α}
    (hne : l ≠ []) (hP : ∀ y ∈ l, P y) (hheap : heapProp lt l) :
    ∃ rest, heappop lt l = some (nthD l 0, rest) ∧
      rest.length + 1 = l.length ∧
      (↑l : Multiset α) = nthD l 0 ::ₘ ↑rest ∧
      (∀ y ∈ rest, y ∈ l) ∧
      heapProp lt rest := by
  match l with
  | [] => exact absurd rfl hne
  | [x] =>
    refine ⟨[], rfl, rfl, ?_, by simp, heapProp_nil lt⟩
    rw [nthD_cons_zero, ← Multiset.cons_coe]
  | x :: y :: ys =>
    set l := x :: y :: ys with hldef
    have hlen2 : 2 ≤ l.length := by rw [hldef]; simp
    set n := l.length with hndef
    set lastelt := nthD l (n-1) with hlast_def
    set arr := (l.take (n-1)).set 0 lastelt with harr_def
    have htake_len : (l.take (n-1)).length = n-1 := by
      rw [List.length_take]
      omega
    have harr_len : arr.length = n-1 := by
      rw [harr_def, List.length_set, htake_len]
    have harr_pos : 0 < arr.length := by omega
    have hdecomp : l = l.take (n-1) ++ [lastelt] := by
      have hdrop : l.drop (n-1) = [lastelt] := by
        have h1 : n-1 < l.length := by omega
        rw [List.drop_eq_getElem_cons h1]
        have h2 : l.drop (n-1+1) = [] := by
          have : n-1+1 = l.length := by omega
          rw [this, List.drop_length]
        rw [h2, hlast_def, nthD_eq_getElem h1]
      conv_lhs => rw [← List.take_append_drop (n-1) l]
      rw [hdrop]
    have harr_P : ∀ z ∈ arr, P z := by
      intro z hz
      rcases List.mem_or_eq_of_mem_set hz with h | h
      · exact hP z ((List.take_sublist (n-1) l).subset h)
      · rw [h, hlast_def]
        exact hP _ (nthD_mem (by omega))
    have harr_exc : heapExceptRoot lt arr 0 := by
      intro j hj0 hjlen hjpar
      rw [harr_len] at hjlen
      have hv1 : nthD arr j = nthD l j := by
        rw [harr_def, nthD_set_ne (by omega), nthD_take (by omega)]
      have hv2 : nthD arr ((j-1)/2) = nthD l ((j-1)/2) := by
        rw [harr_def, nthD_set_ne (by omega), nthD_take (by omega)]
      rw [hv1, hv2]
      exact hheap j hj0 (by omega)
    obtain ⟨s1, s2, s3⟩ := siftup_spec hswo harr_pos harr_P harr_exc
    have htake_pos : 0 < (l.take (n-1)).length := by omega
    have hx0 : nthD l 0 = x := by rw [hldef]; rfl
    have hmul : (↑l : Multiset α) = nthD l 0 ::ₘ ↑arr := by
      have hms := multiset_set htake_pos lastelt
      have htk0 : nthD (l.take (n-1)) 0 = nthD l 0 := nthD_take (by omega)
      rw [htk0] at hms
      have hldec : (↑l : Multiset α) = ↑(l.take (n-1)) + {lastelt} := by
        conv_lhs => rw [hdecomp]
        rw [← Multiset.coe_add]
        rfl
      rw [hldec, ← hms, ← harr_def, add_comm, Multiset.singleton_add]
    refine ⟨siftup lt arr 0, rfl, ?_, ?_, ?_, s3⟩
    · rw [s1, harr_len]; omega
    · rw [hmul, s2]
    · intro z hz
      have hz2 : z ∈ arr := mem_of_multiset_eq s2 hz
      rcases List.mem_or_eq_of_mem_set hz2 with h | h
      · exact (List.take_sublist (n-1) l).subset h
      · rw [h, hlast_def]
        exact nthD_mem (by omega)

/-- In a heap, no entry compares strictly below the root. -/
theorem root_min (hswo : SwoOn lt P) {l : List α} (hheap : heapProp lt l)
    (hP : ∀ y ∈ l, P y) :
    ∀ j, j < l.length → lt (nthD l j) (nthD l 0) = false := by
  intro j
  induction j using Nat.strong_induction_on with
  | _ j ih =>
    intro hjlen
    rcases Nat.eq_zero_or_pos j with rfl | hj0
    · exact hswo.irrefl _ (hP _ (nthD_mem hjlen))
    · have hpar := parent_lt_self hj0
      have h0len : 0 < l.length := lt_of_le_of_lt (Nat.zero_le j) hjlen
      exact hswo.negTrans _ _ _ (hP _ (nthD_mem hjlen))
        (hP _ (nthD_mem (lt_trans hpar hjlen))) (hP _ (nthD_mem h0len))
        (hheap j hj0 hjlen) (ih ((j-1)/2) hpar (lt_trans hpar hjlen))

/-- Membership form of `root_min`. -/
theorem root_min_mem (hswo : SwoOn lt P) {l : List α} (hheap : heapProp lt l)
    (hP : ∀ y ∈ l, P y) {y : α} (hy : y ∈ l) :
    lt y (nthD l 0) = false := by
  obtain ⟨i, hi, rfl⟩ := List.mem_iff_getElem.mp hy
  rw [← nthD_eq_getElem hi]
  exact root_min hswo hheap hP i hi

theorem siftdownAux_length (lt : α → α → Bool) (x : α) (s0 : ℕ) :
    ∀ (fuel : ℕ) (heap : List α) (pos : ℕ),
    (siftdownAux lt x s0 fuel heap pos).1.length = heap.length := by
  intro fuel
  induction fuel with
  | zero => intro heap pos; rfl
  | succ f ih =>
    intro heap pos
    show (siftdownAux lt x s0 (f+1) heap pos).1.length = heap.length
    rw [siftdownAux]
    by_cases h : s0 < pos
    · rw [if_pos h]
      by_cases h2 : lt x (heap.getD ((pos-1)/2) default)
      · rw [if_pos h2, ih, List.length_set]
      · rw [if_neg h2]
    · rw [if_neg h]

theorem siftdown_length (lt : α → α → Bool) (heap : List α) (s0 pos : ℕ) :
    (siftdown lt heap s0 pos).length = heap.length := by
  rw [siftdown, List.length_set, siftdownAux_length]

theorem heappush_length (lt : α → α → Bool) (heap : List α) (x : α) :
    (heappush lt heap x).length = heap.length + 1 := by
  rw [heappush, siftdown_length, List.length_append, List.length_singleton]

theorem siftupAux_length (lt : α → α → Bool) :
    ∀ (fuel : ℕ) (heap : List α) (pos : ℕ),
    (siftupAux lt fuel heap pos).1.length = heap.length := by
  intro fuel
  induction fuel with
  | zero => intro heap pos; rfl
  | succ f ih =>
    intro heap pos
    show (siftupAux lt (f+1) heap pos).1.length = heap.length
    rw [siftupAux]
    by_cases h : 2*pos+1 < heap.length
    · rw [if_pos h, ih, List.length_set]
    · rw [if_neg h]

theorem siftup_length (lt : α → α → Bool) (heap : List α) (pos : ℕ) :
    (siftup lt heap pos).length = heap.length := by
  rw [siftup, siftdown_length, List.length_set, siftupAux_length]

end HeapCorrectness

/-! ### The `Order.__lt__` comparator is a strict weak order on each side -/

/-- `Order.__lt__` on two buy orders, spelled out. -/
theorem Order.lt_eq_of_buy {a b : Order} (h : a.side = "buy") :
    Order.lt a b = decide (a.price > b.price ∨ (a.price = b.price ∧
      -(a.order_number : ℤ) > -(b.order_number : ℤ))) := by
  rw [Order.lt, if_pos h]

/-- `Order.__lt__` when the left operand is not a buy order. -/
theorem Order.lt_eq_of_not_buy {a b : Order} (h : a.side ≠ "buy") :
    Order.lt a b = decide (a.price < b.price ∨ (a.price = b.price ∧
      (a.order_number : ℤ) < (b.order_number : ℤ))) := by
  rw [Order.lt, if_neg h]

/-- Among orders of one common side, `Order.__lt__` is a strict weak
order, so the `heapq` lemmas apply to each of the two heaps. -/
theorem swoOn_side (s : String) :
    SwoOn Order.lt (fun o => o.side = s) := by
  by_cases hs : s = "buy"
  · subst hs
    constructor
    · intro a b ha hb hab
      rw [Order.lt_eq_of_buy ha] at hab
      rw [Order.lt_eq_of_buy hb]
      rw [decide_eq_true_iff] at hab
      rw [decide_eq_false_iff_not]
      omega
    · intro a b c ha hb hc hab hbc
      rw [Order.lt_eq_of_buy ha] at hab ⊢
      rw [Order.lt_eq_of_buy hb] at hbc
      rw [decide_eq_true_iff] at hab hbc ⊢
      omega
    · intro a b c ha hb hc hab hbc
      rw [Order.lt_eq_of_buy ha] at hab ⊢
      rw [Order.lt_eq_of_buy hb] at hbc
      rw [decide_eq_false_iff_not] at hab hbc ⊢
      omega
  · constructor
    · intro a b ha hb hab
      rw [Order.lt_eq_of_not_buy (ha ▸ hs)] at hab
      rw [Order.lt_eq_of_not_buy (hb ▸ hs)]
      rw [decide_eq_true_iff] at hab
      rw [decide_eq_false_iff_not]
      omega
    · intro a b c ha hb hc hab hbc
      rw [Order.lt_eq_of_not_buy (ha ▸ hs)] at hab ⊢
      rw [Order.lt_eq_of_not_buy (hb ▸ hs)] at hbc
      rw [decide_eq_true_iff] at hab hbc ⊢
      omega
    · intro a b c ha hb hc hab hbc
      rw [Order.lt_eq_of_not_buy (ha ▸ hs)] at hab ⊢
      rw [Order.lt_eq_of_not_buy (hb ▸ hs)] at hbc
      rw [decide_eq_false_iff_not] at hab hbc ⊢
      omega

/-- `popHeap` on an arbitrary non-empty list loses exactly one entry. -/
theorem popHeap_length {l : List Order} (hne : l ≠ []) :
    (popHeap l).length + 1 = l.length := by
  match l with
  | [] => exact absurd rfl hne
  | [x] => rfl
  | x :: y :: ys =>
    show (siftup Order.lt _ 0).length + 1 = (x :: y :: ys).length
    rw [siftup_length, List.length_set, List.length_take]
    simp

/-- `popHeap` on a well-formed non-empty heap: it removes exactly the
root and preserves the heap property. -/
theorem popHeap_spec {s : String} {l : List Order}
    (hside : ∀ o ∈ l, o.side = s) (hne : l ≠ [])
    (hheap : heapProp Order.lt l) :
    (↑l : Multiset Order) = nthD l 0 ::ₘ ↑(popHeap l) ∧
    (∀ y ∈ popHeap l, y ∈ l) ∧
    heapProp Order.lt (popHeap l) := by
  obtain ⟨rest, heq, h1, h2, h3, h4⟩ :=
    heappop_spec (swoOn_side s) hne hside hheap
  have hpop : popHeap l = rest := by
    rw [popHeap, heq]
  rw [hpop]
  exact ⟨h2, h3, h4⟩

/-! ### Step equations and termination of the matching loop -/

/-- The state after one successful match against `top`: a named copy of
the final two branches of the loop body, for use in step equations. -/
def matchNext (s : LoopSt) (top : Order) : LoopSt :=
  let matched := min s.order.quantity top.quantity
  let order' := { s.order with quantity := s.order.quantity - matched }
  let top' := { top with quantity := top.quantity - matched }
  let desc : MatchItem := ⟨top.order_id, matched, top.price⟩
  if top'.quantity ≠ 0 then
    { active := mapSet s.active top.order_id top'
      filled := s.filled
      order := order'
      opp := heappush Order.lt (popHeap s.opp) top'
      matched := s.matched ++ [desc] }
  else
    { active := mapDel s.active top.order_id
      filled := mapSet s.filled top.order_id top'
      order := order'
      opp := popHeap s.opp
      matched := s.matched ++ [desc] }

theorem processLoopF_zero (cond : ℤ → ℤ → Bool) (s : LoopSt) :
    processLoopF cond 0 s = s := rfl

theorem processLoopF_nil (cond : ℤ → ℤ → Bool) {s : LoopSt} (h : s.opp = [])
    (f : ℕ) : processLoopF cond f s = s := by
  cases f with
  | zero => rfl
  | succ f => simp only [processLoopF, h]

theorem processLoopF_done (cond : ℤ → ℤ → Bool) {s : LoopSt}
    (h : s.order.quantity = 0) (f : ℕ) : processLoopF cond f s = s := by
  cases f with
  | zero => rfl
  | succ f =>
    cases hopp : s.opp with
    | nil => simp only [processLoopF, hopp]
    | cons top rest => simp only [processLoopF, hopp, h, if_true]

theorem processLoopF_stale (cond : ℤ → ℤ → Bool) {s : LoopSt} {top : Order}
    {rest : List Order} (h : s.opp = top :: rest)
    (hq : s.order.quantity ≠ 0)
    (hst : (s.active top.order_id).isNone = true) (f : ℕ) :
    processLoopF cond (f+1) s =
      processLoopF cond f { s with opp := popHeap s.opp } := by
  simp only [processLoopF, h, hq, if_false, hst, if_true]

theorem processLoopF_break (cond : ℤ → ℤ → Bool) {s : LoopSt} {top : Order}
    {rest : List Order} (h : s.opp = top :: rest)
    (hq : s.order.quantity ≠ 0)
    (hst : (s.active top.order_id).isNone = false)
    (hc : cond s.order.price top.price = false) (f : ℕ) :
    processLoopF cond (f+1) s = s := by
  simp only [processLoopF, h, hq, if_false, hst, Bool.false_eq_true, hc,
    if_true]

theorem processLoopF_match (cond : ℤ → ℤ → Bool) {s : LoopSt} {top : Order}
    {rest : List Order} (h : s.opp = top :: rest)
    (hq : s.order.quantity ≠ 0)
    (hst : (s.active top.order_id).isNone = false)
    (hc : cond s.order.price top.price = true) (f : ℕ) :
    processLoopF cond (f+1) s = processLoopF cond f (matchNext s top) := by
  simp only [processLoopF, h, hq, if_false, hst, Bool.false_eq_true, hc,
    matchNext, Bool.true_eq_false, if_false]
  split <;> rfl

theorem loopMeasure_stale {s : LoopSt} {top : Order} {rest : List Order}
    (h : s.opp = top :: rest) :
    loopMeasure { s with opp := popHeap s.opp } < loopMeasure s := by
  have hne : s.opp ≠ [] := by rw [h]; simp
  have hlen := popHeap_length hne
  by_cases hq : s.order.quantity = 0 <;> simp [loopMeasure, hq] <;> omega

theorem loopMeasure_match {s : LoopSt} {top : Order} {rest : List Order}
    (h : s.opp = top :: rest) (hq : s.order.quantity ≠ 0) :
    loopMeasure (matchNext s top) < loopMeasure s := by
  have hne : s.opp ≠ [] := by rw [h]; simp
  have hlen := popHeap_length hne
  rw [matchNext]
  by_cases htp :
      ({ top with quantity := top.quantity - min s.order.quantity top.quantity} :
        Order).quantity ≠ 0
  · rw [if_pos htp]
    have htp2 : top.quantity - min s.order.quantity top.quantity ≠ 0 := htp
    have hmin : min s.order.quantity top.quantity = s.order.quantity := by
      rcases min_choice s.order.quantity top.quantity with hm | hm
      · exact hm
      · exfalso; apply htp2; omega
    have hq0 : s.order.quantity - min s.order.quantity top.quantity = 0 := by
      omega
    show 2 * (heappush Order.lt (popHeap s.opp)
        { top with quantity := top.quantity - min s.order.quantity top.quantity}).length +
      (if s.order.quantity - min s.order.quantity top.quantity = 0 then 0 else 1) <
      loopMeasure s
    rw [heappush_length, loopMeasure, if_pos hq0, if_neg hq]
    omega
  · rw [if_neg htp]
    show 2 * (popHeap s.opp).length +
      (if s.order.quantity - min s.order.quantity top.quantity = 0 then 0 else 1) <
      loopMeasure s
    rw [loopMeasure, if_neg hq]
    have : (if s.order.quantity - min s.order.quantity top.quantity = 0
        then (0:ℕ) else 1) ≤ 1 := by split <;> omega
    omega

theorem processLoopF_congr (cond : ℤ → ℤ → Bool) :
    ∀ (f : ℕ) (s : LoopSt) (g : ℕ), loopMeasure s ≤ f → loopMeasure s ≤ g →
    processLoopF cond f s = processLoopF cond g s := by
  intro f
  induction f with
  | zero =>
    intro s g hf hg
    have h2 : 2 * s.opp.length ≤ loopMeasure s := by
      rw [loopMeasure]; split <;> omega
    have hopp : s.opp = [] := List.length_eq_zero.mp (by omega)
    rw [processLoopF_zero, processLoopF_nil cond hopp]
  | succ f ih =>
    intro s g hf hg
    cases g with
    | zero =>
      have h2 : 2 * s.opp.length ≤ loopMeasure s := by
        rw [loopMeasure]; split <;> omega
      have hopp : s.opp = [] := List.length_eq_zero.mp (by omega)
      rw [processLoopF_zero, processLoopF_nil cond hopp]
    | succ g =>
      cases hopp : s.opp with
      | nil => rw [processLoopF_nil cond hopp, processLoopF_nil cond hopp]
      | cons top rest =>
        by_cases hq : s.order.quantity = 0
        · rw [processLoopF_done cond hq, processLoopF_done cond hq]
        · cases hst : (s.active top.order_id).isNone with
          | true =>
            rw [processLoopF_stale cond hopp hq hst,
              processLoopF_stale cond hopp hq hst]
            have hdec := loopMeasure_stale hopp
            exact ih _ g (by omega) (by omega)
          | false =>
            cases hc : cond s.order.price top.price with
            | false =>
              rw [processLoopF_break cond hopp hq hst hc,
                processLoopF_break cond hopp hq hst hc]
            | true =>
              rw [processLoopF_match cond hopp hq hst hc,
                processLoopF_match cond hopp hq hst hc]
              have hdec := loopMeasure_match hopp hq
              exact ih _ g (by omega) (by omega)

/-- Any fuel at least `loopMeasure` computes the loop's result: the
matching loop terminates within `2·|opposite| + 1` iterations. -/
theorem fuel_suffices (cond : ℤ → ℤ → Bool) {s : LoopSt} {f : ℕ}
    (h : loopMeasure s ≤ f) : processLoopF cond f s = processLoop cond s :=
  processLoopF_congr cond f s (loopMeasure s) h le_rfl

theorem processLoop_nil (cond : ℤ → ℤ → Bool) {s : LoopSt} (h : s.opp = []) :
    processLoop cond s = s := processLoopF_nil cond h _

theorem processLoop_done (cond : ℤ → ℤ → Bool) {s : LoopSt}
    (h : s.order.quantity = 0) : processLoop cond s = s :=
  processLoopF_done cond h _

theorem processLoop_stale (cond : ℤ → ℤ → Bool) {s : LoopSt} {top : Order}
    {rest : List Order} (h : s.opp = top :: rest)
    (hq : s.order.quantity ≠ 0)
    (hst : (s.active top.order_id).isNone = true) :
    processLoop cond s = processLoop cond { s with opp := popHeap s.opp } := by
  have hdec := loopMeasure_stale (s := s) h
  have h1 : processLoop cond s = processLoopF cond ((loopMeasure s - 1) + 1) s := by
    rw [processLoop]
    congr 1
    omega
  rw [h1, processLoopF_stale cond h hq hst]
  exact fuel_suffices cond (by omega)

theorem processLoop_break (cond : ℤ → ℤ → Bool) {s : LoopSt} {top : Order}
    {rest : List Order} (h : s.opp = top :: rest)
    (hq : s.order.quantity ≠ 0)
    (hst : (s.active top.order_id).isNone = false)
    (hc : cond s.order.price top.price = false) :
    processLoop cond s = s := by
  have h1 : processLoop cond s = processLoopF cond ((loopMeasure s - 1) + 1) s := by
    rw [processLoop]
    congr 1
    rw [loopMeasure, h]
    split <;> omega
  rw [h1, processLoopF_break cond h hq hst hc]

theorem processLoop_match (cond : ℤ → ℤ → Bool) {s : LoopSt} {top : Order}
    {rest : List Order} (h : s.opp = top :: rest)
    (hq : s.order.quantity ≠ 0)
    (hst : (s.active top.order_id).isNone = false)
    (hc : cond s.order.price top.price = true) :
    processLoop cond s = processLoop cond (matchNext s top) := by
  have hdec := loopMeasure_match (s := s) h hq
  have h1 : processLoop cond s = processLoopF cond ((loopMeasure s - 1) + 1) s := by
    rw [processLoop]
    congr 1
    omega
  rw [h1, processLoopF_match cond h hq hst hc]
  exact fuel_suffices cond (by omega)

/-! ### Invariants of the matching loop -/

/-- The invariant the matching loop maintains on its state: the
opposite heap is side-uniform, well shaped, duplicate-free and aliased
with `active_orders`; registry keys match their records; active
quantities are positive; active and filled are disjoint; the incoming
order has non-negative quantity and a fresh id. -/
structure LoopInv (side : String) (s : LoopSt) : Prop where
  side_ok : ∀ o ∈ s.opp, o.side = side
  heap_ok : heapProp Order.lt s.opp
  alias_ok : ∀ o ∈ s.opp, ∀ o2, s.active o.order_id = some o2 → o2 = o
  nodup_ok : (s.opp.map Order.order_id).Nodup
  act_key : ∀ i o, s.active i = some o → o.order_id = i
  fil_key : ∀ i o, s.filled i = some o → o.order_id = i
  act_pos : ∀ i o, s.active i = some o → 0 < o.quantity
  disj : ∀ i, (s.active i).isSome = true → (s.filled i).isSome = true → False
  q_nonneg : 0 ≤ s.order.quantity
  fresh_act : s.active s.order.order_id = none
  fresh_fil : s.filled s.order.order_id = none

/-- How a loop run relates its final state to its initial state:
opposite entries keep their identity fields, orders only leave `active`
into `filled`, `filled` grows, ids outside the opposite heap are
untouched, and new filled entries are exhausted. -/
structure LoopPost (s r : LoopSt) : Prop where
  ids_sub : ∀ i, i ∈ r.opp.map Order.order_id → i ∈ s.opp.map Order.order_id
  entry_src : ∀ e ∈ r.opp, ∃ e0 ∈ s.opp, e.order_id = e0.order_id ∧
    e.side = e0.side ∧ e.price = e0.price ∧ e.order_number = e0.order_number
  act_sub : ∀ i, ((r.active i).isSome = true) → ((s.active i).isSome = true)
  fil_src : ∀ i, ((r.filled i).isSome = true) →
    ((s.filled i).isSome = true) ∨ ((s.active i).isSome = true)
  fil_mono : ∀ i o, s.filled i = some o → r.filled i = some o
  act_dst : ∀ i, ((s.active i).isSome = true) →
    ((r.active i).isSome = true) ∨ ((r.filled i).isSome = true)
  untouched : ∀ i, i ∉ s.opp.map Order.order_id →
    r.active i = s.active i ∧ r.filled i = s.filled i
  fil_new : ∀ i o, r.filled i = some o → s.filled i = some o ∨ o.quantity = 0

theorem LoopPost.refl (s : LoopSt) : LoopPost s s where
  ids_sub := fun _ h => h
  entry_src := fun e he => ⟨e, he, rfl, rfl, rfl, rfl⟩
  act_sub := fun _ h => h
  fil_src := fun _ h => Or.inl h
  fil_mono := fun _ _ h => h
  act_dst := fun _ h => Or.inl h
  untouched := fun _ _ => ⟨rfl, rfl⟩
  fil_new := fun _ _ h => Or.inl h

theorem LoopPost.comp {s t r : LoopSt} (h1 : LoopPost s t) (h2 : LoopPost t r) :
    LoopPost s r where
  ids_sub := fun i hi => h1.ids_sub i (h2.ids_sub i hi)
  entry_src := by
    intro e he
    obtain ⟨e1, he1, f1, f2, f3, f4⟩ := h2.entry_src e he
    obtain ⟨e0, he0, g1, g2, g3, g4⟩ := h1.entry_src e1 he1
    exact ⟨e0, he0, f1.trans g1, f2.trans g2, f3.trans g3, f4.trans g4⟩
  act_sub := fun i hi => h1.act_sub i (h2.act_sub i hi)
  fil_src := by
    intro i hi
    rcases h2.fil_src i hi with h | h
    · exact h1.fil_src i h
    · exact Or.inr (h1.act_sub i h)
  fil_mono := fun i o ho => h2.fil_mono i o (h1.fil_mono i o ho)
  act_dst := by
    intro i hi
    rcases h1.act_dst i hi with h | h
    · exact h2.act_dst i h
    · obtain ⟨o, ho⟩ := Option.isSome_iff_exists.mp h
      exact Or.inr (by rw [h2.fil_mono i o ho]; rfl)
  untouched := by
    intro i hi
    have hti : i ∉ t.opp.map Order.order_id := fun h => hi (h1.ids_sub i h)
    obtain ⟨u1, u2⟩ := h2.untouched i hti
    obtain ⟨v1, v2⟩ := h1.untouched i hi
    exact ⟨u1.trans v1, u2.trans v2⟩
  fil_new := by
    intro i o ho
    rcases h2.fil_new i o ho with h | h
    · exact h1.fil_new i o h
    · exact Or.inr h

/-- The push-back branch of a match, spelled out. -/
theorem matchNext_push {s : LoopSt} {top : Order}
    (h : top.quantity - min s.order.quantity top.quantity ≠ 0) :
    matchNext s top =
      { active := mapSet s.active top.order_id
          { top with quantity := top.quantity - min s.order.quantity top.quantity }
        filled := s.filled
        order := { s.order with
          quantity := s.order.quantity - min s.order.quantity top.quantity }
        opp := heappush Order.lt (popHeap s.opp)
          { top with quantity := top.quantity - min s.order.quantity top.quantity }
        matched := s.matched ++
          [⟨top.order_id, min s.order.quantity top.quantity, top.price⟩] } := by
  rw [matchNext, if_pos h]

/-- The fill branch of a match, spelled out. -/
theorem matchNext_fill {s : LoopSt} {top : Order}
    (h : ¬(top.quantity - min s.order.quantity top.quantity ≠ 0)) :
    matchNext s top =
      { active := mapDel s.active top.order_id
        filled := mapSet s.filled top.order_id
          { top with quantity := top.quantity - min s.order.quantity top.quantity }
        order := { s.order with
          quantity := s.order.quantity - min s.order.quantity top.quantity }
        opp := popHeap s.opp
        matched := s.matched ++
          [⟨top.order_id, min s.order.quantity top.quantity, top.price⟩] } := by
  rw [matchNext, if_neg h]

/-- The multiset of ids of the popped heap: the head id is removed. -/
theorem popHeap_ids {side : String} {s : LoopSt} {top : Order} {rest : List Order}
    (h : s.opp = top :: rest) (hInv : LoopInv side s) :
    (↑(s.opp.map Order.order_id) : Multiset String) =
      top.order_id ::ₘ ↑((popHeap s.opp).map Order.order_id) := by
  have hne : s.opp ≠ [] := by rw [h]; simp
  obtain ⟨hmul, hmem, hheap⟩ := popHeap_spec hInv.side_ok hne hInv.heap_ok
  have h0 : nthD s.opp 0 = top := by rw [h]; rfl
  rw [h0] at hmul
  have := congrArg (Multiset.map Order.order_id) hmul
  rw [Multiset.map_coe, Multiset.map_cons, Multiset.map_coe] at this
  exact this

/-- The stale-tombstone step preserves the loop invariant and satisfies
the step relation. -/
theorem stale_step (side : String) {s : LoopSt} {top : Order} {rest : List Order}
    (h : s.opp = top :: rest) (hInv : LoopInv side s) :
    LoopInv side { s with opp := popHeap s.opp } ∧
    LoopPost s { s with opp := popHeap s.opp } := by
  have hne : s.opp ≠ [] := by rw [h]; simp
  obtain ⟨hmul, hmem, hheap⟩ := popHeap_spec hInv.side_ok hne hInv.heap_ok
  have hids : ∀ i, i ∈ (popHeap s.opp).map Order.order_id →
      i ∈ s.opp.map Order.order_id := by
    intro i hi
    obtain ⟨o, ho, rfl⟩ := List.mem_map.mp hi
    exact List.mem_map.mpr ⟨o, hmem o ho, rfl⟩
  have hnodup : ((popHeap s.opp).map Order.order_id).Nodup := by
    have hids_mul := popHeap_ids h hInv
    have hsn : (↑(s.opp.map Order.order_id) : Multiset String).Nodup :=
      Multiset.coe_nodup.mpr hInv.nodup_ok
    rw [hids_mul, Multiset.nodup_cons] at hsn
    exact Multiset.coe_nodup.mp hsn.2
  constructor
  · exact {
      side_ok := fun o ho => hInv.side_ok o (hmem o ho)
      heap_ok := hheap
      alias_ok := fun o ho o2 h2 => hInv.alias_ok o (hmem o ho) o2 h2
      nodup_ok := hnodup
      act_key := hInv.act_key
      fil_key := hInv.fil_key
      act_pos := hInv.act_pos
      disj := hInv.disj
      q_nonneg := hInv.q_nonneg
      fresh_act := hInv.fresh_act
      fresh_fil := hInv.fresh_fil }
  · exact {
      ids_sub := hids
      entry_src := fun e he => ⟨e, hmem e he, rfl, rfl, rfl, rfl⟩
      act_sub := fun _ hi => hi
      fil_src := fun _ hi => Or.inl hi
      fil_mono := fun _ _ hi => hi
      act_dst := fun _ hi => Or.inl hi
      untouched := fun _ _ => ⟨rfl, rfl⟩
      fil_new := fun _ _ hi => Or.inl hi }

/-- Shared context facts at a successful match step. -/
theorem match_facts (side : String) {s : LoopSt} {top : Order} {rest : List Order}
    (h : s.opp = top :: rest) (hq : s.order.quantity ≠ 0)
    (hst : (s.active top.order_id).isNone = false) (hInv : LoopInv side s) :
    s.active top.order_id = some top ∧
    0 < min s.order.quantity top.quantity ∧
    min s.order.quantity top.quantity ≤ top.quantity ∧
    min s.order.quantity top.quantity ≤ s.order.quantity ∧
    top.order_id ∉ (popHeap s.opp).map Order.order_id ∧
    top.side = side ∧
    top.order_id ≠ s.order.order_id := by
  have htop_mem : top ∈ s.opp := by rw [h]; exact List.mem_cons_self _ _
  obtain ⟨oa, hoa⟩ : ∃ a, s.active top.order_id = some a := by
    cases hx : s.active top.order_id with
    | none => rw [hx] at hst; simp at hst
    | some a => exact ⟨a, rfl⟩
  have hoatop : oa = top := hInv.alias_ok top htop_mem oa hoa
  subst hoatop
  have htq : 0 < oa.quantity := hInv.act_pos _ _ hoa
  have hoq : 0 < s.order.quantity := by
    have := hInv.q_nonneg
    omega
  have hmin1 : min s.order.quantity oa.quantity ≤ oa.quantity := min_le_right ..
  have hmin2 : min s.order.quantity oa.quantity ≤ s.order.quantity := min_le_left ..
  have hminpos : 0 < min s.order.quantity oa.quantity := by
    rcases min_choice s.order.quantity oa.quantity with hm | hm <;> omega
  have hnotin : oa.order_id ∉ (popHeap s.opp).map Order.order_id := by
    intro hin
    have hids_mul := popHeap_ids h hInv
    have hsn : (↑(s.opp.map Order.order_id) : Multiset String).Nodup :=
      Multiset.coe_nodup.mpr hInv.nodup_ok
    rw [hids_mul, Multiset.nodup_cons] at hsn
    exact hsn.1 (Multiset.mem_coe.mpr hin)
  have hfresh : oa.order_id ≠ s.order.order_id := by
    intro he
    rw [he, hInv.fresh_act] at hoa
    exact Option.noConfusion hoa
  exact ⟨hoa, hminpos, hmin1, hmin2, hnotin, hInv.side_ok oa htop_mem, hfresh⟩

/-- The push-back branch of a match preserves the loop invariant and
satisfies the step relation. -/
theorem push_step (side : String) {s : LoopSt} {top : Order} {rest : List Order}
    (h : s.opp = top :: rest) (hq : s.order.quantity ≠ 0)
    (hst : (s.active top.order_id).isNone = false) (hInv : LoopInv side s)
    (htp : top.quantity - min s.order.quantity top.quantity ≠ 0) :
    LoopInv side (matchNext s top) ∧ LoopPost s (matchNext s top) := by
  obtain ⟨hact, hminpos, hmin1, hmin2, hnotin, hside, hfresh⟩ :=
    match_facts side h hq hst hInv
  have hne : s.opp ≠ [] := by rw [h]; simp
  obtain ⟨hmul, hmem, hheap⟩ := popHeap_spec hInv.side_ok hne hInv.heap_ok
  set m := min s.order.quantity top.quantity with hm
  set top' : Order := { top with quantity := top.quantity - m } with htop'
  have htopid : top'.order_id = top.order_id := rfl
  have hP : ∀ o ∈ popHeap s.opp, (fun o => o.side = side) o :=
    fun o ho => hInv.side_ok o (hmem o ho)
  have hPx : top'.side = side := hside
  obtain ⟨hp_len, hp_mul, hp_heap⟩ :=
    heappush_spec (swoOn_side side) hP hPx hheap
  have hmem_push : ∀ y, y ∈ heappush Order.lt (popHeap s.opp) top' →
      y = top' ∨ y ∈ popHeap s.opp := by
    intro y hy
    have : y ∈ (↑(heappush Order.lt (popHeap s.opp) top') : Multiset Order) :=
      Multiset.mem_coe.mpr hy
    rw [hp_mul] at this
    rcases Multiset.mem_cons.mp this with h1 | h1
    · exact Or.inl h1
    · exact Or.inr (Multiset.mem_coe.mp h1)
  have hids_push : ∀ i, i ∈ (heappush Order.lt (popHeap s.opp) top').map
      Order.order_id → i = top.order_id ∨
      i ∈ (popHeap s.opp).map Order.order_id := by
    intro i hi
    obtain ⟨o, ho, rfl⟩ := List.mem_map.mp hi
    rcases hmem_push o ho with h1 | h1
    · exact Or.inl (by rw [h1])
    · exact Or.inr (List.mem_map.mpr ⟨o, h1, rfl⟩)
  rw [matchNext_push htp]
  constructor
  · refine {
      side_ok := ?_
      heap_ok := hp_heap
      alias_ok := ?_
      nodup_ok := ?_
      act_key := ?_
      fil_key := hInv.fil_key
      act_pos := ?_
      disj := ?_
      q_nonneg := by simp only []; omega
      fresh_act := ?_
      fresh_fil := hInv.fresh_fil }
    · intro o ho
      rcases hmem_push o ho with h1 | h1
      · rw [h1]; exact hPx
      · exact hInv.side_ok o (hmem o h1)
    · intro o ho o2 h2
      rcases hmem_push o ho with h1 | h1
      · subst h1
        simp [mapSet] at h2
        exact h2.symm
      · have hne2 : o.order_id ≠ top.order_id := by
          intro he
          exact hnotin (he ▸ List.mem_map.mpr ⟨o, h1, rfl⟩)
        simp only [mapSet, if_neg hne2] at h2
        exact hInv.alias_ok o (hmem o h1) o2 h2
    · have hmap : (↑((heappush Order.lt (popHeap s.opp) top').map Order.order_id) :
          Multiset String) = top.order_id ::ₘ
          ↑((popHeap s.opp).map Order.order_id) := by
        have := congrArg (Multiset.map Order.order_id) hp_mul
        rw [Multiset.map_coe, Multiset.map_cons, Multiset.map_coe] at this
        exact this
      have hpop_nodup : ((popHeap s.opp).map Order.order_id).Nodup := by
        have hids_mul := popHeap_ids h hInv
        have hsn : (↑(s.opp.map Order.order_id) : Multiset String).Nodup :=
          Multiset.coe_nodup.mpr hInv.nodup_ok
        rw [hids_mul, Multiset.nodup_cons] at hsn
        exact Multiset.coe_nodup.mp hsn.2
      have : (↑((heappush Order.lt (popHeap s.opp) top').map Order.order_id) :
          Multiset String).Nodup := by
        rw [hmap, Multiset.nodup_cons]
        exact ⟨fun hc => hnotin (Multiset.mem_coe.mp hc),
          Multiset.coe_nodup.mpr hpop_nodup⟩
      exact Multiset.coe_nodup.mp this
    · intro i o ho
      by_cases hi : i = top.order_id
      · subst hi
        simp [mapSet] at ho
        rw [← ho]
      · simp only [mapSet, if_neg hi] at ho
        exact hInv.act_key i o ho
    · intro i o ho
      by_cases hi : i = top.order_id
      · subst hi
        simp [mapSet] at ho
        rw [← ho]
        show 0 < top.quantity - m
        omega
      · simp only [mapSet, if_neg hi] at ho
        exact hInv.act_pos i o ho
    · intro i hi1 hi2
      by_cases hi : i = top.order_id
      · subst hi
        refine hInv.disj top.order_id ?_ hi2
        rw [hact]; rfl
      · simp only [mapSet, if_neg hi] at hi1
        exact hInv.disj i hi1 hi2
    · show mapSet s.active top.order_id top' s.order.order_id = none
      simp only [mapSet, if_neg (Ne.symm hfresh)]
      exact hInv.fresh_act
  · refine {
      ids_sub := ?_
      entry_src := ?_
      act_sub := ?_
      fil_src := fun _ hi => Or.inl hi
      fil_mono := fun _ _ hi => hi
      act_dst := ?_
      untouched := ?_
      fil_new := fun _ _ hi => Or.inl hi }
    · intro i hi
      rcases hids_push i hi with h1 | h1
      · rw [h1, h]
        exact List.mem_map.mpr ⟨top, List.mem_cons_self _ _, rfl⟩
      · obtain ⟨o, ho, rfl⟩ := List.mem_map.mp h1
        exact List.mem_map.mpr ⟨o, hmem o ho, rfl⟩
    · intro e he
      rcases hmem_push e he with h1 | h1
      · refine ⟨top, by rw [h]; exact List.mem_cons_self _ _, ?_⟩
        rw [h1]
        exact ⟨rfl, rfl, rfl, rfl⟩
      · exact ⟨e, hmem e h1, rfl, rfl, rfl, rfl⟩
    · intro i hi
      by_cases hie : i = top.order_id
      · subst hie
        rw [hact]; rfl
      · simp only [mapSet, if_neg hie] at hi
        exact hi
    · intro i hi
      by_cases hie : i = top.order_id
      · subst hie
        left
        simp [mapSet]
      · left
        simp only [mapSet, if_neg hie]
        exact hi
    · intro i hi
      have hie : i ≠ top.order_id := by
        intro he
        subst he
        exact hi (by rw [h]; exact List.mem_map.mpr ⟨top, List.mem_cons_self _ _, rfl⟩)
      exact ⟨by simp only [mapSet, if_neg hie], rfl⟩

/-- The fill branch of a match preserves the loop invariant and
satisfies the step relation. -/
theorem fill_step (side : String) {s : LoopSt} {top : Order} {rest : List Order}
    (h : s.opp = top :: rest) (hq : s.order.quantity ≠ 0)
    (hst : (s.active top.order_id).isNone = false) (hInv : LoopInv side s)
    (htp : ¬(top.quantity - min s.order.quantity top.quantity ≠ 0)) :
    LoopInv side (matchNext s top) ∧ LoopPost s (matchNext s top) := by
  obtain ⟨hact, hminpos, hmin1, hmin2, hnotin, hside, hfresh⟩ :=
    match_facts side h hq hst hInv
  have hne : s.opp ≠ [] := by rw [h]; simp
  obtain ⟨hmul, hmem, hheap⟩ := popHeap_spec hInv.side_ok hne hInv.heap_ok
  set m := min s.order.quantity top.quantity with hm
  set top' : Order := { top with quantity := top.quantity - m } with htop'
  have hpop_nodup : ((popHeap s.opp).map Order.order_id).Nodup := by
    have hids_mul := popHeap_ids h hInv
    have hsn : (↑(s.opp.map Order.order_id) : Multiset String).Nodup :=
      Multiset.coe_nodup.mpr hInv.nodup_ok
    rw [hids_mul, Multiset.nodup_cons] at hsn
    exact Multiset.coe_nodup.mp hsn.2
  have hid_ne : ∀ o ∈ popHeap s.opp, o.order_id ≠ top.order_id := by
    intro o ho he
    exact hnotin (he ▸ List.mem_map.mpr ⟨o, ho, rfl⟩)
  rw [matchNext_fill htp]
  constructor
  · refine {
      side_ok := fun o ho => hInv.side_ok o (hmem o ho)
      heap_ok := hheap
      alias_ok := ?_
      nodup_ok := hpop_nodup
      act_key := ?_
      fil_key := ?_
      act_pos := ?_
      disj := ?_
      q_nonneg := by simp only []; omega
      fresh_act := ?_
      fresh_fil := ?_ }
    · intro o ho o2 h2
      simp only [mapDel, if_neg (hid_ne o ho)] at h2
      exact hInv.alias_ok o (hmem o ho) o2 h2
    · intro i o ho
      by_cases hi : i = top.order_id
      · simp [mapDel, hi] at ho
      · simp only [mapDel, if_neg hi] at ho
        exact hInv.act_key i o ho
    · intro i o ho
      by_cases hi : i = top.order_id
      · subst hi
        simp [mapSet] at ho
        rw [← ho]
      · simp only [mapSet, if_neg hi] at ho
        exact hInv.fil_key i o ho
    · intro i o ho
      by_cases hi : i = top.order_id
      · simp [mapDel, hi] at ho
      · simp only [mapDel, if_neg hi] at ho
        exact hInv.act_pos i o ho
    · intro i hi1 hi2
      by_cases hi : i = top.order_id
      · simp [mapDel, hi] at hi1
      · simp only [mapDel, if_neg hi] at hi1
        simp only [mapSet, if_neg hi] at hi2
        exact hInv.disj i hi1 hi2
    · show mapDel s.active top.order_id s.order.order_id = none
      simp only [mapDel, if_neg (Ne.symm hfresh)]
      exact hInv.fresh_act
    · show mapSet s.filled top.order_id top' s.order.order_id = none
      simp only [mapSet, if_neg (Ne.symm hfresh)]
      exact hInv.fresh_fil
  · refine {
      ids_sub := ?_
      entry_src := fun e he => ⟨e, hmem e he, rfl, rfl, rfl, rfl⟩
      act_sub := ?_
      fil_src := ?_
      fil_mono := ?_
      act_dst := ?_
      untouched := ?_
      fil_new := ?_ }
    · intro i hi
      obtain ⟨o, ho, rfl⟩ := List.mem_map.mp hi
      exact List.mem_map.mpr ⟨o, hmem o ho, rfl⟩
    · intro i hi
      by_cases hie : i = top.order_id
      · simp [mapDel, hie] at hi
      · simp only [mapDel, if_neg hie] at hi
        exact hi
    · intro i hi
      by_cases hie : i = top.order_id
      · subst hie
        right
        rw [hact]; rfl
      · simp only [mapSet, if_neg hie] at hi
        exact Or.inl hi
    · intro i o ho
      by_cases hie : i = top.order_id
      · subst hie
        exfalso
        refine hInv.disj top.order_id ?_ ?_
        · rw [hact]; rfl
        · rw [ho]; rfl
      · simp only [mapSet, if_neg hie]
        exact ho
    · intro i hi
      by_cases hie : i = top.order_id
      · subst hie
        right
        simp [mapSet]
      · left
        simp only [mapDel, if_neg hie]
        exact hi
    · intro i hi
      have hie : i ≠ top.order_id := by
        intro he
        subst he
        exact hi (by rw [h]; exact List.mem_map.mpr ⟨top, List.mem_cons_self _ _, rfl⟩)
      exact ⟨by simp only [mapDel, if_neg hie],
        by simp only [mapSet, if_neg hie]⟩
    · intro i o ho
      by_cases hie : i = top.order_id
      · subst hie
        simp [mapSet] at ho
        right
        rw [← ho]
        show top.quantity - m = 0
        omega
      · simp only [mapSet, if_neg hie] at ho
        exact Or.inl ho

/-- The matching loop preserves the loop invariant end-to-end, and its
final state is related to the initial one by `LoopPost`. -/
theorem processLoop_main (cond : ℤ → ℤ → Bool) (side : String) :
    ∀ (n : ℕ) (s : LoopSt), loopMeasure s ≤ n → LoopInv side s →
    LoopInv side (processLoop cond s) ∧ LoopPost s (processLoop cond s) := by
  intro n
  induction n with
  | zero =>
    intro s hn hInv
    have h2 : 2 * s.opp.length ≤ loopMeasure s := by
      rw [loopMeasure]; split <;> omega
    have hopp : s.opp = [] := List.length_eq_zero.mp (by omega)
    rw [processLoop_nil cond hopp]
    exact ⟨hInv, LoopPost.refl s⟩
  | succ n ih =>
    intro s hn hInv
    cases hopp : s.opp with
    | nil =>
      rw [processLoop_nil cond hopp]
      exact ⟨hInv, LoopPost.refl s⟩
    | cons top rest =>
      by_cases hq : s.order.quantity = 0
      · rw [processLoop_done cond hq]
        exact ⟨hInv, LoopPost.refl s⟩
      · cases hst : (s.active top.order_id).isNone with
        | true =>
          rw [processLoop_stale cond hopp hq hst]
          obtain ⟨hInv2, hpost⟩ := stale_step side hopp hInv
          have hdec := loopMeasure_stale (s := s) hopp
          obtain ⟨hInv3, hpost2⟩ := ih _ (by omega) hInv2
          exact ⟨hInv3, hpost.comp hpost2⟩
        | false =>
          cases hc : cond s.order.price top.price with
          | false =>
            rw [processLoop_break cond hopp hq hst hc]
            exact ⟨hInv, LoopPost.refl s⟩
          | true =>
            rw [processLoop_match cond hopp hq hst hc]
            have hdec := loopMeasure_match (s := s) hopp hq
            by_cases htp : top.quantity - min s.order.quantity top.quantity ≠ 0
            · obtain ⟨hInv2, hpost⟩ := push_step side hopp hq hst hInv htp
              obtain ⟨hInv3, hpost2⟩ := ih _ (by omega) hInv2
              exact ⟨hInv3, hpost.comp hpost2⟩
            · obtain ⟨hInv2, hpost⟩ := fill_step side hopp hq hst hInv htp
              obtain ⟨hInv3, hpost2⟩ := ih _ (by omega) hInv2
              exact ⟨hInv3, hpost.comp hpost2⟩

theorem matchNext_order (s : LoopSt) (top : Order) :
    (matchNext s top).order = { s.order with
      quantity := s.order.quantity - min s.order.quantity top.quantity } := by
  rw [matchNext]; split <;> rfl

theorem matchNext_matched (s : LoopSt) (top : Order) :
    (matchNext s top).matched = s.matched ++
      [⟨top.order_id, min s.order.quantity top.quantity, top.price⟩] := by
  rw [matchNext]; split <;> rfl

/-- The loop appends some list of match descriptors, preserves the
incoming order's identity fields, and decrements its quantity by
exactly the sum of the appended matched quantities. -/
theorem processLoop_delta (cond : ℤ → ℤ → Bool) :
    ∀ (n : ℕ) (s : LoopSt), loopMeasure s ≤ n →
    ∃ delta, (processLoop cond s).matched = s.matched ++ delta ∧
      (processLoop cond s).order.order_id = s.order.order_id ∧
      (processLoop cond s).order.side = s.order.side ∧
      (processLoop cond s).order.price = s.order.price ∧
      (processLoop cond s).order.order_number = s.order.order_number ∧
      (processLoop cond s).order.quantity =
        s.order.quantity - (delta.map MatchItem.qty).sum := by
  intro n
  induction n with
  | zero =>
    intro s hn
    have h2 : 2 * s.opp.length ≤ loopMeasure s := by
      rw [loopMeasure]; split <;> omega
    have hopp : s.opp = [] := List.length_eq_zero.mp (by omega)
    rw [processLoop_nil cond hopp]
    exact ⟨[], by simp, rfl, rfl, rfl, rfl, by simp⟩
  | succ n ih =>
    intro s hn
    cases hopp : s.opp with
    | nil =>
      rw [processLoop_nil cond hopp]
      exact ⟨[], by simp, rfl, rfl, rfl, rfl, by simp⟩
    | cons top rest =>
      by_cases hq : s.order.quantity = 0
      · rw [processLoop_done cond hq]
        exact ⟨[], by simp, rfl, rfl, rfl, rfl, by simp⟩
      · cases hst : (s.active top.order_id).isNone with
        | true =>
          rw [processLoop_stale cond hopp hq hst]
          have hdec := loopMeasure_stale (s := s) hopp
          exact ih _ (by omega)
        | false =>
          cases hc : cond s.order.price top.price with
          | false =>
            rw [processLoop_break cond hopp hq hst hc]
            exact ⟨[], by simp, rfl, rfl, rfl, rfl, by simp⟩
          | true =>
            rw [processLoop_match cond hopp hq hst hc]
            have hdec := loopMeasure_match (s := s) hopp hq
            obtain ⟨delta, d1, d2, d3, d4, d5, d6⟩ := ih (matchNext s top)
              (by omega)
            refine ⟨⟨top.order_id, min s.order.quantity top.quantity,
              top.price⟩ :: delta, ?_, ?_, ?_, ?_, ?_, ?_⟩
            · rw [d1, matchNext_matched]
              simp
            · rw [d2, matchNext_order]
            · rw [d3, matchNext_order]
            · rw [d4, matchNext_order]
            · rw [d5, matchNext_order]
            · rw [d6, matchNext_order]
              simp only [List.map_cons, List.sum_cons]
              show s.order.quantity - min s.order.quantity top.quantity -
                (delta.map MatchItem.qty).sum = _
              ring

theorem order_eta_sub_zero (o : Order) :
    ({ o with quantity := o.quantity - 0 } : Order) = o := by
  obtain ⟨a, b, c, d, e⟩ := o
  simp

/-- Per-id accounting summed over the appended match descriptors: ids
never active are untouched and unmatched; an active order's record is
decremented by exactly its matched total, remaining active while the
result is positive and moving to `filled` exactly when it reaches 0. -/
theorem processLoop_account (cond : ℤ → ℤ → Bool) (side : String) :
    ∀ (n : ℕ) (s : LoopSt), loopMeasure s ≤ n → LoopInv side s →
    ∃ delta, (processLoop cond s).matched = s.matched ++ delta ∧
      (∀ m ∈ delta, (s.active m.oid).isSome = true ∧ 0 < m.qty ∧
        m.oid ≠ s.order.order_id) ∧
      (∀ i, (s.active i = none →
          ((delta.filter (fun m => m.oid = i)).map MatchItem.qty).sum = 0 ∧
          (processLoop cond s).active i = s.active i ∧
          (processLoop cond s).filled i = s.filled i) ∧
        (∀ o, s.active i = some o →
          ((processLoop cond s).active i = some { o with quantity :=
              o.quantity -
              ((delta.filter (fun m => m.oid = i)).map MatchItem.qty).sum } ∧
            0 < o.quantity -
              ((delta.filter (fun m => m.oid = i)).map MatchItem.qty).sum ∧
            (processLoop cond s).filled i = s.filled i) ∨
          ((processLoop cond s).active i = none ∧
            (processLoop cond s).filled i = some { o with quantity := 0 } ∧
            ((delta.filter (fun m => m.oid = i)).map MatchItem.qty).sum =
              o.quantity))) := by
  intro n
  induction n with
  | zero =>
    intro s hn hInv
    have h2 : 2 * s.opp.length ≤ loopMeasure s := by
      rw [loopMeasure]; split <;> omega
    have hopp : s.opp = [] := List.length_eq_zero.mp (by omega)
    rw [processLoop_nil cond hopp]
    refine ⟨[], by simp, by simp, fun i => ⟨fun hnone => by simp [hnone], ?_⟩⟩
    intro o ho
    left
    simp only [List.filter_nil, List.map_nil, List.sum_nil]
    exact ⟨by rw [ho, order_eta_sub_zero], by
      have := hInv.act_pos i o ho; omega, trivial⟩
  | succ n ih =>
    intro s hn hInv
    have htriv : ∀ (h : processLoop cond s = s),
        ∃ delta, (processLoop cond s).matched = s.matched ++ delta ∧
        (∀ m ∈ delta, (s.active m.oid).isSome = true ∧ 0 < m.qty ∧
          m.oid ≠ s.order.order_id) ∧
        (∀ i, (s.active i = none →
            ((delta.filter (fun m => m.oid = i)).map MatchItem.qty).sum = 0 ∧
            (processLoop cond s).active i = s.active i ∧
            (processLoop cond s).filled i = s.filled i) ∧
          (∀ o, s.active i = some o →
            ((processLoop cond s).active i = some { o with quantity :=
                o.quantity -
                ((delta.filter (fun m => m.oid = i)).map MatchItem.qty).sum } ∧
              0 < o.quantity -
                ((delta.filter (fun m => m.oid = i)).map MatchItem.qty).sum ∧
              (processLoop cond s).filled i = s.filled i) ∨
            ((processLoop cond s).active i = none ∧
              (processLoop cond s).filled i = some { o with quantity := 0 } ∧
              ((delta.filter (fun m => m.oid = i)).map MatchItem.qty).sum =
                o.quantity))) := by
      intro h
      rw [h]
      refine ⟨[], by simp, by simp, fun i => ⟨fun hnone => by simp, ?_⟩⟩
      intro o ho
      left
      simp only [List.filter_nil, List.map_nil, List.sum_nil]
      exact ⟨by rw [ho, order_eta_sub_zero], by
        have := hInv.act_pos i o ho; omega, trivial⟩
    cases hopp : s.opp with
    | nil => exact htriv (processLoop_nil cond hopp)
    | cons top rest =>
      by_cases hq : s.order.quantity = 0
      · exact htriv (processLoop_done cond hq)
      · cases hst : (s.active top.order_id).isNone with
        | true =>
          rw [processLoop_stale cond hopp hq hst]
          have hdec := loopMeasure_stale (s := s) hopp
          obtain ⟨hInv2, _⟩ := stale_step side hopp hInv
          exact ih _ (by omega) hInv2
        | false =>
          cases hc : cond s.order.price top.price with
          | false => exact htriv (processLoop_break cond hopp hq hst hc)
          | true =>
            have hdec := loopMeasure_match (s := s) hopp hq
            obtain ⟨hact, hminpos, hmin1, hmin2, hnotin, hside, hfresh⟩ :=
              match_facts side hopp hq hst hInv
            by_cases htp : top.quantity - min s.order.quantity top.quantity ≠ 0
            · -- push-back: the incoming order is exhausted and the loop stops
              have hm_eq : min s.order.quantity top.quantity =
                  s.order.quantity := by
                rcases min_choice s.order.quantity top.quantity with hmc | hmc
                · exact hmc
                · exfalso; exact htp (by omega)
              have hdone : (matchNext s top).order.quantity = 0 := by
                rw [matchNext_order]
                show s.order.quantity - min s.order.quantity top.quantity = 0
                omega
              rw [processLoop_match cond hopp hq hst hc,
                processLoop_done cond hdone, matchNext_push htp]
              refine ⟨[⟨top.order_id, min s.order.quantity top.quantity,
                top.price⟩], by simp, ?_, ?_⟩
              · intro m hm
                rw [List.mem_singleton] at hm
                subst hm
                exact ⟨by rw [hact]; rfl, hminpos, hfresh⟩
              · intro i
                constructor
                · intro hnone
                  have hine : top.order_id ≠ i := by
                    intro he; rw [← he, hact] at hnone
                    exact Option.noConfusion hnone
                  refine ⟨by simp [hine], ?_, rfl⟩
                  show mapSet s.active top.order_id _ i = s.active i
                  simp [mapSet, Ne.symm hine]
                · intro o ho
                  left
                  by_cases hie : i = top.order_id
                  · subst hie
                    have hotop : o = top := by
                      rw [hact] at ho
                      exact (Option.some_inj.mp ho).symm
                    rw [hotop]
                    have hsum : (([(⟨top.order_id,
                        min s.order.quantity top.quantity, top.price⟩ :
                        MatchItem)].filter (fun m => m.oid = top.order_id)).map
                        MatchItem.qty).sum =
                        min s.order.quantity top.quantity := by simp
                    rw [hsum]
                    refine ⟨?_, by omega, rfl⟩
                    show mapSet s.active top.order_id _ top.order_id = _
                    simp [mapSet]
                  · have hine : top.order_id ≠ i := fun he => hie he.symm
                    have hsum : (([(⟨top.order_id,
                        min s.order.quantity top.quantity, top.price⟩ :
                        MatchItem)].filter (fun m => m.oid = i)).map
                        MatchItem.qty).sum = 0 := by
                      simp [hine]
                    rw [hsum]
                    refine ⟨?_, ?_, rfl⟩
                    · show mapSet s.active top.order_id _ i = _
                      simp only [mapSet, if_neg hie]
                      rw [ho, order_eta_sub_zero]
                    · have := hInv.act_pos i o ho
                      omega
            · -- fill: the resting order is exhausted and the loop continues
              have hmtop : min s.order.quantity top.quantity =
                  top.quantity := by omega
              obtain ⟨hInv2, _⟩ := fill_step side hopp hq hst hInv htp
              obtain ⟨delta, d1, d2, d3⟩ := ih (matchNext s top) (by omega) hInv2
              have hAct : (matchNext s top).active =
                  mapDel s.active top.order_id := by
                rw [matchNext_fill htp]
              have hFil : (matchNext s top).filled =
                  mapSet s.filled top.order_id { top with
                    quantity := top.quantity -
                      min s.order.quantity top.quantity } := by
                rw [matchNext_fill htp]
              have hOid : (matchNext s top).order.order_id =
                  s.order.order_id := by
                rw [matchNext_order]
              rw [processLoop_match cond hopp hq hst hc]
              refine ⟨⟨top.order_id, min s.order.quantity top.quantity,
                top.price⟩ :: delta, ?_, ?_, ?_⟩
              · rw [d1, matchNext_matched]
                simp
              · intro m hm
                rcases List.mem_cons.mp hm with hm1 | hm1
                · subst hm1
                  exact ⟨by rw [hact]; rfl, hminpos, hfresh⟩
                · obtain ⟨e1, e2, e3⟩ := d2 m hm1
                  rw [hAct] at e1
                  refine ⟨?_, e2, ?_⟩
                  · by_cases hmi : m.oid = top.order_id
                    · rw [hmi, hact]; rfl
                    · have heq : mapDel s.active top.order_id m.oid =
                          s.active m.oid := by
                        simp only [mapDel, if_neg hmi]
                      rw [← heq]
                      exact e1
                  · rw [hOid] at e3
                    exact e3
              · intro i
                constructor
                · intro hnone
                  have hine : top.order_id ≠ i := by
                    intro he; rw [← he, hact] at hnone
                    exact Option.noConfusion hnone
                  have hnone2 : (matchNext s top).active i = none := by
                    rw [hAct]
                    simp only [mapDel, if_neg (Ne.symm hine)]
                    exact hnone
                  obtain ⟨f1, f2, f3⟩ := (d3 i).1 hnone2
                  have hfilter : ((⟨top.order_id,
                      min s.order.quantity top.quantity, top.price⟩ :
                      MatchItem) :: delta).filter (fun m => m.oid = i) =
                      delta.filter (fun m => m.oid = i) := by
                    simp [List.filter_cons, hine]
                  refine ⟨by rw [hfilter]; exact f1, ?_, ?_⟩
                  · rw [f2, hnone2, hnone]
                  · rw [f3, hFil]
                    simp only [mapSet, if_neg (Ne.symm hine)]
                · intro o ho
                  by_cases hie : i = top.order_id
                  · subst hie
                    have hotop : o = top := by
                      rw [hact] at ho
                      exact (Option.some_inj.mp ho).symm
                    right
                    rw [hotop]
                    have hnone2 : (matchNext s top).active top.order_id =
                        none := by
                      rw [hAct]
                      simp [mapDel]
                    obtain ⟨f1, f2, f3⟩ := (d3 top.order_id).1 hnone2
                    refine ⟨by rw [f2, hnone2], ?_, ?_⟩
                    · rw [f3, hFil]
                      have hz : top.quantity -
                          min s.order.quantity top.quantity = 0 := by omega
                      simp [mapSet, hz]
                    · have hsum2 : ((((⟨top.order_id,
                          min s.order.quantity top.quantity, top.price⟩ :
                          MatchItem) :: delta).filter
                          (fun m => m.oid = top.order_id)).map
                          MatchItem.qty).sum =
                          min s.order.quantity top.quantity +
                          ((delta.filter (fun m => m.oid = top.order_id)).map
                            MatchItem.qty).sum := by
                        simp
                      rw [hsum2, f1, hmtop]
                      omega
                  · have hine : top.order_id ≠ i := fun he => hie he.symm
                    have hsome2 : (matchNext s top).active i = some o := by
                      rw [hAct]
                      simp only [mapDel, if_neg hie]
                      exact ho
                    have hfilter : ((⟨top.order_id,
                        min s.order.quantity top.quantity, top.price⟩ :
                        MatchItem) :: delta).filter (fun m => m.oid = i) =
                        delta.filter (fun m => m.oid = i) := by
                      simp [List.filter_cons, hine]
                    rw [hfilter]
                    rcases (d3 i).2 o hsome2 with ⟨g1, g2, g3⟩ | ⟨g1, g2, g3⟩
                    · left
                      refine ⟨g1, g2, ?_⟩
                      rw [g3, hFil]
                      simp only [mapSet, if_neg hie]
                    · right
                      exact ⟨g1, g2, g3⟩

/-! ### Price-time priority of the matching loop -/

/-- Index of the first occurrence of `x` (length of the list when
absent). -/
def firstIdx (x : String) : List String → ℕ
  | [] => 0
  | y :: ys => if y = x then 0 else firstIdx x ys + 1

theorem firstIdx_cons_self (x : String) (l : List String) :
    firstIdx x (x :: l) = 0 := by
  simp [firstIdx]

theorem firstIdx_cons_ne {x y : String} (h : y ≠ x) (l : List String) :
    firstIdx x (y :: l) = firstIdx x l + 1 := by
  simp [firstIdx, h]

theorem firstIdx_append_not_mem {x : String} {l1 : List String}
    (h : x ∉ l1) (l2 : List String) :
    firstIdx x (l1 ++ l2) = l1.length + firstIdx x l2 := by
  induction l1 with
  | nil => simp
  | cons y ys ih =>
    have hyx : y ≠ x := fun he => h (he ▸ List.mem_cons_self y ys)
    have hx : x ∉ ys := fun hm => h (List.mem_cons_of_mem y hm)
    rw [List.cons_append, firstIdx_cons_ne hyx, ih hx, List.length_cons]
    omega

/-- Price-time priority: if two resting orders are both in the opposite
heap and active, and `r1` strictly precedes `r2` under `Order.__lt__`,
then whenever `r2` is matched during the loop, `r1` was matched strictly
earlier. -/
theorem processLoop_prio (cond : ℤ → ℤ → Bool) (side : String) :
    ∀ (n : ℕ) (s : LoopSt), loopMeasure s ≤ n → LoopInv side s →
    ∀ r1 r2 : Order, r1 ∈ s.opp → r2 ∈ s.opp →
    s.active r1.order_id = some r1 → s.active r2.order_id = some r2 →
    Order.lt r1 r2 = true →
    r1.order_id ∉ s.matched.map MatchItem.oid →
    r2.order_id ∉ s.matched.map MatchItem.oid →
    r2.order_id ∈ (processLoop cond s).matched.map MatchItem.oid →
    r1.order_id ∈ (processLoop cond s).matched.map MatchItem.oid ∧
    firstIdx r1.order_id ((processLoop cond s).matched.map MatchItem.oid) <
      firstIdx r2.order_id ((processLoop cond s).matched.map MatchItem.oid) := by
  intro n
  induction n with
  | zero =>
    intro s hn hInv r1 r2 hr1 hr2 ha1 ha2 hlt hm1 hm2 hin
    have h2 : 2 * s.opp.length ≤ loopMeasure s := by
      rw [loopMeasure]; split <;> omega
    have hopp : s.opp = [] := List.length_eq_zero.mp (by omega)
    rw [hopp] at hr1
    exact absurd hr1 (List.not_mem_nil r1)
  | succ n ih =>
    intro s hn hInv r1 r2 hr1 hr2 ha1 ha2 hlt hm1 hm2 hin
    have hne12 : r1.order_id ≠ r2.order_id := by
      intro he
      rw [he, ha2] at ha1
      have : r2 = r1 := Option.some_inj.mp ha1
      rw [this] at hlt
      rw [(swoOn_side side).irrefl r1 (hInv.side_ok r1 hr1)] at hlt
      exact Bool.noConfusion hlt
    cases hopp : s.opp with
    | nil =>
      rw [hopp] at hr1
      exact absurd hr1 (List.not_mem_nil r1)
    | cons top rest =>
      by_cases hq : s.order.quantity = 0
      · rw [processLoop_done cond hq] at hin ⊢
        exact absurd hin hm2
      · cases hst : (s.active top.order_id).isNone with
        | true =>
          rw [processLoop_stale cond hopp hq hst] at hin ⊢
          have hne : s.opp ≠ [] := by rw [hopp]; simp
          obtain ⟨hmul, hmem, hheap⟩ :=
            popHeap_spec hInv.side_ok hne hInv.heap_ok
          have h0 : nthD s.opp 0 = top := by rw [hopp]; rfl
          rw [h0] at hmul
          have hstale : s.active top.order_id = none :=
            Option.isNone_iff_eq_none.mp hst
          have hmempop : ∀ r : Order, r ∈ s.opp →
              s.active r.order_id = some r → r ∈ popHeap s.opp := by
            intro r hr har
            have : r ∈ (↑s.opp : Multiset Order) := Multiset.mem_coe.mpr hr
            rw [hmul] at this
            rcases Multiset.mem_cons.mp this with h1 | h1
            · exfalso
              rw [h1, hstale] at har
              exact Option.noConfusion har
            · exact Multiset.mem_coe.mp h1
          obtain ⟨hInv2, _⟩ := stale_step side hopp hInv
          have hdec := loopMeasure_stale (s := s) hopp
          exact ih _ (by omega) hInv2 r1 r2 (hmempop r1 hr1 ha1)
            (hmempop r2 hr2 ha2) ha1 ha2 hlt hm1 hm2 hin
        | false =>
          cases hc : cond s.order.price top.price with
          | false =>
            rw [processLoop_break cond hopp hq hst hc] at hin ⊢
            exact absurd hin hm2
          | true =>
            obtain ⟨hact, hminpos, hmin1, hmin2, hnotin, hside, hfresh⟩ :=
              match_facts side hopp hq hst hInv
            have hdec := loopMeasure_match (s := s) hopp hq
            have hroot1 : Order.lt r1 top = false := by
              have h0 : nthD s.opp 0 = top := by rw [hopp]; rfl
              rw [← h0]
              exact root_min_mem (swoOn_side side) hInv.heap_ok
                hInv.side_ok hr1
            have htopr2 : top.order_id ≠ r2.order_id := by
              intro he
              have ha2b : s.active top.order_id = some r2 := by
                rw [he]; exact ha2
              have hr2top : r2 = top :=
                (Option.some_inj.mp (hact.symm.trans ha2b)).symm
              rw [hr2top, hroot1] at hlt
              exact Bool.noConfusion hlt
            rw [processLoop_match cond hopp hq hst hc] at hin ⊢
            have hne : s.opp ≠ [] := by rw [hopp]; simp
            obtain ⟨hmul, hmem, hheap⟩ :=
              popHeap_spec hInv.side_ok hne hInv.heap_ok
            have h0 : nthD s.opp 0 = top := by rw [hopp]; rfl
            rw [h0] at hmul
            by_cases htop1 : top.order_id = r1.order_id
            · -- the best entry is r1 itself: it is matched first
              have htopr1 : top = r1 := by
                rw [htop1, ha1] at hact
                exact (Option.some_inj.mp hact).symm
              obtain ⟨delta, d1, _, _, _, _, _⟩ := processLoop_delta cond
                (loopMeasure (matchNext s top)) (matchNext s top) le_rfl
              rw [d1, matchNext_matched] at hin ⊢
              have hids : ((s.matched ++ [(⟨top.order_id,
                  min s.order.quantity top.quantity, top.price⟩ : MatchItem)])
                  ++ delta).map
                  MatchItem.oid = s.matched.map MatchItem.oid ++
                  (top.order_id :: delta.map MatchItem.oid) := by
                simp
              rw [hids] at hin ⊢
              constructor
              · rw [htop1]
                exact List.mem_append_right _ (List.mem_cons_self _ _)
              · rw [htop1] at hin ⊢
                have hf1 : firstIdx r1.order_id (s.matched.map MatchItem.oid ++
                    (r1.order_id :: delta.map MatchItem.oid)) =
                    (s.matched.map MatchItem.oid).length := by
                  rw [firstIdx_append_not_mem hm1, firstIdx_cons_self]
                  omega
                have hf2 : firstIdx r2.order_id (s.matched.map MatchItem.oid ++
                    (r1.order_id :: delta.map MatchItem.oid)) =
                    (s.matched.map MatchItem.oid).length +
                    (firstIdx r2.order_id (delta.map MatchItem.oid) + 1) := by
                  rw [firstIdx_append_not_mem hm2, firstIdx_cons_ne hne12]
                rw [hf1, hf2]
                omega
            · -- the best entry is neither r1 nor r2: recurse
              have htr1 : top ≠ r1 := fun he => htop1 (by rw [he])
              have htr2 : top ≠ r2 := fun he => htopr2 (by rw [he])
              have hmempop : ∀ r : Order, r ∈ s.opp → top ≠ r →
                  r ∈ popHeap s.opp := by
                intro r hr hner
                have : r ∈ (↑s.opp : Multiset Order) := Multiset.mem_coe.mpr hr
                rw [hmul] at this
                rcases Multiset.mem_cons.mp this with h1 | h1
                · exact absurd h1.symm hner
                · exact Multiset.mem_coe.mp h1
              have hp1 : r1 ∈ popHeap s.opp := hmempop r1 hr1 htr1
              have hp2 : r2 ∈ popHeap s.opp := hmempop r2 hr2 htr2
              have hid1 : top.order_id ≠ r1.order_id := htop1
              have hid2 : top.order_id ≠ r2.order_id := htopr2
              have hmm1 : r1.order_id ∉ (s.matched ++ [(⟨top.order_id,
                  min s.order.quantity top.quantity, top.price⟩ :
                  MatchItem)]).map MatchItem.oid := by
                rw [List.map_append]
                intro hmem2
                rcases List.mem_append.mp hmem2 with h1 | h1
                · exact hm1 h1
                · simp at h1
                  exact hid1 h1.symm
              have hmm2 : r2.order_id ∉ (s.matched ++ [(⟨top.order_id,
                  min s.order.quantity top.quantity, top.price⟩ :
                  MatchItem)]).map MatchItem.oid := by
                rw [List.map_append]
                intro hmem2
                rcases List.mem_append.mp hmem2 with h1 | h1
                · exact hm2 h1
                · simp at h1
                  exact hid2 h1.symm
              by_cases htp : top.quantity - min s.order.quantity top.quantity ≠ 0
              · obtain ⟨hInv2, _⟩ := push_step side hopp hq hst hInv htp
                have ha1b : (matchNext s top).active r1.order_id = some r1 := by
                  rw [matchNext_push htp]
                  show mapSet s.active top.order_id _ r1.order_id = some r1
                  simp only [mapSet, if_neg (Ne.symm hid1)]
                  exact ha1
                have ha2b : (matchNext s top).active r2.order_id = some r2 := by
                  rw [matchNext_push htp]
                  show mapSet s.active top.order_id _ r2.order_id = some r2
                  simp only [mapSet, if_neg (Ne.symm hid2)]
                  exact ha2
                have hPtop : ({ top with quantity := top.quantity - min s.order.quantity top.quantity } : Order).side = side := hside
                obtain ⟨_, hpm, _⟩ := heappush_spec (swoOn_side side)
                  (fun o ho => hInv.side_ok o (hmem o ho)) hPtop hheap
                have hmemQ : ∀ r : Order, r ∈ popHeap s.opp →
                    r ∈ heappush Order.lt (popHeap s.opp)
                      ({ top with quantity := top.quantity - min s.order.quantity top.quantity } : Order) := by
                  intro r hr
                  have hrq : r ∈ (↑(heappush Order.lt (popHeap s.opp)
                      ({ top with quantity := top.quantity - min s.order.quantity top.quantity } : Order)) :
                      Multiset Order) := by
                    rw [hpm]
                    exact Multiset.mem_cons_of_mem (Multiset.mem_coe.mpr hr)
                  exact Multiset.mem_coe.mp hrq
                have hr1b : r1 ∈ (matchNext s top).opp := by
                  rw [matchNext_push htp]
                  exact hmemQ r1 hp1
                have hr2b : r2 ∈ (matchNext s top).opp := by
                  rw [matchNext_push htp]
                  exact hmemQ r2 hp2
                have hmm1b : r1.order_id ∉ (matchNext s top).matched.map
                    MatchItem.oid := by
                  rw [matchNext_matched]; exact hmm1
                have hmm2b : r2.order_id ∉ (matchNext s top).matched.map
                    MatchItem.oid := by
                  rw [matchNext_matched]; exact hmm2
                exact ih _ (by omega) hInv2 r1 r2 hr1b hr2b ha1b ha2b hlt
                  hmm1b hmm2b hin
              · obtain ⟨hInv2, _⟩ := fill_step side hopp hq hst hInv htp
                have ha1b : (matchNext s top).active r1.order_id = some r1 := by
                  rw [matchNext_fill htp]
                  show mapDel s.active top.order_id r1.order_id = some r1
                  simp only [mapDel, if_neg (Ne.symm hid1)]
                  exact ha1
                have ha2b : (matchNext s top).active r2.order_id = some r2 := by
                  rw [matchNext_fill htp]
                  show mapDel s.active top.order_id r2.order_id = some r2
                  simp only [mapDel, if_neg (Ne.symm hid2)]
                  exact ha2
                have hr1b : r1 ∈ (matchNext s top).opp := by
                  rw [matchNext_fill htp]
                  exact hp1
                have hr2b : r2 ∈ (matchNext s top).opp := by
                  rw [matchNext_fill htp]
                  exact hp2
                have hmm1b : r1.order_id ∉ (matchNext s top).matched.map
                    MatchItem.oid := by
                  rw [matchNext_matched]; exact hmm1
                have hmm2b : r2.order_id ∉ (matchNext s top).matched.map
                    MatchItem.oid := by
                  rw [matchNext_matched]; exact hmm2
                exact ih _ (by omega) hInv2 r1 r2 hr1b hr2b ha1b ha2b hlt
                  hmm1b hmm2b hin

/-! ### Specification of `_process_order` -/

/-- Everything `place_order` needs to re-establish the book invariant
after `_process_order`: heap shape, aliasing and id-tracking for both
heaps, registry key/positivity/disjointness facts, and the lifecycle
transition discipline. -/
theorem processOrder_spec (ownSide oppSide : String)
    (active filled : String → Option Order) (order : Order)
    (current opp : List Order) (cond : ℤ → ℤ → Bool)
    (hLoop : LoopInv oppSide ⟨active, filled, order, opp, []⟩)
    (hq0 : 0 < order.quantity)
    (hcur_side : ∀ o ∈ current, o.side = ownSide)
    (hcur_heap : heapProp Order.lt current)
    (hcur_nodup : (current.map Order.order_id).Nodup)
    (hcur_alias : ∀ o ∈ current, ∀ o2, active o.order_id = some o2 → o2 = o)
    (hcur_fresh : order.order_id ∉ current.map Order.order_id)
    (hopp_fresh : order.order_id ∉ opp.map Order.order_id)
    (hdisj_ids : ∀ i, i ∈ current.map Order.order_id →
      i ∈ opp.map Order.order_id → False)
    (horder_side : order.side = ownSide) :
    (∀ o ∈ (processOrder active filled order current opp cond).opp,
      o.side = oppSide) ∧
    heapProp Order.lt (processOrder active filled order current opp cond).opp ∧
    ((processOrder active filled order current opp cond).opp.map
      Order.order_id).Nodup ∧
    (∀ o ∈ (processOrder active filled order current opp cond).opp, ∀ o2,
      (processOrder active filled order current opp cond).active o.order_id =
        some o2 → o2 = o) ∧
    (∀ i, i ∈ (processOrder active filled order current opp cond).opp.map
      Order.order_id → i ∈ opp.map Order.order_id) ∧
    (∀ o ∈ (processOrder active filled order current opp cond).current,
      o.side = ownSide) ∧
    heapProp Order.lt
      (processOrder active filled order current opp cond).current ∧
    ((processOrder active filled order current opp cond).current.map
      Order.order_id).Nodup ∧
    (∀ o ∈ (processOrder active filled order current opp cond).current, ∀ o2,
      (processOrder active filled order current opp cond).active o.order_id =
        some o2 → o2 = o) ∧
    (∀ i, i ∈ (processOrder active filled order current opp cond).current.map
      Order.order_id → i ∈ current.map Order.order_id ∨ i = order.order_id) ∧
    (∀ i o, (processOrder active filled order current opp cond).active i =
      some o → o.order_id = i) ∧
    (∀ i o, (processOrder active filled order current opp cond).filled i =
      some o → o.order_id = i) ∧
    (∀ i o, (processOrder active filled order current opp cond).active i =
      some o → 0 < o.quantity) ∧
    (∀ i o, (processOrder active filled order current opp cond).filled i =
      some o → filled i = some o ∨ o.quantity = 0) ∧
    (∀ i, ((processOrder active filled order current opp cond).active i).isSome
      = true → ((processOrder active filled order current opp cond).filled
      i).isSome = true → False) ∧
    (∀ i, ((processOrder active filled order current opp cond).active i).isSome
      = true → (active i).isSome = true ∨ i = order.order_id) ∧
    (∀ i, ((processOrder active filled order current opp cond).filled i).isSome
      = true → (filled i).isSome = true ∨ (active i).isSome = true ∨
      i = order.order_id) ∧
    (∀ i o, filled i = some o →
      (processOrder active filled order current opp cond).filled i = some o) ∧
    (∀ i, (active i).isSome = true →
      ((processOrder active filled order current opp cond).active i).isSome =
        true ∨ ((processOrder active filled order current opp
        cond).filled i).isSome = true) ∧
    (∀ i, i ∉ opp.map Order.order_id → i ≠ order.order_id →
      (processOrder active filled order current opp cond).active i = active i ∧
      (processOrder active filled order current opp cond).filled i =
        filled i) ∧
    (((processOrder active filled order current opp cond).active
        order.order_id).isSome = true ∨
      ((processOrder active filled order current opp cond).filled
        order.order_id).isSome = true) := by
  have hmain := processLoop_main cond oppSide
    (loopMeasure ⟨active, filled, order, opp, []⟩)
    ⟨active, filled, order, opp, []⟩ le_rfl hLoop
  obtain ⟨hInvF, hPost⟩ := hmain
  obtain ⟨delta, d1, d2, d3, d4, d5, d6⟩ := processLoop_delta cond
    (loopMeasure ⟨active, filled, order, opp, []⟩)
    ⟨active, filled, order, opp, []⟩ le_rfl
  set sl := processLoop cond ⟨active, filled, order, opp, []⟩ with hsl
  have hslid : sl.order.order_id = order.order_id := d2
  have hslside : sl.order.side = order.side := d3
  have hslq : 0 ≤ sl.order.quantity := hInvF.q_nonneg
  -- ids in the final opposite heap avoid the incoming id
  have hopp_ids : ∀ o ∈ sl.opp, o.order_id ≠ order.order_id := by
    intro o ho he
    exact hopp_fresh (he ▸ hPost.ids_sub o.order_id
      (List.mem_map.mpr ⟨o, ho, rfl⟩))
  have huntouched : ∀ i, i ∉ opp.map Order.order_id →
      sl.active i = active i ∧ sl.filled i = filled i := hPost.untouched
  have hcur_untouched : ∀ o ∈ current, sl.active o.order_id =
      active o.order_id := by
    intro o ho
    exact (huntouched o.order_id (fun hm =>
      hdisj_ids o.order_id (List.mem_map.mpr ⟨o, ho, rfl⟩) hm)).1
  by_cases hfin : sl.order.quantity ≠ 0
  · have hres : processOrder active filled order current opp cond =
        ⟨sl.matched, mapSet sl.active order.order_id sl.order, sl.filled,
          heappush Order.lt current sl.order, sl.opp, sl.order⟩ := by
      rw [processOrder, ← hsl, if_pos hfin]
    rw [hres]
    have hPsl : sl.order.side = ownSide := by rw [hslside]; exact horder_side
    obtain ⟨hp_len, hp_mul, hp_heap⟩ := heappush_spec (swoOn_side ownSide)
      hcur_side hPsl hcur_heap
    have hmem_push : ∀ y, y ∈ heappush Order.lt current sl.order →
        y = sl.order ∨ y ∈ current := by
      intro y hy
      have hq2 : y ∈ (↑(heappush Order.lt current sl.order) : Multiset Order) :=
        Multiset.mem_coe.mpr hy
      rw [hp_mul] at hq2
      rcases Multiset.mem_cons.mp hq2 with h1 | h1
      · exact Or.inl h1
      · exact Or.inr (Multiset.mem_coe.mp h1)
    refine ⟨hInvF.side_ok, hInvF.heap_ok, hInvF.nodup_ok, ?_,
      fun i hi => hPost.ids_sub i hi, ?_, hp_heap, ?_, ?_, ?_, ?_,
      hInvF.fil_key, ?_, fun i o ho => hPost.fil_new i o ho, ?_, ?_,
      fun i hi => (hPost.fil_src i hi).elim Or.inl (fun h => Or.inr (Or.inl h)),
      hPost.fil_mono, ?_, ?_, ?_⟩
    · -- alias for the remaining opposite entries
      intro o ho o2 h2
      have hne : o.order_id ≠ order.order_id := hopp_ids o ho
      simp only [mapSet, if_neg hne] at h2
      exact hInvF.alias_ok o ho o2 h2
    · -- sides in the own heap after the push
      intro o ho
      rcases hmem_push o ho with h1 | h1
      · rw [h1]; exact hPsl
      · exact hcur_side o h1
    · -- no duplicate ids in the own heap after the push
      have hmap : (↑((heappush Order.lt current sl.order).map Order.order_id) :
          Multiset String) = sl.order.order_id ::ₘ
          ↑(current.map Order.order_id) := by
        have hq2 := congrArg (Multiset.map Order.order_id) hp_mul
        rw [Multiset.map_coe, Multiset.map_cons, Multiset.map_coe] at hq2
        exact hq2
      have hnd : (↑((heappush Order.lt current sl.order).map Order.order_id) :
          Multiset String).Nodup := by
        rw [hmap, Multiset.nodup_cons]
        refine ⟨fun hc => ?_, Multiset.coe_nodup.mpr hcur_nodup⟩
        rw [hslid] at hc
        exact hcur_fresh (Multiset.mem_coe.mp hc)
      exact Multiset.coe_nodup.mp hnd
    · -- alias for the own heap after the push
      intro o ho o2 h2
      rcases hmem_push o ho with h1 | h1
      · subst h1
        rw [hslid] at h2
        simp [mapSet] at h2
        exact h2.symm
      · have hne : o.order_id ≠ order.order_id := by
          intro he
          exact hcur_fresh (he ▸ List.mem_map.mpr ⟨o, h1, rfl⟩)
        simp only [mapSet, if_neg hne] at h2
        rw [hcur_untouched o h1] at h2
        exact hcur_alias o h1 o2 h2
    · -- own heap ids come from the old own heap or the incoming order
      intro i hi
      obtain ⟨o, ho, rfl⟩ := List.mem_map.mp hi
      rcases hmem_push o ho with h1 | h1
      · right; rw [h1]; exact hslid
      · left; exact List.mem_map.mpr ⟨o, h1, rfl⟩
    · -- active keys
      intro i o ho
      by_cases hi : i = order.order_id
      · subst hi
        simp [mapSet] at ho
        rw [← ho]
        exact hslid
      · simp only [mapSet, if_neg hi] at ho
        exact hInvF.act_key i o ho
    · -- active positivity
      intro i o ho
      by_cases hi : i = order.order_id
      · subst hi
        simp [mapSet] at ho
        rw [← ho]
        omega
      · simp only [mapSet, if_neg hi] at ho
        exact hInvF.act_pos i o ho
    · -- active/filled disjointness
      intro i hi1 hi2
      by_cases hi : i = order.order_id
      · subst hi
        have hi2b : (sl.filled sl.order.order_id).isSome = true := by
          rw [hslid]; exact hi2
        rw [hInvF.fresh_fil] at hi2b
        exact Bool.noConfusion hi2b
      · simp only [mapSet, if_neg hi] at hi1
        exact hInvF.disj i hi1 hi2
    · -- ids entering active
      intro i hi
      by_cases hie : i = order.order_id
      · exact Or.inr hie
      · simp only [mapSet, if_neg hie] at hi
        exact Or.inl (hPost.act_sub i hi)
    · -- old active ids stay in active or filled
      intro i hi
      rcases hPost.act_dst i hi with h1 | h1
      · left
        by_cases hie : i = order.order_id
        · subst hie; simp [mapSet]
        · simp only [mapSet, if_neg hie]; exact h1
      · exact Or.inr h1
    · -- untouched ids
      intro i hi hie
      obtain ⟨u1, u2⟩ := huntouched i hi
      exact ⟨by simp only [mapSet, if_neg hie]; exact u1, u2⟩
    · -- the incoming order is registered as active
      left
      simp [mapSet]
  · have hres : processOrder active filled order current opp cond =
        ⟨sl.matched, sl.active, mapSet sl.filled order.order_id sl.order,
          current, sl.opp, sl.order⟩ := by
      rw [processOrder, ← hsl, if_neg hfin]
    rw [hres]
    have hq_zero : sl.order.quantity = 0 := by omega
    refine ⟨hInvF.side_ok, hInvF.heap_ok, hInvF.nodup_ok,
      fun o ho o2 h2 => hInvF.alias_ok o ho o2 h2,
      fun i hi => hPost.ids_sub i hi, hcur_side, hcur_heap, hcur_nodup,
      ?_, fun i hi => Or.inl hi, hInvF.act_key, ?_, hInvF.act_pos, ?_, ?_,
      fun i hi => Or.inl (hPost.act_sub i hi), ?_, ?_, ?_, ?_, ?_⟩
    · -- alias for the unchanged own heap
      intro o ho o2 h2
      have h2b : sl.active o.order_id = some o2 := h2
      rw [hcur_untouched o ho] at h2b
      exact hcur_alias o ho o2 h2b
    · -- filled keys
      intro i o ho
      by_cases hi : i = order.order_id
      · subst hi
        simp [mapSet] at ho
        rw [← ho]
        exact hslid
      · simp only [mapSet, if_neg hi] at ho
        exact hInvF.fil_key i o ho
    · -- new filled entries are exhausted
      intro i o ho
      by_cases hi : i = order.order_id
      · subst hi
        simp [mapSet] at ho
        right
        rw [← ho]
        exact hq_zero
      · simp only [mapSet, if_neg hi] at ho
        exact hPost.fil_new i o ho
    · -- active/filled disjointness
      intro i hi1 hi2
      by_cases hi : i = order.order_id
      · subst hi
        have hi1b : (sl.active sl.order.order_id).isSome = true := by
          rw [hslid]; exact hi1
        rw [hInvF.fresh_act] at hi1b
        exact Bool.noConfusion hi1b
      · simp only [mapSet, if_neg hi] at hi2
        exact hInvF.disj i hi1 hi2
    · -- ids entering filled
      intro i hi
      by_cases hie : i = order.order_id
      · exact Or.inr (Or.inr hie)
      · simp only [mapSet, if_neg hie] at hi
        rcases hPost.fil_src i hi with h1 | h1
        · exact Or.inl h1
        · exact Or.inr (Or.inl h1)
    · -- filled grows monotonically
      intro i o ho
      by_cases hie : i = order.order_id
      · exfalso
        subst hie
        have hff : filled order.order_id = none := hLoop.fresh_fil
        rw [hff] at ho
        exact Option.noConfusion ho
      · simp only [mapSet, if_neg hie]
        exact hPost.fil_mono i o ho
    · -- old active ids stay in active or filled
      intro i hi
      rcases hPost.act_dst i hi with h1 | h1
      · exact Or.inl h1
      · right
        by_cases hie : i = order.order_id
        · subst hie; simp [mapSet]
        · simp only [mapSet, if_neg hie]; exact h1
    · -- untouched ids
      intro i hi hie
      obtain ⟨u1, u2⟩ := huntouched i hi
      exact ⟨u1, by simp only [mapSet, if_neg hie]; exact u2⟩
    · -- the incoming order is registered as filled
      right
      simp [mapSet]

/-! ### The book invariant -/

/-- The invariant every reachable `OrderBook` satisfies: the three
lifecycle maps are pairwise disjoint and key-consistent, active and
canceled orders have positive quantity, filled orders are exhausted,
and each heap is side-uniform, well shaped, duplicate-free, aliased
with `active_orders`, tracked by the registry, and shares no id with
the other heap. -/
structure Inv (b : OrderBook) : Prop where
  disjAF : ∀ i, (b.active_orders i).isSome = true →
    (b.filled_orders i).isSome = true → False
  disjAC : ∀ i, (b.active_orders i).isSome = true →
    (b.canceled_orders i).isSome = true → False
  disjFC : ∀ i, (b.filled_orders i).isSome = true →
    (b.canceled_orders i).isSome = true → False
  act_key : ∀ i o, b.active_orders i = some o → o.order_id = i
  fil_key : ∀ i o, b.filled_orders i = some o → o.order_id = i
  can_key : ∀ i o, b.canceled_orders i = some o → o.order_id = i
  act_pos : ∀ i o, b.active_orders i = some o → 0 < o.quantity
  fil_zero : ∀ i o, b.filled_orders i = some o → o.quantity = 0
  can_pos : ∀ i o, b.canceled_orders i = some o → 0 < o.quantity
  buy_side : ∀ o ∈ b.heap_buy_orders, o.side = "buy"
  sell_side : ∀ o ∈ b.heap_sell_orders, o.side = "sell"
  buy_heap : heapProp Order.lt b.heap_buy_orders
  sell_heap : heapProp Order.lt b.heap_sell_orders
  buy_nodup : (b.heap_buy_orders.map Order.order_id).Nodup
  sell_nodup : (b.heap_sell_orders.map Order.order_id).Nodup
  buy_alias : ∀ o ∈ b.heap_buy_orders, ∀ o2,
    b.active_orders o.order_id = some o2 → o2 = o
  sell_alias : ∀ o ∈ b.heap_sell_orders, ∀ o2,
    b.active_orders o.order_id = some o2 → o2 = o
  buy_tracked : ∀ i, i ∈ b.heap_buy_orders.map Order.order_id →
    (b.active_orders i).isSome = true ∨ (b.filled_orders i).isSome = true ∨
    (b.canceled_orders i).isSome = true
  sell_tracked : ∀ i, i ∈ b.heap_sell_orders.map Order.order_id →
    (b.active_orders i).isSome = true ∨ (b.filled_orders i).isSome = true ∨
    (b.canceled_orders i).isSome = true
  heap_disj : ∀ i, i ∈ b.heap_buy_orders.map Order.order_id →
    i ∈ b.heap_sell_orders.map Order.order_id → False

/-- A fresh book satisfies the invariant. -/
theorem inv_init : Inv OrderBook.init where
  disjAF := fun _ h _ => Bool.noConfusion h
  disjAC := fun _ h _ => Bool.noConfusion h
  disjFC := fun _ h _ => Bool.noConfusion h
  act_key := fun _ _ h => Option.noConfusion h
  fil_key := fun _ _ h => Option.noConfusion h
  can_key := fun _ _ h => Option.noConfusion h
  act_pos := fun _ _ h => Option.noConfusion h
  fil_zero := fun _ _ h => Option.noConfusion h
  can_pos := fun _ _ h => Option.noConfusion h
  buy_side := fun _ h => absurd h (List.not_mem_nil _)
  sell_side := fun _ h => absurd h (List.not_mem_nil _)
  buy_heap := heapProp_nil Order.lt
  sell_heap := heapProp_nil Order.lt
  buy_nodup := List.nodup_nil
  sell_nodup := List.nodup_nil
  buy_alias := fun _ h => absurd h (List.not_mem_nil _)
  sell_alias := fun _ h => absurd h (List.not_mem_nil _)
  buy_tracked := fun _ h => absurd h (List.not_mem_nil _)
  sell_tracked := fun _ h => absurd h (List.not_mem_nil _)
  heap_disj := fun _ h _ => absurd h (List.not_mem_nil _)

/-- `cancel_order` preserves the book invariant. -/
theorem inv_cancel (b : OrderBook) (hInv : Inv b) (i : String) :
    Inv (b.cancel_order i).2 := by
  rw [OrderBook.cancel_order]
  split
  · exact hInv
  next h1 =>
  split
  · exact hInv
  next order h2 =>
  show Inv { b with
    canceled_orders := mapSet b.canceled_orders i order,
    active_orders := mapDel b.active_orders i }
  refine ⟨?_, ?_, ?_, ?_, hInv.fil_key, ?_, ?_, hInv.fil_zero, ?_,
    hInv.buy_side, hInv.sell_side, hInv.buy_heap, hInv.sell_heap,
    hInv.buy_nodup, hInv.sell_nodup, ?_, ?_, ?_, ?_, hInv.heap_disj⟩
  · -- active/filled disjointness
    intro j ha hf
    by_cases hji : j = i
    · subst hji; simp [mapDel] at ha
    · simp only [mapDel, if_neg hji] at ha
      exact hInv.disjAF j ha hf
  · -- active/canceled disjointness
    intro j ha hc
    by_cases hji : j = i
    · subst hji; simp [mapDel] at ha
    · simp only [mapDel, if_neg hji] at ha
      simp only [mapSet, if_neg hji] at hc
      exact hInv.disjAC j ha hc
  · -- filled/canceled disjointness
    intro j hf hc
    by_cases hji : j = i
    · subst hji; exact h1 hf
    · simp only [mapSet, if_neg hji] at hc
      exact hInv.disjFC j hf hc
  · -- active keys
    intro j o ho
    by_cases hji : j = i
    · subst hji; simp [mapDel] at ho
    · simp only [mapDel, if_neg hji] at ho
      exact hInv.act_key j o ho
  · -- canceled keys
    intro j o ho
    by_cases hji : j = i
    · subst hji
      have hoeq : o = order := by
        have hs : some o = some order := by rw [← ho]; simp [mapSet]
        exact Option.some.inj hs
      rw [hoeq]
      exact hInv.act_key _ order h2
    · simp only [mapSet, if_neg hji] at ho
      exact hInv.can_key j o ho
  · -- active positivity
    intro j o ho
    by_cases hji : j = i
    · subst hji; simp [mapDel] at ho
    · simp only [mapDel, if_neg hji] at ho
      exact hInv.act_pos j o ho
  · -- canceled positivity
    intro j o ho
    by_cases hji : j = i
    · subst hji
      have hoeq : o = order := by
        have hs : some o = some order := by rw [← ho]; simp [mapSet]
        exact Option.some.inj hs
      rw [hoeq]
      exact hInv.act_pos _ order h2
    · simp only [mapSet, if_neg hji] at ho
      exact hInv.can_pos j o ho
  · -- buy-heap alias
    intro o ho o2 hoo
    by_cases hji : o.order_id = i
    · rw [hji] at hoo; simp [mapDel] at hoo
    · simp only [mapDel, if_neg hji] at hoo
      exact hInv.buy_alias o ho o2 hoo
  · -- sell-heap alias
    intro o ho o2 hoo
    by_cases hji : o.order_id = i
    · rw [hji] at hoo; simp [mapDel] at hoo
    · simp only [mapDel, if_neg hji] at hoo
      exact hInv.sell_alias o ho o2 hoo
  · -- buy-heap ids tracked
    intro j hj
    by_cases hji : j = i
    · subst hji
      right; right
      simp [mapSet]
    · rcases hInv.buy_tracked j hj with h | h | h
      · left; simp only [mapDel, if_neg hji]; exact h
      · right; left; exact h
      · right; right; simp only [mapSet, if_neg hji]; exact h
  · -- sell-heap ids tracked
    intro j hj
    by_cases hji : j = i
    · subst hji
      right; right
      simp [mapSet]
    · rcases hInv.sell_tracked j hj with h | h | h
      · left; simp only [mapDel, if_neg hji]; exact h
      · right; left; exact h
      · right; right; simp only [mapSet, if_neg hji]; exact h

/-- `place_order` preserves the book invariant. -/
theorem inv_place (b : OrderBook) (hInv : Inv b) (i s : String) (p q : ℤ) :
    Inv (b.place_order i s p q).2 := by
  show Inv (b.place_order_ev i s p q).2.1
  rw [OrderBook.place_order_ev]
  split
  · exact hInv
  split
  · exact hInv
  next h1 h2 =>
  split
  · exact hInv
  next order h3 =>
  -- unpack the constructed order
  rw [Order.init] at h3
  by_cases hv : ¬(strLower s = "buy" ∨ strLower s = "sell")
  · rw [if_pos hv] at h3; exact Except.noConfusion h3
  rw [if_neg hv] at h3
  by_cases hpq : p ≤ 0 ∨ q ≤ 0
  · rw [if_pos hpq] at h3; exact Except.noConfusion h3
  rw [if_neg hpq] at h3
  have hoeq : order = ⟨i, strLower s, p, q, b.order_counter⟩ :=
    (Except.ok.inj h3).symm
  have hid : order.order_id = i := by rw [hoeq]
  have hside : order.side = strLower s := by rw [hoeq]
  have hqty : order.quantity = q := by rw [hoeq]
  have hq0 : 0 < order.quantity := by rw [hqty]; omega
  -- the incoming id is absent from the registry
  have hact_none : b.active_orders i = none := by
    cases hx : b.active_orders i with
    | none => rfl
    | some o => exact absurd (Or.inl (by rw [hx]; rfl)) h2
  have hfil_none : b.filled_orders i = none := by
    cases hx : b.filled_orders i with
    | none => rfl
    | some o => exact absurd (Or.inr (Or.inl (by rw [hx]; rfl))) h2
  have hcan_none : b.canceled_orders i = none := by
    cases hx : b.canceled_orders i with
    | none => rfl
    | some o => exact absurd (Or.inr (Or.inr (by rw [hx]; rfl))) h2
  -- the incoming id is absent from both heaps
  have hbuy_fresh : i ∉ b.heap_buy_orders.map Order.order_id := by
    intro hmem
    rcases hInv.buy_tracked i hmem with hx | hx | hx
    · rw [hact_none] at hx; exact Bool.noConfusion hx
    · rw [hfil_none] at hx; exact Bool.noConfusion hx
    · rw [hcan_none] at hx; exact Bool.noConfusion hx
  have hsell_fresh : i ∉ b.heap_sell_orders.map Order.order_id := by
    intro hmem
    rcases hInv.sell_tracked i hmem with hx | hx | hx
    · rw [hact_none] at hx; exact Bool.noConfusion hx
    · rw [hfil_none] at hx; exact Bool.noConfusion hx
    · rw [hcan_none] at hx; exact Bool.noConfusion hx
  split
  next h5 =>
    -- incoming buy
    have hLoop : LoopInv "sell"
        ⟨b.active_orders, b.filled_orders, order, b.heap_sell_orders, []⟩ :=
      ⟨hInv.sell_side, hInv.sell_heap, hInv.sell_alias, hInv.sell_nodup,
        hInv.act_key, hInv.fil_key, hInv.act_pos, hInv.disjAF, le_of_lt hq0,
        by show b.active_orders order.order_id = none; rw [hid]; exact hact_none,
        by show b.filled_orders order.order_id = none; rw [hid]; exact hfil_none⟩
    obtain ⟨c1, c2, c3, c4, c5, c6, c7, c8, c9, c10, c11, c12, c13, c14, c15,
        c16, c17, c18, c19, c20, c21⟩ :=
      processOrder_spec "buy" "sell" b.active_orders b.filled_orders order
        b.heap_buy_orders b.heap_sell_orders buyCondition hLoop hq0
        hInv.buy_side hInv.buy_heap hInv.buy_nodup hInv.buy_alias
        (by rw [hid]; exact hbuy_fresh) (by rw [hid]; exact hsell_fresh)
        hInv.heap_disj h5
    show Inv
      { active_orders := (processOrder b.active_orders b.filled_orders order
          b.heap_buy_orders b.heap_sell_orders buyCondition).active,
        filled_orders := (processOrder b.active_orders b.filled_orders order
          b.heap_buy_orders b.heap_sell_orders buyCondition).filled,
        canceled_orders := b.canceled_orders,
        heap_buy_orders := (processOrder b.active_orders b.filled_orders order
          b.heap_buy_orders b.heap_sell_orders buyCondition).current,
        heap_sell_orders := (processOrder b.active_orders b.filled_orders order
          b.heap_buy_orders b.heap_sell_orders buyCondition).opp,
        order_counter := b.order_counter + 1 }
    refine ⟨c15, ?_, ?_, c11, c12, hInv.can_key, c13, ?_, hInv.can_pos,
      c6, c1, c7, c2, c8, c3, c9, c4, ?_, ?_, ?_⟩
    · -- active/canceled disjointness
      intro j ha hc
      rcases c16 j ha with hx | hx
      · exact hInv.disjAC j hx hc
      · rw [hx, hid, hcan_none] at hc; exact Bool.noConfusion hc
    · -- filled/canceled disjointness
      intro j hf hc
      rcases c17 j hf with hx | hx | hx
      · exact hInv.disjFC j hx hc
      · exact hInv.disjAC j hx hc
      · rw [hx, hid, hcan_none] at hc; exact Bool.noConfusion hc
    · -- filled entries are exhausted
      intro j o ho
      rcases c14 j o ho with hx | hx
      · exact hInv.fil_zero j o hx
      · exact hx
    · -- buy-heap ids tracked
      intro j hj
      rcases c10 j hj with hx | hx
      · rcases hInv.buy_tracked j hx with h | h | h
        · rcases c19 j h with h' | h'
          · exact Or.inl h'
          · exact Or.inr (Or.inl h')
        · obtain ⟨o, ho⟩ := Option.isSome_iff_exists.mp h
          exact Or.inr (Or.inl (Option.isSome_iff_exists.mpr ⟨o, c18 j o ho⟩))
        · exact Or.inr (Or.inr h)
      · rw [hx]
        rcases c21 with h | h
        · exact Or.inl h
        · exact Or.inr (Or.inl h)
    · -- sell-heap ids tracked
      intro j hj
      have hj0 : j ∈ b.heap_sell_orders.map Order.order_id := c5 j hj
      rcases hInv.sell_tracked j hj0 with h | h | h
      · rcases c19 j h with h' | h'
        · exact Or.inl h'
        · exact Or.inr (Or.inl h')
      · obtain ⟨o, ho⟩ := Option.isSome_iff_exists.mp h
        exact Or.inr (Or.inl (Option.isSome_iff_exists.mpr ⟨o, c18 j o ho⟩))
      · exact Or.inr (Or.inr h)
    · -- the two heaps stay id-disjoint
      intro j hj1 hj2
      have hj2b : j ∈ b.heap_sell_orders.map Order.order_id := c5 j hj2
      rcases c10 j hj1 with hx | hx
      · exact hInv.heap_disj j hx hj2b
      · rw [hx, hid] at hj2b; exact hsell_fresh hj2b
  next h5 =>
    -- incoming sell
    have hs_sell : order.side = "sell" := by
      rcases not_not.mp hv with h | h
      · exact absurd (by rw [hside]; exact h) h5
      · rw [hside]; exact h
    have hLoop : LoopInv "buy"
        ⟨b.active_orders, b.filled_orders, order, b.heap_buy_orders, []⟩ :=
      ⟨hInv.buy_side, hInv.buy_heap, hInv.buy_alias, hInv.buy_nodup,
        hInv.act_key, hInv.fil_key, hInv.act_pos, hInv.disjAF, le_of_lt hq0,
        by show b.active_orders order.order_id = none; rw [hid]; exact hact_none,
        by show b.filled_orders order.order_id = none; rw [hid]; exact hfil_none⟩
    obtain ⟨c1, c2, c3, c4, c5, c6, c7, c8, c9, c10, c11, c12, c13, c14, c15,
        c16, c17, c18, c19, c20, c21⟩ :=
      processOrder_spec "sell" "buy" b.active_orders b.filled_orders order
        b.heap_sell_orders b.heap_buy_orders sellCondition hLoop hq0
        hInv.sell_side hInv.sell_heap hInv.sell_nodup hInv.sell_alias
        (by rw [hid]; exact hsell_fresh) (by rw [hid]; exact hbuy_fresh)
        (fun j ha hb => hInv.heap_disj j hb ha) hs_sell
    show Inv
      { active_orders := (processOrder b.active_orders b.filled_orders order
          b.heap_sell_orders b.heap_buy_orders sellCondition).active,
        filled_orders := (processOrder b.active_orders b.filled_orders order
          b.heap_sell_orders b.heap_buy_orders sellCondition).filled,
        canceled_orders := b.canceled_orders,
        heap_buy_orders := (processOrder b.active_orders b.filled_orders order
          b.heap_sell_orders b.heap_buy_orders sellCondition).opp,
        heap_sell_orders := (processOrder b.active_orders b.filled_orders order
          b.heap_sell_orders b.heap_buy_orders sellCondition).current,
        order_counter := b.order_counter + 1 }
    refine ⟨c15, ?_, ?_, c11, c12, hInv.can_key, c13, ?_, hInv.can_pos,
      c1, c6, c2, c7, c3, c8, c4, c9, ?_, ?_, ?_⟩
    · -- active/canceled disjointness
      intro j ha hc
      rcases c16 j ha with hx | hx
      · exact hInv.disjAC j hx hc
      · rw [hx, hid, hcan_none] at hc; exact Bool.noConfusion hc
    · -- filled/canceled disjointness
      intro j hf hc
      rcases c17 j hf with hx | hx | hx
      · exact hInv.disjFC j hx hc
      · exact hInv.disjAC j hx hc
      · rw [hx, hid, hcan_none] at hc; exact Bool.noConfusion hc
    · -- filled entries are exhausted
      intro j o ho
      rcases c14 j o ho with hx | hx
      · exact hInv.fil_zero j o hx
      · exact hx
    · -- buy-heap ids tracked
      intro j hj
      have hj0 : j ∈ b.heap_buy_orders.map Order.order_id := c5 j hj
      rcases hInv.buy_tracked j hj0 with h | h | h
      · rcases c19 j h with h' | h'
        · exact Or.inl h'
        · exact Or.inr (Or.inl h')
      · obtain ⟨o, ho⟩ := Option.isSome_iff_exists.mp h
        exact Or.inr (Or.inl (Option.isSome_iff_exists.mpr ⟨o, c18 j o ho⟩))
      · exact Or.inr (Or.inr h)
    · -- sell-heap ids tracked
      intro j hj
      rcases c10 j hj with hx | hx
      · rcases hInv.sell_tracked j hx with h | h | h
        · rcases c19 j h with h' | h'
          · exact Or.inl h'
          · exact Or.inr (Or.inl h')
        · obtain ⟨o, ho⟩ := Option.isSome_iff_exists.mp h
          exact Or.inr (Or.inl (Option.isSome_iff_exists.mpr ⟨o, c18 j o ho⟩))
        · exact Or.inr (Or.inr h)
      · rw [hx]
        rcases c21 with h | h
        · exact Or.inl h
        · exact Or.inr (Or.inl h)
    · -- the two heaps stay id-disjoint
      intro j hj1 hj2
      have hj1b : j ∈ b.heap_buy_orders.map Order.order_id := c5 j hj1
      rcases c10 j hj2 with hx | hx
      · exact hInv.heap_disj j hj1b hx
      · rw [hx, hid] at hj1b; exact hbuy_fresh hj1b

/-- Every request preserves the book invariant. -/
theorem inv_step (b : OrderBook) (hInv : Inv b) (c : Cmd) : Inv (b.step c) := by
  cases c with
  | place i s p q => exact inv_place b hInv i s p q
  | cancel i => exact inv_cancel b hInv i

theorem inv_foldl (cs : List Cmd) (b : OrderBook) (hInv : Inv b) :
    Inv (cs.foldl OrderBook.step b) := by
  induction cs generalizing b with
  | nil => exact hInv
  | cons c cs ih => exact ih _ (inv_step b hInv c)

/-- Every reachable book state satisfies the invariant. -/
theorem inv_runBook (cs : List Cmd) : Inv (runBook cs) :=
  inv_foldl cs OrderBook.init inv_init

/-! ### Helpers for the claim theorems -/

theorem processOrder_matched (active filled : String → Option Order)
    (order : Order) (current opp : List Order) (cond : ℤ → ℤ → Bool) :
    (processOrder active filled order current opp cond).matched =
      (processLoop cond ⟨active, filled, order, opp, []⟩).matched := by
  rw [processOrder]; split <;> rfl

theorem processOrder_order (active filled : String → Option Order)
    (order : Order) (current opp : List Order) (cond : ℤ → ℤ → Bool) :
    (processOrder active filled order current opp cond).order =
      (processLoop cond ⟨active, filled, order, opp, []⟩).order := by
  rw [processOrder]; split <;> rfl

/-- With enough fuel the loop reaches a genuine stopping state: the
incoming order exhausted, the opposite heap empty, or a live best entry
that fails the crossing test. -/
theorem processLoop_final (cond : ℤ → ℤ → Bool) :
    ∀ (n : ℕ) (s : LoopSt), loopMeasure s ≤ n →
    (processLoop cond s).order.quantity = 0 ∨
    (processLoop cond s).opp = [] ∨
    ∃ top rest, (processLoop cond s).opp = top :: rest ∧
      ((processLoop cond s).active top.order_id).isSome = true ∧
      cond (processLoop cond s).order.price top.price = false := by
  intro n
  induction n with
  | zero =>
    intro s hn
    have h2 : 2 * s.opp.length ≤ loopMeasure s := by
      rw [loopMeasure]; split <;> omega
    have hopp : s.opp = [] := List.length_eq_zero.mp (by omega)
    rw [processLoop_nil cond hopp]
    exact Or.inr (Or.inl hopp)
  | succ n ih =>
    intro s hn
    cases hopp : s.opp with
    | nil =>
      rw [processLoop_nil cond hopp]
      exact Or.inr (Or.inl hopp)
    | cons top rest =>
      by_cases hq : s.order.quantity = 0
      · rw [processLoop_done cond hq]
        exact Or.inl hq
      · cases hst : (s.active top.order_id).isNone with
        | true =>
          rw [processLoop_stale cond hopp hq hst]
          have hdec := loopMeasure_stale (s := s) hopp
          exact ih _ (by omega)
        | false =>
          cases hc : cond s.order.price top.price with
          | false =>
            rw [processLoop_break cond hopp hq hst hc]
            refine Or.inr (Or.inr ⟨top, rest, hopp, ?_, hc⟩)
            cases hx : s.active top.order_id with
            | none => rw [hx] at hst; simp at hst
            | some o => rfl
          | true =>
            rw [processLoop_match cond hopp hq hst hc]
            have hdec := loopMeasure_match (s := s) hopp hq
            exact ih _ (by omega)

/-- A raising `place_order` call mutates nothing and reports no
matches. -/
theorem place_error_unchanged (b : OrderBook) (i s : String) (p q : ℤ)
    (e : String) (he : (b.place_order_ev i s p q).1 = Except.error e) :
    (b.place_order_ev i s p q).2.1 = b ∧
    (b.place_order_ev i s p q).2.2 = [] := by
  by_cases h1 : i = "" ∨ s = "" ∨ p = 0 ∨ q = 0
  · rw [OrderBook.place_order_ev, if_pos h1]; exact ⟨rfl, rfl⟩
  by_cases h2 : (b.active_orders i).isSome = true ∨
      (b.filled_orders i).isSome = true ∨ (b.canceled_orders i).isSome = true
  · rw [OrderBook.place_order_ev, if_neg h1, if_pos h2]; exact ⟨rfl, rfl⟩
  rw [OrderBook.place_order_ev, if_neg h1, if_neg h2] at he ⊢
  cases horder : Order.init i s p q b.order_counter with
  | error e2 => exact ⟨rfl, rfl⟩
  | ok o =>
    rw [horder] at he
    exfalso
    split at he
    · rename_i heq
      exact Except.noConfusion heq
    · split at he <;> exact Except.noConfusion he

/-- Per-id quantity accounting across `_process_order`: every match
descriptor names a then-active resting order with positive matched
quantity; each registry record is decremented by exactly the sum of the
descriptors naming it (moving to filled when exhausted); ids the loop
never matched are untouched; the incoming order is registered with its
quantity reduced by the total matched. -/
theorem processOrder_account (oppSide : String)
    (active filled : String → Option Order) (order : Order)
    (current opp : List Order) (cond : ℤ → ℤ → Bool)
    (hLoop : LoopInv oppSide ⟨active, filled, order, opp, []⟩) :
    (∀ m ∈ (processOrder active filled order current opp cond).matched,
      (active m.oid).isSome = true ∧ 0 < m.qty ∧ m.oid ≠ order.order_id) ∧
    (∀ x, x ≠ order.order_id →
      (active x = none →
        (processOrder active filled order current opp cond).active x =
          active x ∧
        (processOrder active filled order current opp cond).filled x =
          filled x ∧
        ((((processOrder active filled order current opp
            cond).matched.filter (fun m => m.oid = x)).map
            MatchItem.qty)).sum = 0) ∧
      (∀ o, active x = some o →
        ((processOrder active filled order current opp cond).active x =
            some { o with quantity := o.quantity -
              ((((processOrder active filled order current opp
                cond).matched.filter (fun m => m.oid = x)).map
                MatchItem.qty)).sum } ∧
          0 < o.quantity -
            ((((processOrder active filled order current opp
              cond).matched.filter (fun m => m.oid = x)).map
              MatchItem.qty)).sum ∧
          (processOrder active filled order current opp cond).filled x =
            filled x) ∨
        ((processOrder active filled order current opp cond).active x =
            none ∧
          (processOrder active filled order current opp cond).filled x =
            some { o with quantity := 0 } ∧
          ((((processOrder active filled order current opp
            cond).matched.filter (fun m => m.oid = x)).map
            MatchItem.qty)).sum = o.quantity))) ∧
    ((((processOrder active filled order current opp
      cond).matched.filter (fun m => m.oid = order.order_id)).map
      MatchItem.qty)).sum = 0 ∧
    (∃ o2, ((processOrder active filled order current opp cond).active
          order.order_id = some o2 ∧ 0 < o2.quantity ∨
        ((processOrder active filled order current opp cond).active
            order.order_id = none ∧
          (processOrder active filled order current opp cond).filled
            order.order_id = some o2 ∧ o2.quantity = 0)) ∧
      o2.order_id = order.order_id ∧ o2.side = order.side ∧
      o2.price = order.price ∧
      o2.quantity = order.quantity -
        (((processOrder active filled order current opp
          cond).matched.map MatchItem.qty)).sum) := by
  obtain ⟨hInvF, hPost⟩ := processLoop_main cond oppSide
    (loopMeasure ⟨active, filled, order, opp, []⟩)
    ⟨active, filled, order, opp, []⟩ le_rfl hLoop
  obtain ⟨delta, a1, a2, a3⟩ := processLoop_account cond oppSide
    (loopMeasure ⟨active, filled, order, opp, []⟩)
    ⟨active, filled, order, opp, []⟩ le_rfl hLoop
  obtain ⟨deltaD, d1, d2, d3, d4, d5, d6⟩ := processLoop_delta cond
    (loopMeasure ⟨active, filled, order, opp, []⟩)
    ⟨active, filled, order, opp, []⟩ le_rfl
  set sl := processLoop cond ⟨active, filled, order, opp, []⟩ with hsl
  have hmd : sl.matched = delta := by
    have := a1
    simpa using this
  have hmdD : sl.matched = deltaD := by
    have := d1
    simpa using this
  have hfresh : active order.order_id = none := hLoop.fresh_act
  by_cases hfin : sl.order.quantity ≠ 0
  · have hres : processOrder active filled order current opp cond =
        ⟨sl.matched, mapSet sl.active order.order_id sl.order, sl.filled,
          heappush Order.lt current sl.order, sl.opp, sl.order⟩ := by
      rw [processOrder, ← hsl, if_pos hfin]
    have hRm : (processOrder active filled order current opp cond).matched =
        sl.matched := by rw [hres]
    have hRa : (processOrder active filled order current opp cond).active =
        mapSet sl.active order.order_id sl.order := by rw [hres]
    have hRf : (processOrder active filled order current opp cond).filled =
        sl.filled := by rw [hres]
    rw [hRm, hRa, hRf]
    refine ⟨?_, ?_, ?_, ?_⟩
    · intro m hm
      rw [hmd] at hm
      exact a2 m hm
    · intro x hx
      constructor
      · intro hnone
        obtain ⟨hfs, hax, hfx⟩ := (a3 x).1 hnone
        refine ⟨?_, hfx, ?_⟩
        · simp only [mapSet, if_neg hx]
          exact hax
        · rw [hmd]
          exact hfs
      · intro o ho
        rcases (a3 x).2 o ho with ⟨ha, hpos, hf⟩ | ⟨ha, hf, hq⟩
        · left
          refine ⟨?_, ?_, hf⟩
          · simp only [mapSet, if_neg hx]
            rw [hmd]
            exact ha
          · rw [hmd]
            exact hpos
        · right
          refine ⟨?_, hf, ?_⟩
          · simp only [mapSet, if_neg hx]
            exact ha
          · rw [hmd]
            exact hq
    · rw [hmd]
      have hnil : delta.filter (fun m => m.oid = order.order_id) = [] := by
        refine List.filter_eq_nil_iff.mpr ?_
        intro m hm
        simp only [decide_eq_true_eq]
        exact (a2 m hm).2.2
      rw [hnil]
      rfl
    · refine ⟨sl.order, Or.inl ⟨?_, ?_⟩, d2, d3, d4, ?_⟩
      · have : sl.order.order_id = order.order_id := d2
        simp [mapSet, this]
      · have := hInvF.q_nonneg
        omega
      · rw [hmdD]
        exact d6
  · have hres : processOrder active filled order current opp cond =
        ⟨sl.matched, sl.active, mapSet sl.filled order.order_id sl.order,
          current, sl.opp, sl.order⟩ := by
      rw [processOrder, ← hsl, if_neg hfin]
    have hRm : (processOrder active filled order current opp cond).matched =
        sl.matched := by rw [hres]
    have hRa : (processOrder active filled order current opp cond).active =
        sl.active := by rw [hres]
    have hRf : (processOrder active filled order current opp cond).filled =
        mapSet sl.filled order.order_id sl.order := by rw [hres]
    rw [hRm, hRa, hRf]
    refine ⟨?_, ?_, ?_, ?_⟩
    · intro m hm
      rw [hmd] at hm
      exact a2 m hm
    · intro x hx
      constructor
      · intro hnone
        obtain ⟨hfs, hax, hfx⟩ := (a3 x).1 hnone
        refine ⟨hax, ?_, ?_⟩
        · simp only [mapSet, if_neg hx]
          exact hfx
        · rw [hmd]
          exact hfs
      · intro o ho
        rcases (a3 x).2 o ho with ⟨ha, hpos, hf⟩ | ⟨ha, hf, hq⟩
        · left
          refine ⟨?_, ?_, ?_⟩
          · rw [hmd]
            exact ha
          · rw [hmd]
            exact hpos
          · simp only [mapSet, if_neg hx]
            exact hf
        · right
          refine ⟨ha, ?_, ?_⟩
          · simp only [mapSet, if_neg hx]
            exact hf
          · rw [hmd]
            exact hq
    · rw [hmd]
      have hnil : delta.filter (fun m => m.oid = order.order_id) = [] := by
        refine List.filter_eq_nil_iff.mpr ?_
        intro m hm
        simp only [decide_eq_true_eq]
        exact (a2 m hm).2.2
      rw [hnil]
      rfl
    · refine ⟨sl.order, Or.inr ⟨?_, ?_, by omega⟩, d2, d3, d4, ?_⟩
      · obtain ⟨_, hax, _⟩ := (a3 order.order_id).1 hfresh
        rw [hax]
        exact hfresh
      · have : sl.order.order_id = order.order_id := d2
        simp [mapSet, this]
      · rw [hmdD]
        exact d6

/-- Book-facing consequences of `processOrder_account`: how the result
registry relates to the input registry, id by id. -/
theorem account_to_book (oppSide : String)
    (active filled : String → Option Order) (order : Order)
    (current opp : List Order) (cond : ℤ → ℤ → Bool)
    (hLoop : LoopInv oppSide ⟨active, filled, order, opp, []⟩)
    (hdisjAF : ∀ x, (active x).isSome = true → (filled x).isSome = true →
      False) :
    (∀ m ∈ (processOrder active filled order current opp cond).matched,
      (active m.oid).isSome = true ∧ 0 < m.qty ∧ m.oid ≠ order.order_id) ∧
    (∀ x, ((processOrder active filled order current opp
        cond).active x).isSome = true →
      (active x).isSome = true ∨ x = order.order_id) ∧
    (∀ x o, filled x = some o →
      (processOrder active filled order current opp cond).filled x =
        some o) ∧
    (∀ x, x ≠ order.order_id →
      (active x = none →
        (processOrder active filled order current opp cond).active x =
          active x ∧
        (processOrder active filled order current opp cond).filled x =
          filled x ∧
        ((((processOrder active filled order current opp
          cond).matched.filter (fun m => m.oid = x)).map
          MatchItem.qty)).sum = 0) ∧
      (∀ o, active x = some o →
        ((processOrder active filled order current opp cond).active x =
            some { o with quantity := o.quantity -
              ((((processOrder active filled order current opp
                cond).matched.filter (fun m => m.oid = x)).map
                MatchItem.qty)).sum } ∧
          0 < o.quantity -
            ((((processOrder active filled order current opp
              cond).matched.filter (fun m => m.oid = x)).map
              MatchItem.qty)).sum ∧
          (processOrder active filled order current opp cond).filled x =
            filled x) ∨
        ((processOrder active filled order current opp cond).active x =
            none ∧
          (processOrder active filled order current opp cond).filled x =
            some { o with quantity := 0 } ∧
          ((((processOrder active filled order current opp
            cond).matched.filter (fun m => m.oid = x)).map
            MatchItem.qty)).sum = o.quantity))) ∧
    ((((processOrder active filled order current opp
      cond).matched.filter (fun m => m.oid = order.order_id)).map
      MatchItem.qty)).sum = 0 ∧
    (∃ o2, ((processOrder active filled order current opp cond).active
          order.order_id = some o2 ∧ 0 < o2.quantity ∨
        ((processOrder active filled order current opp cond).active
            order.order_id = none ∧
          (processOrder active filled order current opp cond).filled
            order.order_id = some o2 ∧ o2.quantity = 0)) ∧
      o2.order_id = order.order_id ∧ o2.side = order.side ∧
      o2.price = order.price ∧
      o2.quantity = order.quantity -
        (((processOrder active filled order current opp
          cond).matched.map MatchItem.qty)).sum) := by
  obtain ⟨a1, a2, a3, a4⟩ :=
    processOrder_account oppSide active filled order current opp cond hLoop
  refine ⟨a1, ?_, ?_, a2, a3, a4⟩
  · -- new active ids come from the old active map or the incoming order
    intro x hx
    by_cases hxi : x = order.order_id
    · exact Or.inr hxi
    · cases hax : active x with
      | none =>
        obtain ⟨ha, _, _⟩ := (a2 x hxi).1 hax
        rw [ha, hax] at hx
        exact Bool.noConfusion hx
      | some o => exact Or.inl rfl
  · -- the filled map only grows
    intro x o ho
    by_cases hxi : x = order.order_id
    · exfalso
      have : filled order.order_id = none := hLoop.fresh_fil
      rw [hxi, this] at ho
      exact Option.noConfusion ho
    · cases hax : active x with
      | none =>
        obtain ⟨_, hf, _⟩ := (a2 x hxi).1 hax
        rw [hf]
        exact ho
      | some o3 =>
        rcases (a2 x hxi).2 o3 hax with ⟨_, _, hf⟩ | ⟨_, hf, _⟩
        · rw [hf]; exact ho
        · exact absurd (hdisjAF x (by rw [hax]; rfl) (by rw [ho]; rfl))
            (fun h => h)

/-- Everything a successful `place_order` call guarantees about the
result book and the reported matches, phrased against the input book. -/
theorem place_ok_spec (b : OrderBook) (i s : String) (p q : ℤ)
    (res : String) (b2 : OrderBook) (ms : List MatchItem)
    (hInv : Inv b)
    (hev : b.place_order_ev i s p q = (Except.ok res, b2, ms)) :
    b.active_orders i = none ∧ b.filled_orders i = none ∧
    b.canceled_orders i = none ∧ 0 < q ∧
    b2.canceled_orders = b.canceled_orders ∧
    b2.order_counter = b.order_counter + 1 ∧
    (∀ m ∈ ms, (b.active_orders m.oid).isSome = true ∧ 0 < m.qty ∧
      m.oid ≠ i) ∧
    (∀ x, (b2.active_orders x).isSome = true →
      (b.active_orders x).isSome = true ∨ x = i) ∧
    (∀ x o, b.filled_orders x = some o → b2.filled_orders x = some o) ∧
    (∀ x, x ≠ i →
      (b.active_orders x = none →
        b2.active_orders x = b.active_orders x ∧
        b2.filled_orders x = b.filled_orders x ∧
        (((ms.filter (fun m => m.oid = x)).map MatchItem.qty)).sum = 0) ∧
      (∀ o, b.active_orders x = some o →
        (b2.active_orders x = some { o with quantity := o.quantity -
            (((ms.filter (fun m => m.oid = x)).map MatchItem.qty)).sum } ∧
          0 < o.quantity -
            (((ms.filter (fun m => m.oid = x)).map MatchItem.qty)).sum ∧
          b2.filled_orders x = b.filled_orders x) ∨
        (b2.active_orders x = none ∧
          b2.filled_orders x = some { o with quantity := 0 } ∧
          (((ms.filter (fun m => m.oid = x)).map MatchItem.qty)).sum =
            o.quantity))) ∧
    (((ms.filter (fun m => m.oid = i)).map MatchItem.qty)).sum = 0 ∧
    (∃ o, (b2.active_orders i = some o ∧ 0 < o.quantity ∨
        (b2.active_orders i = none ∧ b2.filled_orders i = some o ∧
          o.quantity = 0)) ∧
      o.order_id = i ∧ o.side = strLower s ∧ o.price = p ∧
      o.quantity = q - (ms.map MatchItem.qty).sum) := by
  have hok : (b.place_order_ev i s p q).1 = Except.ok res := by rw [hev]
  by_cases h1 : i = "" ∨ s = "" ∨ p = 0 ∨ q = 0
  · rw [OrderBook.place_order_ev, if_pos h1] at hok
    exact Except.noConfusion hok
  by_cases h2 : (b.active_orders i).isSome = true ∨
      (b.filled_orders i).isSome = true ∨
      (b.canceled_orders i).isSome = true
  · rw [OrderBook.place_order_ev, if_neg h1, if_pos h2] at hok
    exact Except.noConfusion hok
  by_cases hv0 : ¬(strLower s = "buy" ∨ strLower s = "sell")
  · rw [OrderBook.place_order_ev, if_neg h1, if_neg h2, Order.init,
      if_pos hv0] at hok
    exact Except.noConfusion hok
  rw [not_not] at hv0
  by_cases hpq : p ≤ 0 ∨ q ≤ 0
  · rw [OrderBook.place_order_ev, if_neg h1, if_neg h2, Order.init,
      if_neg (not_not_intro hv0), if_pos hpq] at hok
    exact Except.noConfusion hok
  have horder : Order.init i s p q b.order_counter =
      Except.ok ⟨i, strLower s, p, q, b.order_counter⟩ := by
    rw [Order.init, if_neg (not_not_intro hv0), if_neg hpq]
  rw [OrderBook.place_order_ev, if_neg h1, if_neg h2, horder] at hev
  have hact_none : b.active_orders i = none := by
    cases hx : b.active_orders i with
    | none => rfl
    | some o => exact absurd (Or.inl (by rw [hx]; rfl)) h2
  have hfil_none : b.filled_orders i = none := by
    cases hx : b.filled_orders i with
    | none => rfl
    | some o => exact absurd (Or.inr (Or.inl (by rw [hx]; rfl))) h2
  have hcan_none : b.canceled_orders i = none := by
    cases hx : b.canceled_orders i with
    | none => rfl
    | some o => exact absurd (Or.inr (Or.inr (by rw [hx]; rfl))) h2
  have hq0 : 0 < q := by omega
  by_cases h5 : strLower s = "buy"
  · have hev3 : (Except.ok (renderResult
        (processOrder b.active_orders b.filled_orders
          ⟨i, strLower s, p, q, b.order_counter⟩
          b.heap_buy_orders b.heap_sell_orders buyCondition).matched
        (processOrder b.active_orders b.filled_orders
          ⟨i, strLower s, p, q, b.order_counter⟩
          b.heap_buy_orders b.heap_sell_orders buyCondition).order.quantity),
        ({
          active_orders := (processOrder b.active_orders b.filled_orders
            ⟨i, strLower s, p, q, b.order_counter⟩
            b.heap_buy_orders b.heap_sell_orders buyCondition).active,
          filled_orders := (processOrder b.active_orders b.filled_orders
            ⟨i, strLower s, p, q, b.order_counter⟩
            b.heap_buy_orders b.heap_sell_orders buyCondition).filled,
          canceled_orders := b.canceled_orders,
          heap_buy_orders := (processOrder b.active_orders b.filled_orders
            ⟨i, strLower s, p, q, b.order_counter⟩
            b.heap_buy_orders b.heap_sell_orders buyCondition).current,
          heap_sell_orders := (processOrder b.active_orders b.filled_orders
            ⟨i, strLower s, p, q, b.order_counter⟩
            b.heap_buy_orders b.heap_sell_orders buyCondition).opp,
          order_counter := b.order_counter + 1 } : OrderBook),
        (processOrder b.active_orders b.filled_orders
          ⟨i, strLower s, p, q, b.order_counter⟩
          b.heap_buy_orders b.heap_sell_orders buyCondition).matched) =
        ((Except.ok res, b2, ms) :
          Except String String × OrderBook × List MatchItem) := by
      rw [← hev]
      show _ = (if strLower s = "buy" then _ else _)
      rw [if_pos h5]
    have hb2 : ({
          active_orders := (processOrder b.active_orders b.filled_orders
            ⟨i, strLower s, p, q, b.order_counter⟩
            b.heap_buy_orders b.heap_sell_orders buyCondition).active,
          filled_orders := (processOrder b.active_orders b.filled_orders
            ⟨i, strLower s, p, q, b.order_counter⟩
            b.heap_buy_orders b.heap_sell_orders buyCondition).filled,
          canceled_orders := b.canceled_orders,
          heap_buy_orders := (processOrder b.active_orders b.filled_orders
            ⟨i, strLower s, p, q, b.order_counter⟩
            b.heap_buy_orders b.heap_sell_orders buyCondition).current,
          heap_sell_orders := (processOrder b.active_orders b.filled_orders
            ⟨i, strLower s, p, q, b.order_counter⟩
            b.heap_buy_orders b.heap_sell_orders buyCondition).opp,
          order_counter := b.order_counter + 1 } : OrderBook) = b2 :=
      congrArg (fun t => t.2.1) hev3
    have hms : (processOrder b.active_orders b.filled_orders
        ⟨i, strLower s, p, q, b.order_counter⟩
        b.heap_buy_orders b.heap_sell_orders buyCondition).matched = ms :=
      congrArg (fun t => t.2.2) hev3
    subst hb2
    subst hms
    have hLoop : LoopInv "sell"
        ⟨b.active_orders, b.filled_orders,
          ⟨i, strLower s, p, q, b.order_counter⟩,
          b.heap_sell_orders, []⟩ :=
      ⟨hInv.sell_side, hInv.sell_heap, hInv.sell_alias,
        hInv.sell_nodup, hInv.act_key, hInv.fil_key, hInv.act_pos,
        hInv.disjAF, le_of_lt hq0, hact_none, hfil_none⟩
    obtain ⟨k1, k2, k3, k4, k5, k6⟩ := account_to_book "sell"
      b.active_orders b.filled_orders ⟨i, strLower s, p, q, b.order_counter⟩
      b.heap_buy_orders b.heap_sell_orders buyCondition hLoop hInv.disjAF
    exact ⟨hact_none, hfil_none, hcan_none, hq0, rfl, rfl, k1, k2, k3,
      k4, k5, k6⟩
  · have hev3 : (Except.ok (renderResult
        (processOrder b.active_orders b.filled_orders
          ⟨i, strLower s, p, q, b.order_counter⟩
          b.heap_sell_orders b.heap_buy_orders sellCondition).matched
        (processOrder b.active_orders b.filled_orders
          ⟨i, strLower s, p, q, b.order_counter⟩
          b.heap_sell_orders b.heap_buy_orders sellCondition).order.quantity),
        ({
          active_orders := (processOrder b.active_orders b.filled_orders
            ⟨i, strLower s, p, q, b.order_counter⟩
            b.heap_sell_orders b.heap_buy_orders sellCondition).active,
          filled_orders := (processOrder b.active_orders b.filled_orders
            ⟨i, strLower s, p, q, b.order_counter⟩
            b.heap_sell_orders b.heap_buy_orders sellCondition).filled,
          canceled_orders := b.canceled_orders,
          heap_buy_orders := (processOrder b.active_orders b.filled_orders
            ⟨i, strLower s, p, q, b.order_counter⟩
            b.heap_sell_orders b.heap_buy_orders sellCondition).opp,
          heap_sell_orders := (processOrder b.active_orders b.filled_orders
            ⟨i, strLower s, p, q, b.order_counter⟩
            b.heap_sell_orders b.heap_buy_orders sellCondition).current,
          order_counter := b.order_counter + 1 } : OrderBook),
        (processOrder b.active_orders b.filled_orders
          ⟨i, strLower s, p, q, b.order_counter⟩
          b.heap_sell_orders b.heap_buy_orders sellCondition).matched) =
        ((Except.ok res, b2, ms) :
          Except String String × OrderBook × List MatchItem) := by
      rw [← hev]
      show _ = (if strLower s = "buy" then _ else _)
      rw [if_neg h5]
    have hb2 : ({
          active_orders := (processOrder b.active_orders b.filled_orders
            ⟨i, strLower s, p, q, b.order_counter⟩
            b.heap_sell_orders b.heap_buy_orders sellCondition).active,
          filled_orders := (processOrder b.active_orders b.filled_orders
            ⟨i, strLower s, p, q, b.order_counter⟩
            b.heap_sell_orders b.heap_buy_orders sellCondition).filled,
          canceled_orders := b.canceled_orders,
          heap_buy_orders := (processOrder b.active_orders b.filled_orders
            ⟨i, strLower s, p, q, b.order_counter⟩
            b.heap_sell_orders b.heap_buy_orders sellCondition).opp,
          heap_sell_orders := (processOrder b.active_orders b.filled_orders
            ⟨i, strLower s, p, q, b.order_counter⟩
            b.heap_sell_orders b.heap_buy_orders sellCondition).current,
          order_counter := b.order_counter + 1 } : OrderBook) = b2 :=
      congrArg (fun t => t.2.1) hev3
    have hms : (processOrder b.active_orders b.filled_orders
        ⟨i, strLower s, p, q, b.order_counter⟩
        b.heap_sell_orders b.heap_buy_orders sellCondition).matched = ms :=
      congrArg (fun t => t.2.2) hev3
    subst hb2
    subst hms
    have hLoop : LoopInv "buy"
        ⟨b.active_orders, b.filled_orders,
          ⟨i, strLower s, p, q, b.order_counter⟩,
          b.heap_buy_orders, []⟩ :=
      ⟨hInv.buy_side, hInv.buy_heap, hInv.buy_alias,
        hInv.buy_nodup, hInv.act_key, hInv.fil_key, hInv.act_pos,
        hInv.disjAF, le_of_lt hq0, hact_none, hfil_none⟩
    obtain ⟨k1, k2, k3, k4, k5, k6⟩ := account_to_book "buy"
      b.active_orders b.filled_orders ⟨i, strLower s, p, q, b.order_counter⟩
      b.heap_sell_orders b.heap_buy_orders sellCondition hLoop hInv.disjAF
    exact ⟨hact_none, hfil_none, hcan_none, hq0, rfl, rfl, k1, k2, k3,
      k4, k5, k6⟩

/-- Which matching loop a successful `place_order` call ran: the
returned match list is the loop\'s. -/
theorem place_matched_eq (b : OrderBook) (i s : String) (p q : ℤ)
    (res : String)
    (hok : (b.place_order_ev i s p q).1 = Except.ok res) :
    (strLower s = "buy" →
      (b.place_order_ev i s p q).2.2 =
        (processLoop buyCondition ⟨b.active_orders, b.filled_orders,
          ⟨i, strLower s, p, q, b.order_counter⟩,
          b.heap_sell_orders, []⟩).matched) ∧
    (strLower s = "sell" →
      (b.place_order_ev i s p q).2.2 =
        (processLoop sellCondition ⟨b.active_orders, b.filled_orders,
          ⟨i, strLower s, p, q, b.order_counter⟩,
          b.heap_buy_orders, []⟩).matched) := by
  by_cases h1 : i = "" ∨ s = "" ∨ p = 0 ∨ q = 0
  · rw [OrderBook.place_order_ev, if_pos h1] at hok
    exact Except.noConfusion hok
  by_cases h2 : (b.active_orders i).isSome = true ∨
      (b.filled_orders i).isSome = true ∨
      (b.canceled_orders i).isSome = true
  · rw [OrderBook.place_order_ev, if_neg h1, if_pos h2] at hok
    exact Except.noConfusion hok
  by_cases hv0 : ¬(strLower s = "buy" ∨ strLower s = "sell")
  · rw [OrderBook.place_order_ev, if_neg h1, if_neg h2, Order.init,
      if_pos hv0] at hok
    exact Except.noConfusion hok
  rw [not_not] at hv0
  by_cases hpq : p ≤ 0 ∨ q ≤ 0
  · rw [OrderBook.place_order_ev, if_neg h1, if_neg h2, Order.init,
      if_neg (not_not_intro hv0), if_pos hpq] at hok
    exact Except.noConfusion hok
  have horder : Order.init i s p q b.order_counter =
      Except.ok ⟨i, strLower s, p, q, b.order_counter⟩ := by
    rw [Order.init, if_neg (not_not_intro hv0), if_neg hpq]
  by_cases h5 : strLower s = "buy"
  · have hms : (b.place_order_ev i s p q).2.2 =
        (processOrder b.active_orders b.filled_orders
          ⟨i, strLower s, p, q, b.order_counter⟩
          b.heap_buy_orders b.heap_sell_orders buyCondition).matched := by
      rw [OrderBook.place_order_ev, if_neg h1, if_neg h2, horder]
      show ((if strLower s = "buy" then _ else _ :
        Except String String × OrderBook × List MatchItem)).2.2 = _
      rw [if_pos h5]
    constructor
    · intro h
      rw [hms, processOrder_matched]
    · intro h
      rw [h5] at h
      exact absurd h (by decide)
  · have hside : strLower s = "sell" := hv0.resolve_left h5
    have hms : (b.place_order_ev i s p q).2.2 =
        (processOrder b.active_orders b.filled_orders
          ⟨i, strLower s, p, q, b.order_counter⟩
          b.heap_sell_orders b.heap_buy_orders sellCondition).matched := by
      rw [OrderBook.place_order_ev, if_neg h1, if_neg h2, horder]
      show ((if strLower s = "buy" then _ else _ :
        Except String String × OrderBook × List MatchItem)).2.2 = _
      rw [if_neg h5]
    constructor
    · intro h
      exact absurd h h5
    · intro h
      rw [hms, processOrder_matched]

/-- The string a successful `place_order` call returns, as a function
of the reported matches and the incoming quantity. -/
theorem place_res (b : OrderBook) (i s : String) (p q : ℤ) (res : String)
    (hok : (b.place_order_ev i s p q).1 = Except.ok res) :
    res = renderResult (b.place_order_ev i s p q).2.2
      (q - ((b.place_order_ev i s p q).2.2.map MatchItem.qty).sum) := by
  by_cases h1 : i = "" ∨ s = "" ∨ p = 0 ∨ q = 0
  · rw [OrderBook.place_order_ev, if_pos h1] at hok
    exact Except.noConfusion hok
  by_cases h2 : (b.active_orders i).isSome = true ∨
      (b.filled_orders i).isSome = true ∨
      (b.canceled_orders i).isSome = true
  · rw [OrderBook.place_order_ev, if_neg h1, if_pos h2] at hok
    exact Except.noConfusion hok
  by_cases hv0 : ¬(strLower s = "buy" ∨ strLower s = "sell")
  · rw [OrderBook.place_order_ev, if_neg h1, if_neg h2, Order.init,
      if_pos hv0] at hok
    exact Except.noConfusion hok
  rw [not_not] at hv0
  by_cases hpq : p ≤ 0 ∨ q ≤ 0
  · rw [OrderBook.place_order_ev, if_neg h1, if_neg h2, Order.init,
      if_neg (not_not_intro hv0), if_pos hpq] at hok
    exact Except.noConfusion hok
  have horder : Order.init i s p q b.order_counter =
      Except.ok ⟨i, strLower s, p, q, b.order_counter⟩ := by
    rw [Order.init, if_neg (not_not_intro hv0), if_neg hpq]
  by_cases h5 : strLower s = "buy"
  · have hres1 : (b.place_order_ev i s p q).1 = Except.ok (renderResult
        (processOrder b.active_orders b.filled_orders
          ⟨i, strLower s, p, q, b.order_counter⟩
          b.heap_buy_orders b.heap_sell_orders buyCondition).matched
        (processOrder b.active_orders b.filled_orders
          ⟨i, strLower s, p, q, b.order_counter⟩
          b.heap_buy_orders b.heap_sell_orders buyCondition).order.quantity) := by
      rw [OrderBook.place_order_ev, if_neg h1, if_neg h2, horder]
      show ((if strLower s = "buy" then _ else _ :
        Except String String × OrderBook × List MatchItem)).1 = _
      rw [if_pos h5]
    have hms : (b.place_order_ev i s p q).2.2 =
        (processOrder b.active_orders b.filled_orders
          ⟨i, strLower s, p, q, b.order_counter⟩
          b.heap_buy_orders b.heap_sell_orders buyCondition).matched := by
      rw [OrderBook.place_order_ev, if_neg h1, if_neg h2, horder]
      show ((if strLower s = "buy" then _ else _ :
        Except String String × OrderBook × List MatchItem)).2.2 = _
      rw [if_pos h5]
    have hreseq := Except.ok.inj (hres1.symm.trans hok)
    obtain ⟨deltaD, d1, d2, d3, d4, d5, d6⟩ := processLoop_delta buyCondition
      (loopMeasure ⟨b.active_orders, b.filled_orders,
        ⟨i, strLower s, p, q, b.order_counter⟩, b.heap_sell_orders, []⟩)
      ⟨b.active_orders, b.filled_orders,
        ⟨i, strLower s, p, q, b.order_counter⟩, b.heap_sell_orders, []⟩
      le_rfl
    have hmdD : (processLoop buyCondition ⟨b.active_orders, b.filled_orders,
        ⟨i, strLower s, p, q, b.order_counter⟩,
        b.heap_sell_orders, []⟩).matched = deltaD := by simpa using d1
    have hqty : (processOrder b.active_orders b.filled_orders
        ⟨i, strLower s, p, q, b.order_counter⟩
        b.heap_buy_orders b.heap_sell_orders buyCondition).order.quantity =
        q - ((processOrder b.active_orders b.filled_orders
          ⟨i, strLower s, p, q, b.order_counter⟩
          b.heap_buy_orders b.heap_sell_orders buyCondition).matched.map MatchItem.qty).sum := by
      rw [processOrder_order, processOrder_matched, hmdD]
      exact d6
    rw [hqty] at hreseq
    rw [hms, ← hreseq, processOrder_matched, hmdD]
  · have hside : strLower s = "sell" := hv0.resolve_left h5
    have hres1 : (b.place_order_ev i s p q).1 = Except.ok (renderResult
        (processOrder b.active_orders b.filled_orders
          ⟨i, strLower s, p, q, b.order_counter⟩
          b.heap_sell_orders b.heap_buy_orders sellCondition).matched
        (processOrder b.active_orders b.filled_orders
          ⟨i, strLower s, p, q, b.order_counter⟩
          b.heap_sell_orders b.heap_buy_orders sellCondition).order.quantity) := by
      rw [OrderBook.place_order_ev, if_neg h1, if_neg h2, horder]
      show ((if strLower s = "buy" then _ else _ :
        Except String String × OrderBook × List MatchItem)).1 = _
      rw [if_neg h5]
    have hms : (b.place_order_ev i s p q).2.2 =
        (processOrder b.active_orders b.filled_orders
          ⟨i, strLower s, p, q, b.order_counter⟩
          b.heap_sell_orders b.heap_buy_orders sellCondition).matched := by
      rw [OrderBook.place_order_ev, if_neg h1, if_neg h2, horder]
      show ((if strLower s = "buy" then _ else _ :
        Except String String × OrderBook × List MatchItem)).2.2 = _
      rw [if_neg h5]
    have hreseq := Except.ok.inj (hres1.symm.trans hok)
    obtain ⟨deltaD, d1, d2, d3, d4, d5, d6⟩ := processLoop_delta sellCondition
      (loopMeasure ⟨b.active_orders, b.filled_orders,
        ⟨i, strLower s, p, q, b.order_counter⟩, b.heap_buy_orders, []⟩)
      ⟨b.active_orders, b.filled_orders,
        ⟨i, strLower s, p, q, b.order_counter⟩, b.heap_buy_orders, []⟩
      le_rfl
    have hmdD : (processLoop sellCondition ⟨b.active_orders, b.filled_orders,
        ⟨i, strLower s, p, q, b.order_counter⟩,
        b.heap_buy_orders, []⟩).matched = deltaD := by simpa using d1
    have hqty : (processOrder b.active_orders b.filled_orders
        ⟨i, strLower s, p, q, b.order_counter⟩
        b.heap_sell_orders b.heap_buy_orders sellCondition).order.quantity =
        q - ((processOrder b.active_orders b.filled_orders
          ⟨i, strLower s, p, q, b.order_counter⟩
          b.heap_sell_orders b.heap_buy_orders sellCondition).matched.map MatchItem.qty).sum := by
      rw [processOrder_order, processOrder_matched, hmdD]
      exact d6
    rw [hqty] at hreseq
    rw [hms, ← hreseq, processOrder_matched, hmdD]


/-! ### Trace-level accounting -/

theorem stepLog_fst (b : OrderBook) (c : Cmd) :
    (b.stepLog c).1 = b.step c := by
  cases c <;> rfl

theorem runBook_append (cs : List Cmd) (c : Cmd) :
    runBook (cs ++ [c]) = (runBook cs).step c := by
  rw [runBook, runBook, List.foldl_append]
  rfl

theorem runLogAux_append (cs1 cs2 : List Cmd) :
    ∀ b, runLogAux b (cs1 ++ cs2) =
      runLogAux b cs1 ++ runLogAux (cs1.foldl OrderBook.step b) cs2 := by
  induction cs1 with
  | nil => intro b; rfl
  | cons c cs ih =>
    intro b
    show (b.stepLog c).2 :: runLogAux (b.stepLog c).1 (cs ++ cs2) =
      ((b.stepLog c).2 :: runLogAux (b.stepLog c).1 cs) ++
        runLogAux ((c :: cs).foldl OrderBook.step b) cs2
    rw [List.cons_append, ih]
    have h1 : (b.stepLog c).1 = b.step c := stepLog_fst b c
    rw [h1]
    rfl

theorem runLog_append (cs : List Cmd) (c : Cmd) :
    runLog (cs ++ [c]) = runLog cs ++ [((runBook cs).stepLog c).2] := by
  rw [runLog, runLog, runLogAux_append]
  rfl

theorem totalMatched_append (l : List LogEntry) (e : LogEntry) (x : String) :
    totalMatched (l ++ [e]) x = totalMatched l x + entryMatched x e := by
  rw [totalMatched, totalMatched, List.map_append, List.sum_append]
  simp

theorem placedQty_append_some (l1 l2 : List LogEntry) (x : String) (v : ℤ)
    (h : placedQty l1 x = some v) :
    placedQty (l1 ++ l2) x = some v := by
  induction l1 with
  | nil => exact Option.noConfusion h
  | cons e es ih =>
    obtain ⟨cmd, ok0, ms0⟩ := e
    cases cmd with
    | place i2 s2 p2 q2 =>
      have h2 : (if i2 = x ∧ ok0 = true then some q2 else placedQty es x) =
          some v := h
      by_cases hcond : i2 = x ∧ ok0 = true
      · rw [if_pos hcond] at h2
        show (if i2 = x ∧ ok0 = true then some q2
          else placedQty (es ++ l2) x) = some v
        rw [if_pos hcond]
        exact h2
      · rw [if_neg hcond] at h2
        show (if i2 = x ∧ ok0 = true then some q2
          else placedQty (es ++ l2) x) = some v
        rw [if_neg hcond]
        exact ih h2
    | cancel i2 => exact ih h

theorem placedQty_append_none (l1 l2 : List LogEntry) (x : String)
    (h : placedQty l1 x = none) :
    placedQty (l1 ++ l2) x = placedQty l2 x := by
  induction l1 with
  | nil => rfl
  | cons e es ih =>
    obtain ⟨cmd, ok0, ms0⟩ := e
    cases cmd with
    | place i2 s2 p2 q2 =>
      have h2 : (if i2 = x ∧ ok0 = true then some q2 else placedQty es x) =
          none := h
      by_cases hcond : i2 = x ∧ ok0 = true
      · rw [if_pos hcond] at h2
        exact Option.noConfusion h2
      · rw [if_neg hcond] at h2
        show (if i2 = x ∧ ok0 = true then some q2
          else placedQty (es ++ l2) x) = placedQty l2 x
        rw [if_neg hcond]
        exact ih h2
    | cancel i2 => exact ih h

/-- The quantity bookkeeping a run maintains between its book state and
its log: ids never successfully placed are absent everywhere and have
no recorded matches; a placed id has a registry record whose remaining
quantity is its placed quantity minus everything the log recorded as
matched against it. -/
structure Acc (b : OrderBook) (log : List LogEntry) : Prop where
  tm_nonneg : ∀ x, 0 ≤ totalMatched log x
  not_placed : ∀ x, placedQty log x = none →
    b.active_orders x = none ∧ b.filled_orders x = none ∧
    b.canceled_orders x = none ∧ totalMatched log x = 0
  placed : ∀ x q0, placedQty log x = some q0 → ∃ o,
    (b.active_orders x = some o ∨ b.filled_orders x = some o ∨
      b.canceled_orders x = some o) ∧
    o.quantity = q0 - totalMatched log x ∧ 0 ≤ o.quantity

theorem acc_init : Acc OrderBook.init [] where
  tm_nonneg := fun _ => le_rfl
  not_placed := fun _ _ => ⟨rfl, rfl, rfl, rfl⟩
  placed := fun _ _ h => Option.noConfusion h


/-- Appending a log entry with no matches and no successful placement
preserves the accounting, as long as the book keeps every record (with
its quantity) and introduces none. -/
theorem acc_entry_trivial (b b2 : OrderBook) (log : List LogEntry)
    (e : LogEntry) (hAcc : Acc b log)
    (hem : ∀ x, entryMatched x e = 0)
    (hpq : ∀ x, placedQty [e] x = none)
    (hkeep : ∀ x o, (b.active_orders x = some o ∨
      b.filled_orders x = some o ∨ b.canceled_orders x = some o) →
      (b2.active_orders x = some o ∨ b2.filled_orders x = some o ∨
        b2.canceled_orders x = some o))
    (hnone : ∀ x, b.active_orders x = none → b.filled_orders x = none →
      b.canceled_orders x = none →
      b2.active_orders x = none ∧ b2.filled_orders x = none ∧
      b2.canceled_orders x = none) :
    Acc b2 (log ++ [e]) := by
  refine ⟨?_, ?_, ?_⟩
  · intro x
    rw [totalMatched_append, hem x]
    have := hAcc.tm_nonneg x
    omega
  · intro x hx
    have hpl : placedQty log x = none := by
      cases hpl : placedQty log x with
      | none => rfl
      | some v =>
        rw [placedQty_append_some log [e] x v hpl] at hx
        exact Option.noConfusion hx
    obtain ⟨h1, h2, h3, h4⟩ := hAcc.not_placed x hpl
    obtain ⟨g1, g2, g3⟩ := hnone x h1 h2 h3
    refine ⟨g1, g2, g3, ?_⟩
    rw [totalMatched_append, hem x, h4]
    norm_num
  · intro x q0 hx
    cases hpl : placedQty log x with
    | some v =>
      have h1 := placedQty_append_some log [e] x v hpl
      rw [hx] at h1
      obtain ⟨o, hmem, hq, hnn⟩ := hAcc.placed x v hpl
      refine ⟨o, hkeep x o hmem, ?_, hnn⟩
      rw [totalMatched_append, hem x, hq, Option.some.inj h1]
      ring
    | none =>
      rw [placedQty_append_none log [e] x hpl, hpq x] at hx
      exact Option.noConfusion hx

/-- A successful `place_order` call preserves the accounting, with its
log entry recording the matches. -/
theorem acc_step_place_ok (b : OrderBook) (log : List LogEntry)
    (i s : String) (p q : ℤ) (res : String)
    (hInv : Inv b) (hAcc : Acc b log)
    (hok : (b.place_order_ev i s p q).1 = Except.ok res) :
    Acc (b.place_order_ev i s p q).2.1
      (log ++ [⟨Cmd.place i s p q, true,
        (b.place_order_ev i s p q).2.2⟩]) := by
  obtain ⟨A1, A2, A3, A4, A5, A6, A7, A8, A9, A10, A11, A12⟩ :=
    place_ok_spec b i s p q res (b.place_order_ev i s p q).2.1
      (b.place_order_ev i s p q).2.2 hInv (by rw [← hok])
  set b2 := (b.place_order_ev i s p q).2.1 with hb2def
  set ms := (b.place_order_ev i s p q).2.2 with hmsdef
  have hem : ∀ x, entryMatched x ⟨Cmd.place i s p q, true, ms⟩ =
      ((ms.filter (fun m => m.oid = x)).map MatchItem.qty).sum +
      (if i = x then (ms.map MatchItem.qty).sum else 0) := fun x => rfl
  have hfs_nonneg : ∀ x,
      0 ≤ ((ms.filter (fun m => m.oid = x)).map MatchItem.qty).sum := by
    intro x
    refine List.sum_nonneg ?_
    intro a ha
    obtain ⟨m, hm, hma⟩ := List.mem_map.mp ha
    rw [← hma]
    exact le_of_lt (A7 m (List.mem_of_mem_filter hm)).2.1
  have hmsum_nonneg : 0 ≤ (ms.map MatchItem.qty).sum := by
    refine List.sum_nonneg ?_
    intro a ha
    obtain ⟨m, hm, hma⟩ := List.mem_map.mp ha
    rw [← hma]
    exact le_of_lt (A7 m hm).2.1
  have hpq1 : ∀ x, x ≠ i →
      placedQty [⟨Cmd.place i s p q, true, ms⟩] x = none := by
    intro x hx
    show (if i = x ∧ true = true then some q else placedQty [] x) = none
    rw [if_neg (fun hc => hx hc.1.symm)]
    rfl
  have hpq2 : placedQty [⟨Cmd.place i s p q, true, ms⟩] i = some q := by
    show (if i = i ∧ true = true then some q else placedQty [] i) = some q
    rw [if_pos ⟨rfl, rfl⟩]
  refine ⟨?_, ?_, ?_⟩
  · intro x
    rw [totalMatched_append, hem x]
    have h0 := hAcc.tm_nonneg x
    have h1 := hfs_nonneg x
    by_cases hix : i = x
    · rw [if_pos hix]
      omega
    · rw [if_neg hix]
      omega
  · intro x hnone
    have hpl : placedQty log x = none := by
      cases hpl : placedQty log x with
      | none => rfl
      | some v =>
        rw [placedQty_append_some log _ x v hpl] at hnone
        exact Option.noConfusion hnone
    have hxi : x ≠ i := by
      intro he
      rw [placedQty_append_none log _ x hpl, he, hpq2] at hnone
      exact Option.noConfusion hnone
    obtain ⟨hna, hnf, hnc, hntm⟩ := hAcc.not_placed x hpl
    obtain ⟨hua, huf, hufs⟩ := (A10 x hxi).1 hna
    refine ⟨by rw [hua]; exact hna, by rw [huf]; exact hnf, ?_, ?_⟩
    · rw [A5]
      exact hnc
    · rw [totalMatched_append, hem x, if_neg (fun he => hxi he.symm), hufs,
        hntm]
      norm_num
  · intro x q0 hsome
    cases hpl : placedQty log x with
    | some v =>
      have h1 := placedQty_append_some log
        [⟨Cmd.place i s p q, true, ms⟩] x v hpl
      rw [hsome] at h1
      have hq0v : q0 = v := Option.some.inj h1
      subst hq0v
      obtain ⟨o, hmem, hqty, hqnn⟩ := hAcc.placed x q0 hpl
      have hxi : x ≠ i := by
        intro he
        rw [he] at hmem
        rcases hmem with h | h | h
        · rw [A1] at h; exact Option.noConfusion h
        · rw [A2] at h; exact Option.noConfusion h
        · rw [A3] at h; exact Option.noConfusion h
      have hnotix : ¬(i = x) := fun he => hxi he.symm
      rcases hmem with hact | hfil | hcan
      · rcases (A10 x hxi).2 o hact with ⟨ha2, hpos2, hf2⟩ | ⟨ha2, hf2, hfseq⟩
        · refine ⟨{ o with quantity := o.quantity -
              ((ms.filter (fun m => m.oid = x)).map MatchItem.qty).sum },
            Or.inl ha2, ?_, ?_⟩
          · show o.quantity -
              ((ms.filter (fun m => m.oid = x)).map MatchItem.qty).sum =
              q0 - totalMatched
                (log ++ [⟨Cmd.place i s p q, true, ms⟩]) x
            rw [totalMatched_append, hem x, if_neg hnotix]
            omega
          · show (0:ℤ) ≤ o.quantity -
              ((ms.filter (fun m => m.oid = x)).map MatchItem.qty).sum
            omega
        · refine ⟨{ o with quantity := 0 }, Or.inr (Or.inl hf2), ?_, le_rfl⟩
          show (0:ℤ) = q0 - totalMatched
            (log ++ [⟨Cmd.place i s p q, true, ms⟩]) x
          rw [totalMatched_append, hem x, if_neg hnotix]
          omega
      · have hactx : b.active_orders x = none := by
          cases hax : b.active_orders x with
          | none => rfl
          | some o2 => exact absurd (hInv.disjAF x (by rw [hax]; rfl)
              (by rw [hfil]; rfl)) (fun h => h)
        obtain ⟨hua, huf, hufs⟩ := (A10 x hxi).1 hactx
        refine ⟨o, Or.inr (Or.inl (A9 x o hfil)), ?_, hqnn⟩
        rw [totalMatched_append, hem x, if_neg hnotix, hufs]
        omega
      · have hactx : b.active_orders x = none := by
          cases hax : b.active_orders x with
          | none => rfl
          | some o2 => exact absurd (hInv.disjAC x (by rw [hax]; rfl)
              (by rw [hcan]; rfl)) (fun h => h)
        obtain ⟨hua, huf, hufs⟩ := (A10 x hxi).1 hactx
        refine ⟨o, Or.inr (Or.inr (by rw [A5]; exact hcan)), ?_, hqnn⟩
        rw [totalMatched_append, hem x, if_neg hnotix, hufs]
        omega
    | none =>
      have h1 := placedQty_append_none log
        [⟨Cmd.place i s p q, true, ms⟩] x hpl
      rw [hsome] at h1
      by_cases hix : i = x
      · subst hix
        rw [hpq2] at h1
        have hq0q : q0 = q := Option.some.inj h1
        subst hq0q
        obtain ⟨hna, hnf, hnc, hntm⟩ := hAcc.not_placed i hpl
        obtain ⟨o, hreg, hoid, hoside, hoprice, hoqty⟩ := A12
        rcases hreg with ⟨hao, hopos⟩ | ⟨hao, hfo, hoz⟩
        · refine ⟨o, Or.inl hao, ?_, le_of_lt hopos⟩
          rw [totalMatched_append, hem i, if_pos rfl, A11, hntm]
          omega
        · refine ⟨o, Or.inr (Or.inl hfo), ?_, by omega⟩
          rw [totalMatched_append, hem i, if_pos rfl, A11, hntm]
          omega
      · rw [hpq1 x (fun he => hix he.symm)] at h1
        exact Option.noConfusion h1


/-- Every request preserves the trace accounting. -/
theorem acc_step (b : OrderBook) (log : List LogEntry) (c : Cmd)
    (hInv : Inv b) (hAcc : Acc b log) :
    Acc (b.stepLog c).1 (log ++ [(b.stepLog c).2]) := by
  cases c with
  | place i s p q =>
    cases hok : (b.place_order_ev i s p q).1 with
    | error e =>
      obtain ⟨hb, hms⟩ := place_error_unchanged b i s p q e hok
      have hfst : (b.stepLog (Cmd.place i s p q)).1 = b := hb
      have hsnd : (b.stepLog (Cmd.place i s p q)).2 =
          ⟨Cmd.place i s p q, false, []⟩ := by
        show (⟨Cmd.place i s p q,
          (match (b.place_order_ev i s p q).1 with
            | .ok _ => true | .error _ => false),
          (b.place_order_ev i s p q).2.2⟩ : LogEntry) = _
        rw [hok, hms]
      rw [hfst, hsnd]
      refine acc_entry_trivial b b log _ hAcc ?_ ?_
        (fun x o h => h) (fun x h1 h2 h3 => ⟨h1, h2, h3⟩)
      · intro x
        show ((([] : List MatchItem).filter (fun m => m.oid = x)).map
          MatchItem.qty).sum +
          (if i = x then (([] : List MatchItem).map MatchItem.qty).sum
            else 0) = 0
        simp
      · intro x
        show (if i = x ∧ false = true then some q else placedQty [] x) =
          none
        rw [if_neg (by simp)]
        rfl
    | ok res =>
      have hfst : (b.stepLog (Cmd.place i s p q)).1 =
          (b.place_order_ev i s p q).2.1 := rfl
      have hsnd : (b.stepLog (Cmd.place i s p q)).2 =
          ⟨Cmd.place i s p q, true, (b.place_order_ev i s p q).2.2⟩ := by
        show (⟨Cmd.place i s p q,
          (match (b.place_order_ev i s p q).1 with
            | .ok _ => true | .error _ => false),
          (b.place_order_ev i s p q).2.2⟩ : LogEntry) = _
        rw [hok]
      rw [hfst, hsnd]
      exact acc_step_place_ok b log i s p q res hInv hAcc hok
  | cancel i =>
    have hfst : (b.stepLog (Cmd.cancel i)).1 = (b.cancel_order i).2 := rfl
    have hsnd : (b.stepLog (Cmd.cancel i)).2 =
        ⟨Cmd.cancel i, false, []⟩ := rfl
    rw [hfst, hsnd]
    have hem0 : ∀ x, entryMatched x ⟨Cmd.cancel i, false, []⟩ = 0 :=
      fun _ => rfl
    have hpq0 : ∀ x, placedQty [⟨Cmd.cancel i, false, []⟩] x = none :=
      fun _ => rfl
    by_cases hf : (b.filled_orders i).isSome = true
    · have hbeq : (b.cancel_order i).2 = b := by
        rw [OrderBook.cancel_order, if_pos hf]
      rw [hbeq]
      exact acc_entry_trivial b b log _ hAcc hem0 hpq0
        (fun x o h => h) (fun x h1 h2 h3 => ⟨h1, h2, h3⟩)
    · cases hact : b.active_orders i with
      | none =>
        have hbeq : (b.cancel_order i).2 = b := by
          rw [OrderBook.cancel_order, if_neg hf, hact]
        rw [hbeq]
        exact acc_entry_trivial b b log _ hAcc hem0 hpq0
          (fun x o h => h) (fun x h1 h2 h3 => ⟨h1, h2, h3⟩)
      | some o =>
        have hbeq : (b.cancel_order i).2 = { b with
            canceled_orders := mapSet b.canceled_orders i o,
            active_orders := mapDel b.active_orders i } := by
          rw [OrderBook.cancel_order, if_neg hf, hact]
        rw [hbeq]
        refine acc_entry_trivial b _ log _ hAcc hem0 hpq0 ?_ ?_
        · intro x o2 hmem
          rcases hmem with h | h | h
          · by_cases hxi : x = i
            · right; right
              show mapSet b.canceled_orders i o x = some o2
              rw [hxi, hact] at h
              have ho2 : o2 = o := (Option.some.inj h).symm
              rw [ho2, hxi]
              simp [mapSet]
            · left
              show mapDel b.active_orders i x = some o2
              simp only [mapDel, if_neg hxi]
              exact h
          · right; left
            exact h
          · right; right
            show mapSet b.canceled_orders i o x = some o2
            by_cases hxi : x = i
            · exfalso
              rw [hxi] at h
              exact hInv.disjAC i (by rw [hact]; rfl) (by rw [h]; rfl)
            · simp only [mapSet, if_neg hxi]
              exact h
        · intro x h1 h2 h3
          by_cases hxi : x = i
          · exfalso
            rw [hxi, hact] at h1
            exact Option.noConfusion h1
          · refine ⟨?_, h2, ?_⟩
            · show mapDel b.active_orders i x = none
              simp only [mapDel, if_neg hxi]
              exact h1
            · show mapSet b.canceled_orders i o x = none
              simp only [mapSet, if_neg hxi]
              exact h3

/-- The accounting holds in every reachable state. -/
theorem acc_run (cs : List Cmd) : Acc (runBook cs) (runLog cs) := by
  induction cs using List.reverseRecOn with
  | nil => exact acc_init
  | append_singleton cs c ih =>
    rw [runBook_append, runLog_append]
    have h := acc_step (runBook cs) (runLog cs) c (inv_runBook cs) ih
    rw [stepLog_fst] at h
    exact h


/-! ### Claim theorems -/

/-- C1: price-time priority of matching.  For every invariant-satisfying
book, among two resting same-side orders both named honestly in the
registry, if the lower-priority one (worse price, or equal price and
later sequence number) is matched by a `place_order` call, then the
higher-priority one is matched too, and strictly earlier in the match
list; in particular the FIFO scenario B1/B2/S1 returns
"Fully matched with B1 (5 @ 100) and B2 (3 @ 100)". -/
theorem C1_price_time_priority :
    (∀ (b : OrderBook), Inv b → ∀ (i s : String) (p q : ℤ)
      (r1 r2 : Order),
      strLower s = "buy" →
      r1 ∈ b.heap_sell_orders → r2 ∈ b.heap_sell_orders →
      b.active_orders r1.order_id = some r1 →
      b.active_orders r2.order_id = some r2 →
      (r1.price < r2.price ∨
        (r1.price = r2.price ∧ r1.order_number < r2.order_number)) →
      r2.order_id ∈ (b.place_order_ev i s p q).2.2.map MatchItem.oid →
      r1.order_id ∈ (b.place_order_ev i s p q).2.2.map MatchItem.oid ∧
      firstIdx r1.order_id
          ((b.place_order_ev i s p q).2.2.map MatchItem.oid) <
        firstIdx r2.order_id
          ((b.place_order_ev i s p q).2.2.map MatchItem.oid)) ∧
    (∀ (b : OrderBook), Inv b → ∀ (i s : String) (p q : ℤ)
      (r1 r2 : Order),
      strLower s = "sell" →
      r1 ∈ b.heap_buy_orders → r2 ∈ b.heap_buy_orders →
      b.active_orders r1.order_id = some r1 →
      b.active_orders r2.order_id = some r2 →
      (r2.price < r1.price ∨
        (r1.price = r2.price ∧ r1.order_number < r2.order_number)) →
      r2.order_id ∈ (b.place_order_ev i s p q).2.2.map MatchItem.oid →
      r1.order_id ∈ (b.place_order_ev i s p q).2.2.map MatchItem.oid ∧
      firstIdx r1.order_id
          ((b.place_order_ev i s p q).2.2.map MatchItem.oid) <
        firstIdx r2.order_id
          ((b.place_order_ev i s p q).2.2.map MatchItem.oid)) ∧
    ((runBook [Cmd.place "B1" "Buy" 100 5,
        Cmd.place "B2" "Buy" 100 5]).place_order "S1" "Sell" 100 8).1 =
      Except.ok "Fully matched with B1 (5 @ 100) and B2 (3 @ 100)" := by
  refine ⟨?_, ?_, ?_⟩
  · intro b hInv i s p q r1 r2 hsbuy hr1 hr2 ha1 ha2 hprio hin
    cases hev1 : (b.place_order_ev i s p q).1 with
    | error e =>
      obtain ⟨_, hms0⟩ := place_error_unchanged b i s p q e hev1
      rw [hms0] at hin
      simp at hin
    | ok res =>
      obtain ⟨A1, A2, A3, A4, _⟩ := place_ok_spec b i s p q res
        (b.place_order_ev i s p q).2.1 (b.place_order_ev i s p q).2.2
        hInv (by rw [← hev1])
      have hms := (place_matched_eq b i s p q res hev1).1 hsbuy
      have hLoop : LoopInv "sell" ⟨b.active_orders, b.filled_orders,
          ⟨i, strLower s, p, q, b.order_counter⟩,
          b.heap_sell_orders, []⟩ :=
        ⟨hInv.sell_side, hInv.sell_heap, hInv.sell_alias, hInv.sell_nodup,
          hInv.act_key, hInv.fil_key, hInv.act_pos, hInv.disjAF,
          le_of_lt A4, A1, A2⟩
      have hside1 : r1.side = "sell" := hInv.sell_side r1 hr1
      have hlt : Order.lt r1 r2 = true := by
        rw [Order.lt_eq_of_not_buy (by rw [hside1]; decide),
          decide_eq_true_iff]
        rcases hprio with h | ⟨hpe, hon⟩
        · exact Or.inl h
        · exact Or.inr ⟨hpe, by exact_mod_cast hon⟩
      have hp := processLoop_prio buyCondition "sell"
        (loopMeasure ⟨b.active_orders, b.filled_orders,
          ⟨i, strLower s, p, q, b.order_counter⟩,
          b.heap_sell_orders, []⟩)
        ⟨b.active_orders, b.filled_orders,
          ⟨i, strLower s, p, q, b.order_counter⟩,
          b.heap_sell_orders, []⟩
        le_rfl hLoop r1 r2 hr1 hr2 ha1 ha2 hlt (by simp) (by simp)
        (by rw [← hms]; exact hin)
      rw [hms]
      exact hp
  · intro b hInv i s p q r1 r2 hssell hr1 hr2 ha1 ha2 hprio hin
    cases hev1 : (b.place_order_ev i s p q).1 with
    | error e =>
      obtain ⟨_, hms0⟩ := place_error_unchanged b i s p q e hev1
      rw [hms0] at hin
      simp at hin
    | ok res =>
      obtain ⟨A1, A2, A3, A4, _⟩ := place_ok_spec b i s p q res
        (b.place_order_ev i s p q).2.1 (b.place_order_ev i s p q).2.2
        hInv (by rw [← hev1])
      have hms := (place_matched_eq b i s p q res hev1).2 hssell
      have hLoop : LoopInv "buy" ⟨b.active_orders, b.filled_orders,
          ⟨i, strLower s, p, q, b.order_counter⟩,
          b.heap_buy_orders, []⟩ :=
        ⟨hInv.buy_side, hInv.buy_heap, hInv.buy_alias, hInv.buy_nodup,
          hInv.act_key, hInv.fil_key, hInv.act_pos, hInv.disjAF,
          le_of_lt A4, A1, A2⟩
      have hside1 : r1.side = "buy" := hInv.buy_side r1 hr1
      have hlt : Order.lt r1 r2 = true := by
        rw [Order.lt_eq_of_buy hside1, decide_eq_true_iff]
        rcases hprio with h | ⟨hpe, hon⟩
        · exact Or.inl h
        · refine Or.inr ⟨hpe, ?_⟩
          omega
      have hp := processLoop_prio sellCondition "buy"
        (loopMeasure ⟨b.active_orders, b.filled_orders,
          ⟨i, strLower s, p, q, b.order_counter⟩,
          b.heap_buy_orders, []⟩)
        ⟨b.active_orders, b.filled_orders,
          ⟨i, strLower s, p, q, b.order_counter⟩,
          b.heap_buy_orders, []⟩
        le_rfl hLoop r1 r2 hr1 hr2 ha1 ha2 hlt (by simp) (by simp)
        (by rw [← hms]; exact hin)
      rw [hms]
      exact hp
  · rfl

/-- C1 witness: in the concrete FIFO-at-equal-price book, B1 is matched
and strictly before B2. -/
theorem C1_price_time_priority_witness :
    "B1" ∈ ((runBook [Cmd.place "B1" "Buy" 100 5,
        Cmd.place "B2" "Buy" 100 5]).place_order_ev
        "S1" "Sell" 100 8).2.2.map MatchItem.oid ∧
    firstIdx "B1" (((runBook [Cmd.place "B1" "Buy" 100 5,
        Cmd.place "B2" "Buy" 100 5]).place_order_ev
        "S1" "Sell" 100 8).2.2.map MatchItem.oid) <
      firstIdx "B2" (((runBook [Cmd.place "B1" "Buy" 100 5,
        Cmd.place "B2" "Buy" 100 5]).place_order_ev
        "S1" "Sell" 100 8).2.2.map MatchItem.oid) := by
  have h := C1_price_time_priority.2.1
    (runBook [Cmd.place "B1" "Buy" 100 5, Cmd.place "B2" "Buy" 100 5])
    (inv_runBook [Cmd.place "B1" "Buy" 100 5, Cmd.place "B2" "Buy" 100 5])
    "S1" "Sell" 100 8 ⟨"B1", "buy", 100, 5, 1⟩ ⟨"B2", "buy", 100, 5, 2⟩
    (by decide) (by decide) (by decide) rfl rfl
    (Or.inr ⟨rfl, by decide⟩) (by decide)
  exact h

/-- C2: the result string of a successful placement is exactly "OK"
when no match occurred, else "Fully matched with <items>" when the
incoming quantity reached zero and "Partially matched with <items>"
otherwise, the items being the descriptors in match order joined by
" and ". -/
theorem C2_result_string (b : OrderBook) (i s : String) (p q : ℤ)
    (res : String)
    (hok : (b.place_order_ev i s p q).1 = Except.ok res) :
    ((b.place_order_ev i s p q).2.2 = [] → res = "OK") ∧
    ((b.place_order_ev i s p q).2.2 ≠ [] →
      res = (if q - ((b.place_order_ev i s p q).2.2.map
            MatchItem.qty).sum = 0 then "Fully" else "Partially") ++
        " matched with " ++ String.intercalate " and "
          ((b.place_order_ev i s p q).2.2.map MatchItem.render)) := by
  have hres := place_res b i s p q res hok
  constructor
  · intro hnil
    rw [hres, hnil, renderResult]
    rfl
  · intro hne
    rw [hres, renderResult, if_neg hne]
    by_cases h0 : q - ((b.place_order_ev i s p q).2.2.map
        MatchItem.qty).sum = 0
    · rw [if_neg (not_not_intro h0), if_pos h0]
    · rw [if_pos h0, if_neg h0]

/-- C2 witness: a concrete partial match renders as
"Partially matched with B1 (5 @ 100)". -/
theorem C2_result_string_witness :
    ((runBook [Cmd.place "B1" "Buy" 100 5]).place_order_ev
      "S1" "Sell" 100 8).2.2 ≠ [] ∧
    "Partially matched with B1 (5 @ 100)" =
      (if (8:ℤ) - (((runBook [Cmd.place "B1" "Buy" 100 5]).place_order_ev
            "S1" "Sell" 100 8).2.2.map MatchItem.qty).sum = 0
        then "Fully" else "Partially") ++ " matched with " ++
        String.intercalate " and "
          (((runBook [Cmd.place "B1" "Buy" 100 5]).place_order_ev
            "S1" "Sell" 100 8).2.2.map MatchItem.render) := by
  refine ⟨by decide, ?_⟩
  exact (C2_result_string (runBook [Cmd.place "B1" "Buy" 100 5])
    "S1" "Sell" 100 8 "Partially matched with B1 (5 @ 100)" rfl).2
    (by decide)

/-- C3: the three outcomes of `cancel_order`, as the code actually
behaves.  Canceling a filled id returns "Failed - already fully filled"
and mutates nothing; canceling an id with no active order returns the
source\'s literal "Failed â€“ no such active order" (a mojibake byte
sequence U+00E2 U+20AC U+201C where the spec and the test suite expect
an en dash U+2013: the final conjunct exhibits the mismatch) and
mutates nothing; canceling an active order returns "OK" and moves its
record from active to canceled. -/
theorem C3_cancel_semantics :
    (∀ (b : OrderBook) (x : String), (b.filled_orders x).isSome = true →
      (b.cancel_order x).1 = "Failed - already fully filled" ∧
      (b.cancel_order x).2 = b) ∧
    (∀ (b : OrderBook) (x : String), (b.filled_orders x).isSome = false →
      b.active_orders x = none →
      (b.cancel_order x).1 = "Failed â€“ no such active order" ∧
      (b.cancel_order x).2 = b) ∧
    (∀ (b : OrderBook) (x : String) (o : Order),
      (b.filled_orders x).isSome = false → b.active_orders x = some o →
      (b.cancel_order x).1 = "OK" ∧
      (b.cancel_order x).2.active_orders x = none ∧
      (b.cancel_order x).2.canceled_orders x = some o ∧
      (b.cancel_order x).2.filled_orders = b.filled_orders) ∧
    "Failed â€“ no such active order" ≠ "Failed – no such active order" := by
  refine ⟨?_, ?_, ?_, by decide⟩
  · intro b x h
    rw [OrderBook.cancel_order, if_pos h]
    exact ⟨rfl, rfl⟩
  · intro b x h1 h2
    rw [OrderBook.cancel_order, if_neg (by simp [h1]), h2]
    exact ⟨rfl, rfl⟩
  · intro b x o h1 h2
    rw [OrderBook.cancel_order, if_neg (by simp [h1]), h2]
    refine ⟨rfl, ?_, ?_, rfl⟩
    · show mapDel b.active_orders x x = none
      simp [mapDel]
    · show mapSet b.canceled_orders x o x = some o
      simp [mapSet]

/-- C3 witness: canceling an unknown id on a fresh book returns the
mojibake string, and canceling a just-placed order returns "OK". -/
theorem C3_cancel_semantics_witness :
    (OrderBook.init.cancel_order "NOPE").1 =
      "Failed â€“ no such active order" ∧
    ((runBook [Cmd.place "O1" "Buy" 50 10]).cancel_order "O1").1 =
      "OK" := by
  constructor
  · exact (C3_cancel_semantics.2.1 OrderBook.init "NOPE" rfl rfl).1
  · exact (C3_cancel_semantics.2.2.1 (runBook [Cmd.place "O1" "Buy" 50 10])
      "O1" ⟨"O1", "buy", 50, 10, 1⟩ rfl rfl).1


/-- C4: quantity conservation.  Over any request sequence, for any
successfully placed order, the total quantity the log records as
matched for it is non-negative and never exceeds its original
quantity, and its registry record\'s remaining quantity is exactly the
original minus the total matched. -/
theorem C4_quantity_conservation (cs : List Cmd) (x : String) (q0 : ℤ)
    (h : placedQty (runLog cs) x = some q0) :
    0 ≤ totalMatched (runLog cs) x ∧
    totalMatched (runLog cs) x ≤ q0 ∧
    ∃ o, (runBook cs).lookupAny x = some o ∧
      o.quantity = q0 - totalMatched (runLog cs) x := by
  have hAcc := acc_run cs
  have hInv := inv_runBook cs
  obtain ⟨o, hmem, hq, hnn⟩ := hAcc.placed x q0 h
  refine ⟨hAcc.tm_nonneg x, by omega, o, ?_, hq⟩
  rcases hmem with ha | hf | hc
  · rw [OrderBook.lookupAny, ha]
  · have hano : (runBook cs).active_orders x = none := by
      cases hax : (runBook cs).active_orders x with
      | none => rfl
      | some o2 => exact absurd (hInv.disjAF x (by rw [hax]; rfl)
          (by rw [hf]; rfl)) (fun hh => hh)
    rw [OrderBook.lookupAny, hano, hf]
  · have hano : (runBook cs).active_orders x = none := by
      cases hax : (runBook cs).active_orders x with
      | none => rfl
      | some o2 => exact absurd (hInv.disjAC x (by rw [hax]; rfl)
          (by rw [hc]; rfl)) (fun hh => hh)
    have hfno : (runBook cs).filled_orders x = none := by
      cases hfx : (runBook cs).filled_orders x with
      | none => rfl
      | some o2 => exact absurd (hInv.disjFC x (by rw [hfx]; rfl)
          (by rw [hc]; rfl)) (fun hh => hh)
    rw [OrderBook.lookupAny, hano, hfno]
    exact hc

/-- C4 witness: in the trace B1 Buy 100 x5 then S1 Sell 100 x8, the
order B1 has 5 matched against it, within its original 5, and its
record holds the remainder. -/
theorem C4_quantity_conservation_witness :
    0 ≤ totalMatched
      (runLog [Cmd.place "B1" "Buy" 100 5,
        Cmd.place "S1" "Sell" 100 8]) "B1" ∧
    totalMatched (runLog [Cmd.place "B1" "Buy" 100 5,
      Cmd.place "S1" "Sell" 100 8]) "B1" ≤ 5 ∧
    ∃ o, (runBook [Cmd.place "B1" "Buy" 100 5,
        Cmd.place "S1" "Sell" 100 8]).lookupAny "B1" = some o ∧
      o.quantity = 5 - totalMatched
        (runLog [Cmd.place "B1" "Buy" 100 5,
          Cmd.place "S1" "Sell" 100 8]) "B1" :=
  C4_quantity_conservation
    [Cmd.place "B1" "Buy" 100 5, Cmd.place "S1" "Sell" 100 8] "B1" 5 rfl

/-- C5: registry lifecycle.  In every reachable state the three
lifecycle maps are pairwise key-disjoint; a terminal (filled or
canceled) id is never accepted for a new placement; and no single
request re-activates a terminal id or removes its terminal record. -/
theorem C5_registry_lifecycle :
    (∀ (cs : List Cmd) (x : String),
      (((runBook cs).active_orders x).isSome = true →
        ((runBook cs).filled_orders x).isSome = true → False) ∧
      (((runBook cs).active_orders x).isSome = true →
        ((runBook cs).canceled_orders x).isSome = true → False) ∧
      (((runBook cs).filled_orders x).isSome = true →
        ((runBook cs).canceled_orders x).isSome = true → False)) ∧
    (∀ (b : OrderBook) (x s2 : String) (p2 q2 : ℤ) (res : String),
      ((b.filled_orders x).isSome = true ∨
        (b.canceled_orders x).isSome = true) →
      (b.place_order x s2 p2 q2).1 ≠ Except.ok res) ∧
    (∀ (b : OrderBook) (c : Cmd) (x : String), Inv b →
      ((b.filled_orders x).isSome = true ∨
        (b.canceled_orders x).isSome = true) →
      (b.step c).active_orders x = none ∧
      (∀ o, b.filled_orders x = some o →
        (b.step c).filled_orders x = some o) ∧
      (∀ o, b.canceled_orders x = some o →
        (b.step c).canceled_orders x = some o)) := by
  refine ⟨?_, ?_, ?_⟩
  · intro cs x
    exact ⟨(inv_runBook cs).disjAF x, (inv_runBook cs).disjAC x,
      (inv_runBook cs).disjFC x⟩
  · intro b x s2 p2 q2 res hterm hok
    have hok2 : (b.place_order_ev x s2 p2 q2).1 = Except.ok res := hok
    by_cases h1 : x = "" ∨ s2 = "" ∨ p2 = 0 ∨ q2 = 0
    · rw [OrderBook.place_order_ev, if_pos h1] at hok2
      exact Except.noConfusion hok2
    · have hdup : (b.active_orders x).isSome = true ∨
          (b.filled_orders x).isSome = true ∨
          (b.canceled_orders x).isSome = true := by
        rcases hterm with h | h
        · exact Or.inr (Or.inl h)
        · exact Or.inr (Or.inr h)
      rw [OrderBook.place_order_ev, if_neg h1, if_pos hdup] at hok2
      exact Except.noConfusion hok2
  · intro b c x hInv hterm
    have hax : b.active_orders x = none := by
      cases hax2 : b.active_orders x with
      | none => rfl
      | some o =>
        rcases hterm with h | h
        · exact absurd (hInv.disjAF x (by rw [hax2]; rfl) h) (fun hh => hh)
        · exact absurd (hInv.disjAC x (by rw [hax2]; rfl) h) (fun hh => hh)
    cases c with
    | place i2 s2 p2 q2 =>
      cases hok : (b.place_order_ev i2 s2 p2 q2).1 with
      | error e =>
        obtain ⟨hb, _⟩ := place_error_unchanged b i2 s2 p2 q2 e hok
        have hstep : (b.step (Cmd.place i2 s2 p2 q2)) = b := hb
        rw [hstep]
        exact ⟨hax, fun o ho => ho, fun o ho => ho⟩
      | ok res =>
        obtain ⟨A1, A2, A3, A4, A5, A6, A7, A8, A9, A10, A11, A12⟩ :=
          place_ok_spec b i2 s2 p2 q2 res (b.place_order_ev i2 s2 p2 q2).2.1
            (b.place_order_ev i2 s2 p2 q2).2.2 hInv (by rw [← hok])
        have hxi : x ≠ i2 := by
          intro he
          rw [he] at hterm
          rcases hterm with h | h
          · rw [A2] at h; exact Bool.noConfusion h
          · rw [A3] at h; exact Bool.noConfusion h
        have hstep : (b.step (Cmd.place i2 s2 p2 q2)) =
            (b.place_order_ev i2 s2 p2 q2).2.1 := rfl
        rw [hstep]
        refine ⟨?_, fun o ho => A9 x o ho, fun o ho => by rw [A5]; exact ho⟩
        cases hax2 : (b.place_order_ev i2 s2 p2 q2).2.1.active_orders x with
        | none => rfl
        | some o =>
          rcases A8 x (by rw [hax2]; rfl) with h | h
          · rw [hax] at h; exact Bool.noConfusion h
          · exact absurd h hxi
    | cancel i2 =>
      have hstep : (b.step (Cmd.cancel i2)) = (b.cancel_order i2).2 := rfl
      rw [hstep]
      by_cases hfil : (b.filled_orders i2).isSome = true
      · have hbeq : (b.cancel_order i2).2 = b := by
          rw [OrderBook.cancel_order, if_pos hfil]
        rw [hbeq]
        exact ⟨hax, fun o ho => ho, fun o ho => ho⟩
      · cases hact2 : b.active_orders i2 with
        | none =>
          have hbeq : (b.cancel_order i2).2 = b := by
            rw [OrderBook.cancel_order, if_neg hfil, hact2]
          rw [hbeq]
          exact ⟨hax, fun o ho => ho, fun o ho => ho⟩
        | some o2 =>
          have hbeq : (b.cancel_order i2).2 = { b with
              canceled_orders := mapSet b.canceled_orders i2 o2,
              active_orders := mapDel b.active_orders i2 } := by
            rw [OrderBook.cancel_order, if_neg hfil, hact2]
          rw [hbeq]
          refine ⟨?_, fun o ho => ho, ?_⟩
          · show mapDel b.active_orders i2 x = none
            by_cases hxi : x = i2
            · simp [mapDel, hxi]
            · simp only [mapDel, if_neg hxi]
              exact hax
          · intro o ho
            show mapSet b.canceled_orders i2 o2 x = some o
            by_cases hxi : x = i2
            · exfalso
              rw [hxi] at ho
              exact hInv.disjAC i2 (by rw [hact2]; rfl) (by rw [ho]; rfl)
            · simp only [mapSet, if_neg hxi]
              exact ho

/-- C5 witness: after B1 is fully filled, re-placing B1 is rejected and
canceling it does not re-activate it. -/
theorem C5_registry_lifecycle_witness :
    ((runBook [Cmd.place "B1" "Buy" 100 5,
        Cmd.place "S1" "Sell" 90 5]).place_order "B1" "Buy" 100 5).1 ≠
      Except.ok "OK" ∧
    ((runBook [Cmd.place "B1" "Buy" 100 5,
        Cmd.place "S1" "Sell" 90 5]).step
        (Cmd.cancel "B1")).active_orders "B1" = none := by
  constructor
  · exact C5_registry_lifecycle.2.1
      (runBook [Cmd.place "B1" "Buy" 100 5, Cmd.place "S1" "Sell" 90 5])
      "B1" "Buy" 100 5 "OK" (Or.inl (by decide))
  · exact (C5_registry_lifecycle.2.2
      (runBook [Cmd.place "B1" "Buy" 100 5, Cmd.place "S1" "Sell" 90 5])
      (Cmd.cancel "B1") "B1"
      (inv_runBook [Cmd.place "B1" "Buy" 100 5, Cmd.place "S1" "Sell" 90 5])
      (Or.inl (by decide))).1


/-- C6: the crossing test and the early stop.  An incoming buy crosses
iff its price is at least the resting ask\'s; an incoming sell crosses
iff its price is at most the resting bid\'s; when the live best
opposite entry fails the test the loop returns immediately with the
state untouched; when it passes, that entry is the first one matched;
and heap ordering justifies the stop: once the best entry fails the
test, every entry of that heap fails it. -/
theorem C6_crossing_and_stop :
    (∀ bp sp : ℤ, (buyCondition bp sp = true ↔ sp ≤ bp) ∧
      (sellCondition sp bp = true ↔ sp ≤ bp)) ∧
    (∀ (cond : ℤ → ℤ → Bool) (st : LoopSt) (top : Order)
      (rest : List Order),
      st.opp = top :: rest → st.order.quantity ≠ 0 →
      (st.active top.order_id).isNone = false →
      cond st.order.price top.price = false →
      processLoop cond st = st) ∧
    (∀ (cond : ℤ → ℤ → Bool) (st : LoopSt) (top : Order)
      (rest : List Order),
      st.opp = top :: rest → st.order.quantity ≠ 0 →
      (st.active top.order_id).isNone = false →
      cond st.order.price top.price = true → st.matched = [] →
      ∃ tl, (processLoop cond st).matched =
        (⟨top.order_id, min st.order.quantity top.quantity,
          top.price⟩ : MatchItem) :: tl) ∧
    (∀ (l : List Order) (top : Order) (rest : List Order) (pr : ℤ),
      heapProp Order.lt l → (∀ o ∈ l, o.side = "sell") →
      l = top :: rest → buyCondition pr top.price = false →
      ∀ o ∈ l, buyCondition pr o.price = false) ∧
    (∀ (l : List Order) (top : Order) (rest : List Order) (pr : ℤ),
      heapProp Order.lt l → (∀ o ∈ l, o.side = "buy") →
      l = top :: rest → sellCondition pr top.price = false →
      ∀ o ∈ l, sellCondition pr o.price = false) := by
  refine ⟨?_, ?_, ?_, ?_, ?_⟩
  · intro bp sp
    constructor
    · rw [buyCondition, decide_eq_true_iff]
    · rw [sellCondition, decide_eq_true_iff]
  · intro cond st top rest h hq hst hc
    exact processLoop_break cond h hq hst hc
  · intro cond st top rest h hq hst hc hm
    rw [processLoop_match cond h hq hst hc]
    obtain ⟨delta, d1, _⟩ := processLoop_delta cond
      (loopMeasure (matchNext st top)) (matchNext st top) le_rfl
    refine ⟨delta, ?_⟩
    rw [d1, matchNext_matched, hm]
    simp
  · intro l top rest pr hheap hside hl hc o ho
    have hlt := root_min_mem (swoOn_side "sell") hheap hside ho
    have htop : nthD l 0 = top := by rw [hl]; rfl
    rw [htop, Order.lt_eq_of_not_buy (by rw [hside o ho]; decide),
      decide_eq_false_iff_not] at hlt
    rw [buyCondition, decide_eq_false_iff_not] at hc
    rw [buyCondition, decide_eq_false_iff_not]
    push_neg at hlt
    have h1 := hlt.1
    omega
  · intro l top rest pr hheap hside hl hc o ho
    have hlt := root_min_mem (swoOn_side "buy") hheap hside ho
    have htop : nthD l 0 = top := by rw [hl]; rfl
    rw [htop, Order.lt_eq_of_buy (hside o ho),
      decide_eq_false_iff_not] at hlt
    rw [sellCondition, decide_eq_false_iff_not] at hc
    rw [sellCondition, decide_eq_false_iff_not]
    push_neg at hlt
    have h1 := hlt.1
    omega

/-- C6 witness: a live ask at 10 does not cross an incoming buy at 9,
so the loop stops with the state untouched, and no entry of that heap
crosses. -/
theorem C6_crossing_and_stop_witness :
    processLoop buyCondition
      ⟨mapSet (fun _ => none) "R1" ⟨"R1", "sell", 10, 5, 1⟩,
        fun _ => none, ⟨"B9", "buy", 9, 5, 2⟩,
        [⟨"R1", "sell", 10, 5, 1⟩], []⟩ =
      ⟨mapSet (fun _ => none) "R1" ⟨"R1", "sell", 10, 5, 1⟩,
        fun _ => none, ⟨"B9", "buy", 9, 5, 2⟩,
        [⟨"R1", "sell", 10, 5, 1⟩], []⟩ ∧
    buyCondition 9 (⟨"R1", "sell", 10, 5, 1⟩ : Order).price = false := by
  constructor
  · exact C6_crossing_and_stop.2.1 buyCondition
      ⟨mapSet (fun _ => none) "R1" ⟨"R1", "sell", 10, 5, 1⟩,
        fun _ => none, ⟨"B9", "buy", 9, 5, 2⟩,
        [⟨"R1", "sell", 10, 5, 1⟩], []⟩
      ⟨"R1", "sell", 10, 5, 1⟩ [] rfl (by decide) (by decide) (by decide)
  · exact C6_crossing_and_stop.2.2.2.1 [⟨"R1", "sell", 10, 5, 1⟩]
      ⟨"R1", "sell", 10, 5, 1⟩ [] 9
      (by intro j hj hlen; simp at hlen; omega)
      (by decide) rfl (by decide)
      ⟨"R1", "sell", 10, 5, 1⟩ (by decide)

/-- C7: tombstones are never matched.  A stale best entry is popped
without touching the registry, the incoming order, or the match list;
every match descriptor a placement reports names a then-active order;
and hence no descriptor ever names a canceled id. -/
theorem C7_tombstones :
    (∀ (cond : ℤ → ℤ → Bool) (st : LoopSt) (top : Order)
      (rest : List Order),
      st.opp = top :: rest → st.order.quantity ≠ 0 →
      (st.active top.order_id).isNone = true →
      processLoop cond st =
        processLoop cond { st with opp := popHeap st.opp }) ∧
    (∀ (b : OrderBook) (i s : String) (p q : ℤ), Inv b →
      ∀ m ∈ (b.place_order_ev i s p q).2.2,
        (b.active_orders m.oid).isSome = true) ∧
    (∀ (b : OrderBook) (i s : String) (p q : ℤ) (x : String), Inv b →
      (b.canceled_orders x).isSome = true →
      ∀ m ∈ (b.place_order_ev i s p q).2.2, m.oid ≠ x) := by
  have key : ∀ (b : OrderBook) (i s : String) (p q : ℤ), Inv b →
      ∀ m ∈ (b.place_order_ev i s p q).2.2,
        (b.active_orders m.oid).isSome = true := by
    intro b i s p q hInv m hm
    cases hev1 : (b.place_order_ev i s p q).1 with
    | error e =>
      obtain ⟨_, hms0⟩ := place_error_unchanged b i s p q e hev1
      rw [hms0] at hm
      exact absurd hm (List.not_mem_nil m)
    | ok res =>
      obtain ⟨A1, A2, A3, A4, A5, A6, A7, _⟩ := place_ok_spec b i s p q res
        (b.place_order_ev i s p q).2.1 (b.place_order_ev i s p q).2.2
        hInv (by rw [← hev1])
      exact (A7 m hm).1
  refine ⟨?_, key, ?_⟩
  · intro cond st top rest h hq hst
    exact processLoop_stale cond h hq hst
  · intro b i s p q x hInv hcan m hm he
    exact hInv.disjAC x (by rw [← he]; exact key b i s p q hInv m hm) hcan

/-- C7 witness: with only a canceled order\'s tombstone resting, the
loop discards it, and a concrete crossing placement that matches R1
reports no descriptor naming the canceled C1. -/
theorem C7_tombstones_witness :
    processLoop buyCondition
      ⟨fun _ => none, fun _ => none, ⟨"B9", "buy", 20, 5, 2⟩,
        [⟨"T1", "sell", 10, 5, 1⟩], []⟩ =
      processLoop buyCondition
        ⟨fun _ => none, fun _ => none, ⟨"B9", "buy", 20, 5, 2⟩,
          popHeap [⟨"T1", "sell", 10, 5, 1⟩], []⟩ ∧
    (⟨"R1", (5:ℤ), 10⟩ : MatchItem).oid ≠ "C1" := by
  constructor
  · exact C7_tombstones.1 buyCondition
      ⟨fun _ => none, fun _ => none, ⟨"B9", "buy", 20, 5, 2⟩,
        [⟨"T1", "sell", 10, 5, 1⟩], []⟩
      ⟨"T1", "sell", 10, 5, 1⟩ [] rfl (by decide) rfl
  · exact C7_tombstones.2.2
      (runBook [Cmd.place "R1" "Sell" 10 5, Cmd.place "C1" "Sell" 12 5,
        Cmd.cancel "C1"])
      "B9" "Buy" 20 9 "C1"
      (inv_runBook [Cmd.place "R1" "Sell" 10 5, Cmd.place "C1" "Sell" 12 5,
        Cmd.cancel "C1"])
      (by decide) ⟨"R1", (5:ℤ), 10⟩ (by decide)


/-- C8: structural failures are atomic.  A placement with an
unrecognized side, a non-positive price or quantity, or an id already
present in any lifecycle map raises (returns through the error channel)
and leaves the book unchanged. -/
theorem C8_structural_failures (b : OrderBook) (i s : String) (p q : ℤ)
    (h : ¬(strLower s = "buy" ∨ strLower s = "sell") ∨ p ≤ 0 ∨ q ≤ 0 ∨
      (b.active_orders i).isSome = true ∨
      (b.filled_orders i).isSome = true ∨
      (b.canceled_orders i).isSome = true) :
    (∃ e, (b.place_order i s p q).1 = Except.error e) ∧
    (b.place_order i s p q).2 = b := by
  by_cases h1 : i = "" ∨ s = "" ∨ p = 0 ∨ q = 0
  · constructor
    · refine ⟨"Invalid parameters: order_id, side, price and quantity are required", ?_⟩
      show (b.place_order_ev i s p q).1 = _
      rw [OrderBook.place_order_ev, if_pos h1]
    · show (b.place_order_ev i s p q).2.1 = b
      rw [OrderBook.place_order_ev, if_pos h1]
  by_cases hdup : (b.active_orders i).isSome = true ∨
      (b.filled_orders i).isSome = true ∨
      (b.canceled_orders i).isSome = true
  · constructor
    · refine ⟨"Order with this ID has already been placed", ?_⟩
      show (b.place_order_ev i s p q).1 = _
      rw [OrderBook.place_order_ev, if_neg h1, if_pos hdup]
    · show (b.place_order_ev i s p q).2.1 = b
      rw [OrderBook.place_order_ev, if_neg h1, if_pos hdup]
  have hinit : ∃ e2, Order.init i s p q b.order_counter =
      Except.error e2 := by
    rcases h with hv | hp | hq2 | ha | hf | hc
    · exact ⟨_, by rw [Order.init, if_pos hv]⟩
    · by_cases hv2 : ¬(strLower s = "buy" ∨ strLower s = "sell")
      · exact ⟨_, by rw [Order.init, if_pos hv2]⟩
      · exact ⟨_, by rw [Order.init, if_neg hv2, if_pos (Or.inl hp)]⟩
    · by_cases hv2 : ¬(strLower s = "buy" ∨ strLower s = "sell")
      · exact ⟨_, by rw [Order.init, if_pos hv2]⟩
      · exact ⟨_, by rw [Order.init, if_neg hv2, if_pos (Or.inr hq2)]⟩
    · exact absurd (Or.inl ha) hdup
    · exact absurd (Or.inr (Or.inl hf)) hdup
    · exact absurd (Or.inr (Or.inr hc)) hdup
  obtain ⟨e2, he2⟩ := hinit
  constructor
  · refine ⟨e2, ?_⟩
    show (b.place_order_ev i s p q).1 = _
    rw [OrderBook.place_order_ev, if_neg h1, if_neg hdup, he2]
  · show (b.place_order_ev i s p q).2.1 = b
    rw [OrderBook.place_order_ev, if_neg h1, if_neg hdup, he2]

/-- C8 witness: an unrecognized side on a fresh book raises and
changes nothing. -/
theorem C8_structural_failures_witness :
    (∃ e, (OrderBook.init.place_order "B1" "left" 10 5).1 =
      Except.error e) ∧
    (OrderBook.init.place_order "B1" "left" 10 5).2 = OrderBook.init :=
  C8_structural_failures OrderBook.init "B1" "left" 10 5
    (Or.inl (by decide))

/-- C9: the matching loop terminates.  Fuel `2·|opposite| + 1` already
computes the loop\'s fixed point (each iteration pops a stale entry or
consumes the incoming order), and the final state is a genuine
stopping state: the incoming order exhausted, the opposite heap empty,
or a live best entry that fails the crossing test. -/
theorem C9_termination :
    (∀ (cond : ℤ → ℤ → Bool) (st : LoopSt) (f : ℕ),
      2 * st.opp.length + 1 ≤ f →
      processLoopF cond f st = processLoop cond st) ∧
    (∀ (cond : ℤ → ℤ → Bool) (st : LoopSt),
      (processLoop cond st).order.quantity = 0 ∨
      (processLoop cond st).opp = [] ∨
      ∃ top rest, (processLoop cond st).opp = top :: rest ∧
        ((processLoop cond st).active top.order_id).isSome = true ∧
        cond (processLoop cond st).order.price top.price = false) := by
  constructor
  · intro cond st f hf
    refine fuel_suffices cond ?_
    rw [loopMeasure]
    split <;> omega
  · intro cond st
    exact processLoop_final cond (loopMeasure st) st le_rfl

/-- C9 witness: on a one-entry book extra fuel changes nothing. -/
theorem C9_termination_witness :
    processLoopF buyCondition 7
      ⟨mapSet (fun _ => none) "R1" ⟨"R1", "sell", 10, 5, 1⟩,
        fun _ => none, ⟨"B9", "buy", 20, 8, 2⟩,
        [⟨"R1", "sell", 10, 5, 1⟩], []⟩ =
      processLoop buyCondition
        ⟨mapSet (fun _ => none) "R1" ⟨"R1", "sell", 10, 5, 1⟩,
          fun _ => none, ⟨"B9", "buy", 20, 8, 2⟩,
          [⟨"R1", "sell", 10, 5, 1⟩], []⟩ :=
  C9_termination.1 buyCondition
    ⟨mapSet (fun _ => none) "R1" ⟨"R1", "sell", 10, 5, 1⟩,
      fun _ => none, ⟨"B9", "buy", 20, 8, 2⟩,
      [⟨"R1", "sell", 10, 5, 1⟩], []⟩ 7 (by decide)

/-- C10: a falsy parameter (empty id, empty side, zero price, or zero
quantity) makes `place_order` raise the parameters `ValueError` before
any side or sign validation, leaving the book unchanged. -/
theorem C10_falsy_params (b : OrderBook) (i s : String) (p q : ℤ)
    (h : i = "" ∨ s = "" ∨ p = 0 ∨ q = 0) :
    (b.place_order i s p q).1 = Except.error
      "Invalid parameters: order_id, side, price and quantity are required" ∧
    (b.place_order i s p q).2 = b := by
  constructor
  · show (b.place_order_ev i s p q).1 = _
    rw [OrderBook.place_order_ev, if_pos h]
  · show (b.place_order_ev i s p q).2.1 = b
    rw [OrderBook.place_order_ev, if_pos h]

/-- C10 witness: an empty order id with otherwise valid arguments
raises the parameters `ValueError` and changes nothing. -/
theorem C10_falsy_params_witness :
    (OrderBook.init.place_order "" "Buy" 10 5).1 = Except.error
      "Invalid parameters: order_id, side, price and quantity are required" ∧
    (OrderBook.init.place_order "" "Buy" 10 5).2 = OrderBook.init :=
  C10_falsy_params OrderBook.init "" "Buy" 10 5 (Or.inl rfl)

end LimitOrderBook









